import Mathlib

/-!
# Verification of the NVRHI offset allocator

A shallow embedding of `src/src/common/offset-allocator.cpp` (namespace
`nvrhi`, class `OffsetAllocator`, (C) Sebastian Aaltonen 2023) together with
proofs about its size-class codec, its bin bitmap search, and the allocator
state machine (`reset` / `allocate` / `free` / `storageReport`).

All `uint32` quantities are modelled as `Nat` with explicit reduction
modulo `2^32` at the operations where the C++ arithmetic can wrap.
Arrays (`m_nodes`, `m_freeNodes`, `m_usedBins`, `m_binIndices`) are modelled
as total functions from indices to contents; the C++ code never reads out of
bounds in the states we reason about.
-/

set_option autoImplicit false
set_option maxRecDepth 10000

namespace OffsetAllocator

/-- `2^32`: the modulus of `uint32` arithmetic. -/
def U32 : Nat := 4294967296

/-- `OffsetAllocator::Alloc::NO_SPACE = 0xffffffff`. -/
def NO_SPACE : Nat := 4294967295

/-- `OffsetAllocator::Node::UNUSED = 0xffffffff`. -/
def UNUSED : Nat := 4294967295

/-- `SMALL_FLT_MANTISSA_BITS = 3`. -/
def SMALL_FLT_MANTISSA_BITS : Nat := 3

/-- `SMALL_FLT_MANTISSA_VALUE = 1 << SMALL_FLT_MANTISSA_BITS = 8`. -/
def SMALL_FLT_MANTISSA_VALUE : Nat := 8

/-- `SMALL_FLT_MANTISSA_MASK = SMALL_FLT_MANTISSA_VALUE - 1 = 7`. -/
def SMALL_FLT_MANTISSA_MASK : Nat := 7

/-- Fuel-driven floor-log₂: `log2Fuel fuel n = ⌊log₂ n⌋` for `1 ≤ n < 2^fuel`.
    (A structurally recursive version of `⌊log₂⌋` so that the kernel can
    evaluate it on concrete inputs.) -/
def log2Fuel : Nat → Nat → Nat
  | 0, _ => 0
  | fuel + 1, n => if 2 ≤ n then log2Fuel fuel (n / 2) + 1 else 0

/-- `lzcnt_nonzero(v)`: count of leading zero bits of a nonzero `uint32`
    (`_BitScanReverse` / `__builtin_clz`), i.e. `31 - ⌊log₂ v⌋`. -/
def lzcnt_nonzero (v : Nat) : Nat := 31 - log2Fuel 32 v

/-- Fuel-driven count of trailing zero bits. -/
def tzcntFuel : Nat → Nat → Nat
  | 0, _ => 0
  | fuel + 1, v => if v % 2 = 1 then 0 else tzcntFuel fuel (v / 2) + 1

/-- `tzcnt_nonzero(v)`: count of trailing zero bits of a nonzero `uint32`
    (`_BitScanForward` / `__builtin_ctz`). -/
def tzcnt_nonzero (v : Nat) : Nat := tzcntFuel 32 v

/-- `uintToSmallFloatRoundUp(size)` of the source: quantize a size to its
    (exponent, 3-bit mantissa) size-class index, rounding up. -/
def uintToSmallFloatRoundUp (size : Nat) : Nat :=
  if size < SMALL_FLT_MANTISSA_VALUE then
    size
  else
    let leadingZeros := lzcnt_nonzero size
    let highestSetBit := 31 - leadingZeros
    let mantissaStartBit := highestSetBit - SMALL_FLT_MANTISSA_BITS
    let exp := mantissaStartBit + 1
    let mantissa := (size >>> mantissaStartBit) &&& SMALL_FLT_MANTISSA_MASK
    let lowBitsMask := (1 <<< mantissaStartBit) - 1
    let mantissa2 := if size &&& lowBitsMask ≠ 0 then mantissa + 1 else mantissa
    (exp <<< SMALL_FLT_MANTISSA_BITS) + mantissa2

/-- `uintToSmallFloatRoundDown(size)` of the source: quantize a size to its
    (exponent, 3-bit mantissa) size-class index, rounding down. -/
def uintToSmallFloatRoundDown (size : Nat) : Nat :=
  if size < SMALL_FLT_MANTISSA_VALUE then
    size
  else
    let leadingZeros := lzcnt_nonzero size
    let highestSetBit := 31 - leadingZeros
    let mantissaStartBit := highestSetBit - SMALL_FLT_MANTISSA_BITS
    let exp := mantissaStartBit + 1
    let mantissa := (size >>> mantissaStartBit) &&& SMALL_FLT_MANTISSA_MASK
    (exp <<< SMALL_FLT_MANTISSA_BITS) ||| mantissa

/-- `smallFloatToUint(floatValue)` of the source: decode a size-class index
    back to its representative size.  The C++ shift is a `uint32` shift, hence
    the explicit reduction modulo `2^32` (it can really overflow: for indices
    `≥ 240` the mathematical value is `≥ 2^32`). -/
def smallFloatToUint (floatValue : Nat) : Nat :=
  let exponent := floatValue >>> SMALL_FLT_MANTISSA_BITS
  let mantissa := floatValue &&& SMALL_FLT_MANTISSA_MASK
  if exponent = 0 then mantissa
  else ((mantissa ||| SMALL_FLT_MANTISSA_VALUE) <<< (exponent - 1)) % U32

/-- `findLowestSetBitAfter(bitMask, startBitIndex)` of the source.
    `~maskBeforeStartIndex` on `uint32` is `(2^32 - 1) - maskBeforeStartIndex`
    (the mask is an all-ones suffix, so plain subtraction is the complement). -/
def findLowestSetBitAfter (bitMask startBitIndex : Nat) : Nat :=
  let maskBeforeStartIndex := (1 <<< startBitIndex) - 1
  let maskAfterStartIndex := (U32 - 1) - maskBeforeStartIndex
  let bitsAfter := bitMask &&& maskAfterStartIndex
  if bitsAfter = 0 then NO_SPACE else tzcnt_nonzero bitsAfter

/-! ## The allocator state machine -/

/-- `NUM_TOP_BINS = 32`. -/
def NUM_TOP_BINS : Nat := 32

/-- `BINS_PER_LEAF = 8`. -/
def BINS_PER_LEAF : Nat := 8

/-- `TOP_BINS_INDEX_SHIFT = 3`. -/
def TOP_BINS_INDEX_SHIFT : Nat := 3

/-- `LEAF_BINS_INDEX_MASK = 0x7`. -/
def LEAF_BINS_INDEX_MASK : Nat := 7

/-- `NUM_LEAF_BINS = NUM_TOP_BINS * BINS_PER_LEAF = 256`. -/
def NUM_LEAF_BINS : Nat := 256

/-- `OffsetAllocator::Node`: one arena slot.  Default field values mirror the
    C++ default member initializers (`new Node[…]` default-initializes). -/
structure Node where
  dataOffset : Nat := 0
  dataSize : Nat := 0
  binListPrev : Nat := UNUSED
  binListNext : Nat := UNUSED
  neighborPrev : Nat := UNUSED
  neighborNext : Nat := UNUSED
  used : Bool := false
deriving DecidableEq, Repr

/-- `OffsetAllocator::Alloc`: the allocation handle returned by `allocate`.
    Default values give the sentinel `{}` returned on failure. -/
structure Alloc where
  offset : Nat := NO_SPACE
  metadata : Nat := NO_SPACE
deriving DecidableEq, Repr

/-- `OffsetAllocator::StorageReport`. -/
structure StorageReport where
  totalFreeSpace : Nat := 0
  largestFreeRegion : Nat := 0
deriving DecidableEq, Repr

/-- The data members of class `OffsetAllocator`.  The C++ arrays
    `m_usedBins[32]`, `m_binIndices[256]`, `m_nodes[maxAllocs+1]`,
    `m_freeNodes[maxAllocs+1]` are modelled as total functions; entries beyond
    the C++ array bounds are never read by the modelled operations in the
    states we reason about.  `hasNodes` models `m_nodes != nullptr`. -/
structure AllocState where
  m_size : Nat
  m_maxAllocs : Nat
  m_freeStorage : Nat
  m_usedBinsTop : Nat
  m_usedBins : Nat → Nat
  m_binIndices : Nat → Nat
  hasNodes : Bool
  m_nodes : Nat → Node
  m_freeNodes : Nat → Nat
  m_freeOffset : Nat

/-- Pointwise array update. -/
def upd {α : Type} (f : Nat → α) (i : Nat) (v : α) : Nat → α :=
  fun j => if j = i then v else f j

/-- `uint32` addition (wraps modulo `2^32`). -/
def add32 (a b : Nat) : Nat := (a + b) % U32

/-- `uint32` subtraction (wraps modulo `2^32`); `a`, `b` are `< 2^32` at
    every use site. -/
def sub32 (a b : Nat) : Nat := (a + U32 - b) % U32

/-- The `OffsetAllocator(maxAllocs)` constructor: `m_size = 0`, arrays not yet
    allocated.  The C++ leaves `m_usedBinsTop`, `m_usedBins`, `m_binIndices`
    uninitialized until `reset`; the model picks the empty-bin values for them
    (they are only read before a `reset` on executions the C++ contract calls
    undefined). -/
def initState (maxAllocs : Nat) : AllocState where
  m_size := 0
  m_maxAllocs := maxAllocs
  m_freeStorage := 0
  m_usedBinsTop := 0
  m_usedBins := fun _ => 0
  m_binIndices := fun _ => UNUSED
  hasNodes := false
  m_nodes := fun _ => {}
  m_freeNodes := fun _ => 0
  m_freeOffset := 0

/-- `OffsetAllocator::insertNodeIntoBin(size, dataOffset)`: returns the updated
    state and the index of the inserted node. -/
def insertNodeIntoBin (s : AllocState) (size dataOffset : Nat) : AllocState × Nat :=
  -- Round down to bin index to ensure that bin >= alloc
  let binIndex := uintToSmallFloatRoundDown size
  let topBinIndex := binIndex >>> TOP_BINS_INDEX_SHIFT
  let leafBinIndex := binIndex &&& LEAF_BINS_INDEX_MASK
  -- Bin was empty before?
  let s1 := if s.m_binIndices binIndex = UNUSED then
      { s with m_usedBins := upd s.m_usedBins topBinIndex
                 ((s.m_usedBins topBinIndex) ||| (1 <<< leafBinIndex)),
               m_usedBinsTop := s.m_usedBinsTop ||| (1 <<< topBinIndex) }
    else s
  -- Take a freelist node and insert on top of the bin linked list (next = old top)
  let topNodeIndex := s1.m_binIndices binIndex
  let nodeIndex := s1.m_freeNodes s1.m_freeOffset
  let s2 := { s1 with m_freeOffset := sub32 s1.m_freeOffset 1,
                      m_nodes := upd s1.m_nodes nodeIndex
                        ({ dataOffset := dataOffset, dataSize := size,
                           binListNext := topNodeIndex }) }
  let s3 := if topNodeIndex ≠ UNUSED then
      { s2 with m_nodes := upd s2.m_nodes topNodeIndex
                  ({ s2.m_nodes topNodeIndex with binListPrev := nodeIndex }) }
    else s2
  let s4 := { s3 with m_binIndices := upd s3.m_binIndices binIndex nodeIndex,
                      m_freeStorage := add32 s3.m_freeStorage size }
  (s4, nodeIndex)

/-- `OffsetAllocator::removeNodeFromBin(nodeIndex)`. -/
def removeNodeFromBin (s : AllocState) (nodeIndex : Nat) : AllocState :=
  let node := s.m_nodes nodeIndex
  let s3 :=
    if node.binListPrev ≠ UNUSED then
      -- Easy case: We have previous node. Just remove this node from the middle of the list.
      let s1 := { s with m_nodes := upd s.m_nodes node.binListPrev
                             ({ s.m_nodes node.binListPrev with binListNext := node.binListNext }) }
      if node.binListNext ≠ UNUSED then
        { s1 with m_nodes := upd s1.m_nodes node.binListNext
                      ({ s1.m_nodes node.binListNext with binListPrev := node.binListPrev }) }
      else s1
    else
      -- Hard case: We are the first node in a bin. Find the bin.
      let binIndex := uintToSmallFloatRoundDown node.dataSize
      let topBinIndex := binIndex >>> TOP_BINS_INDEX_SHIFT
      let leafBinIndex := binIndex &&& LEAF_BINS_INDEX_MASK
      let s1 := { s with m_binIndices := upd s.m_binIndices binIndex node.binListNext }
      let s2 := if node.binListNext ≠ UNUSED then
          { s1 with m_nodes := upd s1.m_nodes node.binListNext
                        ({ s1.m_nodes node.binListNext with binListPrev := UNUSED }) }
        else s1
      -- Bin empty?
      if s2.m_binIndices binIndex = UNUSED then
        -- Remove a leaf bin mask bit (uint8 `&= ~(1 << leafBinIndex)`)
        let newLeaf := (s2.m_usedBins topBinIndex) &&& ((U32 - 1) - (1 <<< leafBinIndex))
        let s2a := { s2 with m_usedBins := upd s2.m_usedBins topBinIndex newLeaf }
        -- All leaf bins empty?
        if newLeaf = 0 then
          { s2a with m_usedBinsTop := s2a.m_usedBinsTop &&& ((U32 - 1) - (1 <<< topBinIndex)) }
        else s2a
      else s2
  -- Insert the node to freelist (`m_freeNodes[++m_freeOffset] = nodeIndex`)
  let s4 := { s3 with m_freeOffset := add32 s3.m_freeOffset 1 }
  let s5 := { s4 with m_freeNodes := upd s4.m_freeNodes s4.m_freeOffset nodeIndex }
  { s5 with m_freeStorage := sub32 s5.m_freeStorage (s5.m_nodes nodeIndex).dataSize }

/-- The shared tail of `OffsetAllocator::allocate` (source lines 252-299): pop
    the head node of bin `(topBinIndex, leafBinIndex)`, mark it used with the
    exact requested size, maintain the bitmap, split off the remainder. -/
def allocAt (s : AllocState) (size topBinIndex leafBinIndex : Nat) : AllocState × Alloc :=
  let binIndex := (topBinIndex <<< TOP_BINS_INDEX_SHIFT) ||| leafBinIndex
  -- Pop the top node of the bin. Bin top = node.next.
  let nodeIndex := s.m_binIndices binIndex
  let node := s.m_nodes nodeIndex
  let nodeTotalSize := node.dataSize
  let s1 := { s with m_nodes := upd s.m_nodes nodeIndex
                         ({ node with dataSize := size, used := true }) }
  let s2 := { s1 with m_binIndices := upd s1.m_binIndices binIndex node.binListNext }
  let s3 := if node.binListNext ≠ UNUSED then
      { s2 with m_nodes := upd s2.m_nodes node.binListNext
                    ({ s2.m_nodes node.binListNext with binListPrev := UNUSED }) }
    else s2
  let s4 := { s3 with m_freeStorage := sub32 s3.m_freeStorage nodeTotalSize }
  -- Bin empty?
  let s5 := if s4.m_binIndices binIndex = UNUSED then
      -- Remove a leaf bin mask bit (uint8 `&= ~(1 << leafBinIndex)`)
      let newLeaf := (s4.m_usedBins topBinIndex) &&& ((U32 - 1) - (1 <<< leafBinIndex))
      let s4a := { s4 with m_usedBins := upd s4.m_usedBins topBinIndex newLeaf }
      -- All leaf bins empty?
      if newLeaf = 0 then
        { s4a with m_usedBinsTop := s4a.m_usedBinsTop &&& ((U32 - 1) - (1 <<< topBinIndex)) }
      else s4a
    else s4
  -- Push back reminder N elements to a lower bin
  let reminderSize := sub32 nodeTotalSize size
  let s8 := if 0 < reminderSize then
      let pair := insertNodeIntoBin s5 reminderSize
        (add32 (s5.m_nodes nodeIndex).dataOffset size)
      let s6 := pair.1
      let newNodeIndex := pair.2
      -- Link nodes next to each other so that we can merge them later if both are free
      -- And update the old next neighbor to point to the new node (in middle)
      let s7 := if (s6.m_nodes nodeIndex).neighborNext ≠ UNUSED then
          { s6 with m_nodes := upd s6.m_nodes ((s6.m_nodes nodeIndex).neighborNext)
                                 ({ s6.m_nodes ((s6.m_nodes nodeIndex).neighborNext) with
                                    neighborPrev := newNodeIndex }) }
        else s6
      let s7a := { s7 with m_nodes := upd s7.m_nodes newNodeIndex
                               ({ s7.m_nodes newNodeIndex with neighborPrev := nodeIndex }) }
      let s7b := { s7a with m_nodes := upd s7a.m_nodes newNodeIndex
                                ({ s7a.m_nodes newNodeIndex with
                                   neighborNext := (s7a.m_nodes nodeIndex).neighborNext }) }
      { s7b with m_nodes := upd s7b.m_nodes nodeIndex
                     ({ s7b.m_nodes nodeIndex with neighborNext := newNodeIndex }) }
    else s5
  (s8, { offset := (s8.m_nodes nodeIndex).dataOffset, metadata := nodeIndex })

/-- `OffsetAllocator::allocate(size)`. -/
def allocate (s : AllocState) (size : Nat) : AllocState × Alloc :=
  -- Out of allocations?
  if s.m_freeOffset = NO_SPACE then (s, {})
  else
    -- Round up to bin index to ensure that alloc >= bin
    let minBinIndex := uintToSmallFloatRoundUp size
    let minTopBinIndex := minBinIndex >>> TOP_BINS_INDEX_SHIFT
    let minLeafBinIndex := minBinIndex &&& LEAF_BINS_INDEX_MASK
    -- If top bin exists, scan its leaf bin. This can fail (NO_SPACE).
    let leafBinIndex0 :=
      if s.m_usedBinsTop &&& (1 <<< minTopBinIndex) ≠ 0 then
        findLowestSetBitAfter (s.m_usedBins minTopBinIndex) minLeafBinIndex
      else NO_SPACE
    -- If we didn't find space in top bin, we search top bin from +1
    if leafBinIndex0 = NO_SPACE then
      let topBinIndex := findLowestSetBitAfter s.m_usedBinsTop (minTopBinIndex + 1)
      -- Out of space?
      if topBinIndex = NO_SPACE then (s, {})
      else allocAt s size topBinIndex (tzcnt_nonzero (s.m_usedBins topBinIndex))
    else allocAt s size minTopBinIndex leafBinIndex0

/-- `OffsetAllocator::free(nodeIndex)`. -/
def free (s : AllocState) (nodeIndex : Nat) : AllocState :=
  if nodeIndex = NO_SPACE ∨ s.hasNodes = false then s
  else
    -- Merge with neighbors...
    let node0 := s.m_nodes nodeIndex
    let p := node0.neighborPrev
    let step1 :=
      if p ≠ UNUSED ∧ (s.m_nodes p).used = false then
        -- Previous (contiguous) free node: Change offset to previous node offset. Sum sizes
        let prevNode := s.m_nodes p
        let sA := removeNodeFromBin s p
        let sB := { sA with m_nodes := upd sA.m_nodes nodeIndex
                                ({ sA.m_nodes nodeIndex with neighborPrev := (sA.m_nodes p).neighborPrev }) }
        (sB, prevNode.dataOffset, add32 node0.dataSize prevNode.dataSize)
      else (s, node0.dataOffset, node0.dataSize)
    let s1 := step1.1
    let offset1 := step1.2.1
    let size1 := step1.2.2
    let n1 := (s1.m_nodes nodeIndex).neighborNext
    let step2 :=
      if n1 ≠ UNUSED ∧ (s1.m_nodes n1).used = false then
        -- Next (contiguous) free node: Offset remains the same. Sum sizes.
        let nextNode := s1.m_nodes n1
        let sA := removeNodeFromBin s1 n1
        let sB := { sA with m_nodes := upd sA.m_nodes nodeIndex
                                ({ sA.m_nodes nodeIndex with neighborNext := (sA.m_nodes n1).neighborNext }) }
        (sB, add32 size1 nextNode.dataSize)
      else (s1, size1)
    let s2 := step2.1
    let size2 := step2.2
    let neighborNext := (s2.m_nodes nodeIndex).neighborNext
    let neighborPrev := (s2.m_nodes nodeIndex).neighborPrev
    -- Insert the removed node to freelist (`m_freeNodes[++m_freeOffset] = nodeIndex`)
    let s3 := { s2 with m_freeOffset := add32 s2.m_freeOffset 1 }
    let s4 := { s3 with m_freeNodes := upd s3.m_freeNodes s3.m_freeOffset nodeIndex }
    -- Insert the (combined) free node to bin
    let pair := insertNodeIntoBin s4 size2 offset1
    let s5 := pair.1
    let combinedNodeIndex := pair.2
    -- Connect neighbors with the new combined node
    let s6 := if neighborNext ≠ UNUSED then
        let sA := { s5 with m_nodes := upd s5.m_nodes combinedNodeIndex
                                ({ s5.m_nodes combinedNodeIndex with neighborNext := neighborNext }) }
        { sA with m_nodes := upd sA.m_nodes neighborNext
                      ({ sA.m_nodes neighborNext with neighborPrev := combinedNodeIndex }) }
      else s5
    if neighborPrev ≠ UNUSED then
      let sA := { s6 with m_nodes := upd s6.m_nodes combinedNodeIndex
                              ({ s6.m_nodes combinedNodeIndex with neighborPrev := neighborPrev }) }
      { sA with m_nodes := upd sA.m_nodes neighborPrev
                    ({ sA.m_nodes neighborPrev with neighborNext := combinedNodeIndex }) }
    else s6

/-- `OffsetAllocator::reset(newSize)`. -/
def reset (s : AllocState) (newSize : Nat) : AllocState :=
  if s.m_size = newSize then s
  else
    let s1 : AllocState := {
      m_size := newSize
      m_maxAllocs := s.m_maxAllocs
      m_freeStorage := 0
      m_usedBinsTop := 0
      m_usedBins := fun _ => 0
      m_binIndices := fun _ => UNUSED
      hasNodes := true
      m_nodes := fun _ => {}
      -- Freelist is a stack. Nodes in inverse order so that [0] pops first.
      m_freeNodes := fun i => if i < s.m_maxAllocs + 1 then s.m_maxAllocs - i else 0
      m_freeOffset := s.m_maxAllocs
    }
    -- Start state: Whole storage as one big node
    (insertNodeIntoBin s1 s1.m_size 0).1

/-- `OffsetAllocator::allocationSize(allocation)`. -/
def allocationSize (s : AllocState) (allocation : Alloc) : Nat :=
  if allocation.metadata = NO_SPACE then 0
  else if s.hasNodes = false then 0
  else (s.m_nodes allocation.metadata).dataSize

/-- `OffsetAllocator::storageReport()`. -/
def storageReport (s : AllocState) : StorageReport :=
  -- Out of allocations? -> Zero free space
  if s.m_freeOffset = 0 then {}
  else
    let report1 : StorageReport := { totalFreeSpace := s.m_freeStorage }
    if s.m_usedBinsTop ≠ 0 then
      let topBinIndex := 31 - lzcnt_nonzero s.m_usedBinsTop
      let leafBinIndex := 31 - lzcnt_nonzero (s.m_usedBins topBinIndex)
      { report1 with largestFreeRegion :=
          smallFloatToUint ((topBinIndex <<< TOP_BINS_INDEX_SHIFT) ||| leafBinIndex) }
    else report1

/-! ## Abstractions used to state the invariants

The predicates below are parametrized by accessor functions
(`Nat → Nat` / `Nat → Bool`) so that they can be read off any intermediate
node array. -/

/-- `chainSeg nxt prv p e l`: the node indices in `l` form a doubly-linked
    segment: the first link back to `p`, consecutive elements link to each
    other in both directions, and the last links forward to `e`. -/
def chainSeg (nxt prv : Nat → Nat) : Nat → Nat → List Nat → Prop
  | _, _, [] => True
  | p, e, i :: t => prv i = p ∧ nxt i = t.headD e ∧ chainSeg nxt prv i e t

/-- `spansFrom off sz o l`: the spans of the nodes in `l` are consecutive,
    starting at offset `o` (each node starts where the previous one ended). -/
def spansFrom (off sz : Nat → Nat) : Nat → List Nat → Prop
  | _, [] => True
  | o, i :: t => off i = o ∧ spansFrom off sz (o + sz i) t

/-- Sum of `f` over a list of node indices. -/
def sumList (f : Nat → Nat) (l : List Nat) : Nat := (l.map f).sum

/-- No two spatially adjacent nodes are both free (maximal coalescing). -/
def noAdjFree (usedB : Nat → Bool) (l : List Nat) : Prop :=
  List.Chain' (fun a b => usedB a = true ∨ usedB b = true) l

/-- Walk a bin free list from `idx` following `binListNext`, with fuel. -/
def binWalk (s : AllocState) : Nat → Nat → List Nat
  | 0, _ => []
  | fuel + 1, idx => if idx = UNUSED then [] else idx :: binWalk s fuel ((s.m_nodes idx).binListNext)

/-- The contents of bin `b` read off the state (head from the bin directory,
    then `binListNext` links). -/
def binContents (s : AllocState) (b : Nat) : List Nat :=
  binWalk s (s.m_maxAllocs + 2) (s.m_binIndices b)

/-- All currently-free nodes, read off the state: the concatenation of all
    256 bin free lists. -/
def freeNodesList (s : AllocState) : List Nat :=
  (List.range NUM_LEAF_BINS).flatMap (binContents s)

/-- The indices (in increasing order) of the non-empty bins. -/
def nonEmptyBins (s : AllocState) : List Nat :=
  (List.range NUM_LEAF_BINS).filter (fun b => ¬ (binContents s b).isEmpty)

/-- Consistency of the two-level bitmap (`ub` = leaf bytes, `ut` = top word)
    with a per-bin "non-empty" predicate `P`. -/
def BitmapOK (ub : Nat → Nat) (ut : Nat) (P : Nat → Prop) : Prop :=
  (∀ b, b < NUM_LEAF_BINS → ((ub (b / 8)) &&& (1 <<< (b % 8)) ≠ 0 ↔ P b)) ∧
  (∀ t, t < NUM_TOP_BINS → (ut &&& (1 <<< t) ≠ 0 ↔ ub t ≠ 0)) ∧
  (∀ t, t < NUM_TOP_BINS → ub t < 256) ∧ ut < U32

/-- Accessors of the node array of a state. -/
def nbrNext (s : AllocState) : Nat → Nat := fun i => (s.m_nodes i).neighborNext

def nbrPrev (s : AllocState) : Nat → Nat := fun i => (s.m_nodes i).neighborPrev

def binNext (s : AllocState) : Nat → Nat := fun i => (s.m_nodes i).binListNext

def binPrev (s : AllocState) : Nat → Nat := fun i => (s.m_nodes i).binListPrev

def offF (s : AllocState) : Nat → Nat := fun i => (s.m_nodes i).dataOffset

def szF (s : AllocState) : Nat → Nat := fun i => (s.m_nodes i).dataSize

def usedF (s : AllocState) : Nat → Bool := fun i => (s.m_nodes i).used

/-- Well-formedness of the spatial neighbor chain `L` (all live nodes in
    address order): doubly linked via the neighbor links, spans tile
    `[0, m_size)` exactly, indices distinct and in range, and free nodes are
    maximally coalesced. -/
structure ChainWF (s : AllocState) (L : List Nat) : Prop where
  links : chainSeg (nbrNext s) (nbrPrev s) UNUSED UNUSED L
  spans : spansFrom (offF s) (szF s) 0 L
  total : sumList (szF s) L = s.m_size
  nodup : L.Nodup
  bounded : ∀ i ∈ L, i ≤ s.m_maxAllocs
  coalesced : noAdjFree (usedF s) L

/-- Well-formedness of the bin directory, the per-bin free lists `B`, and the
    two-level bitmap. -/
structure BinsWF (s : AllocState) (B : Nat → List Nat) : Prop where
  head : ∀ b, b < NUM_LEAF_BINS → s.m_binIndices b = (B b).headD UNUSED
  links : ∀ b, b < NUM_LEAF_BINS → chainSeg (binNext s) (binPrev s) UNUSED UNUSED (B b)
  nodup : ∀ b, b < NUM_LEAF_BINS → (B b).Nodup
  memCls : ∀ b, b < NUM_LEAF_BINS → ∀ i ∈ B b,
      uintToSmallFloatRoundDown ((s.m_nodes i).dataSize) = b ∧ (s.m_nodes i).used = false
  bitmap : BitmapOK s.m_usedBins s.m_usedBinsTop (fun b => B b ≠ [])

/-- Well-formedness of the free-index stack relative to the live chain `L`:
    the stack holds `m_maxAllocs + 1 - L.length` handles, all in range,
    distinct, and disjoint from the live nodes; `m_freeOffset` is the top
    index (wrapping to `0xffffffff` when the stack is empty). -/
structure StackWF (s : AllocState) (L : List Nat) : Prop where
  count : L.length ≤ s.m_maxAllocs + 1
  off : s.m_freeOffset = sub32 s.m_maxAllocs L.length
  mem : ∀ k, k < s.m_maxAllocs + 1 - L.length →
      s.m_freeNodes k ≤ s.m_maxAllocs ∧ s.m_freeNodes k ∉ L
  dist : ∀ k1 k2, k1 < k2 → k2 < s.m_maxAllocs + 1 - L.length →
      s.m_freeNodes k1 ≠ s.m_freeNodes k2

/-- The full allocator invariant, with the live chain `L` and the per-bin
    lists `B` as witnesses. -/
structure InvW (s : AllocState) (L : List Nat) (B : Nat → List Nat) : Prop where
  hasN : s.hasNodes = true
  sizeLt : s.m_size < U32
  maxLt : s.m_maxAllocs ≤ U32 - 2
  chain : ChainWF s L
  bins : BinsWF s B
  stack : StackWF s L
  binsSub : ∀ b, b < NUM_LEAF_BINS → ∀ i ∈ B b, i ∈ L
  freeInBin : ∀ i ∈ L, (s.m_nodes i).used = false →
      i ∈ B (uintToSmallFloatRoundDown ((s.m_nodes i).dataSize))
  unusedOut : ∀ i, i ≤ s.m_maxAllocs → i ∉ L → (s.m_nodes i).used = false
  storage : s.m_freeStorage =
      sumList (szF s) (L.filter (fun i => (s.m_nodes i).used = false))

/-- The state of a constructed allocator on which `reset` has not yet taken
    effect (`m_nodes == nullptr`): all operations except a proper `reset` are
    no-ops / sentinel returns on it. -/
def PreInit (s : AllocState) : Prop :=
  s.hasNodes = false ∧ s.m_usedBinsTop = 0 ∧ s.m_freeOffset = 0 ∧ s.m_size = 0 ∧
    s.m_maxAllocs ≤ U32 - 2

/-- Every reachable allocator state is either still pre-`reset`, or satisfies
    the full invariant. -/
def GoodState (s : AllocState) : Prop := PreInit s ∨ ∃ L B, InvW s L B

/-- States reachable from a freshly constructed allocator by `reset`,
    `allocate`, and contract-respecting `free` calls (`free` is passed either
    the sentinel or a currently-used node handle). -/
inductive Reachable : AllocState → Prop
  | init (maxAllocs : Nat) (h : maxAllocs ≤ U32 - 2) : Reachable (initState maxAllocs)
  | reset (s : AllocState) (n : Nat) (hn : n < U32) (hs : Reachable s) : Reachable (reset s n)
  | alloc (s : AllocState) (n : Nat) (hn : n < U32) (hs : Reachable s) :
      Reachable (allocate s n).1
  | dealloc (s : AllocState) (h : Nat) (hs : Reachable s)
      (hv : h = NO_SPACE ∨ ((s.m_nodes h).used = true ∧ h ≤ s.m_maxAllocs)) :
      Reachable (free s h)

/-- `AFReach s t`: `t` is reachable from `s` by a sequence of `allocate` and
    contract-respecting `free` calls (no `reset`). -/
inductive AFReach : AllocState → AllocState → Prop
  | refl (s : AllocState) : AFReach s s
  | alloc (s t : AllocState) (n : Nat) (hn : n < U32) (h : AFReach s t) :
      AFReach s (allocate t n).1
  | dealloc (s t : AllocState) (h : Nat) (hr : AFReach s t)
      (hv : h = NO_SPACE ∨ ((t.m_nodes h).used = true ∧ h ≤ t.m_maxAllocs)) :
      AFReach s (free t h)

/-- The C1 conclusion, stated on the raw state: some list of live nodes tiles
    `[0, S)` with no gaps or overlaps, the neighbor links of consecutive nodes
    point at each other, and the free sizes plus the used sizes sum to `S`. -/
def TilesAndLinked (s : AllocState) (S : Nat) : Prop :=
  ∃ L : List Nat,
    spansFrom (offF s) (szF s) 0 L ∧
    sumList (szF s) L = S ∧
    chainSeg (nbrNext s) (nbrPrev s) UNUSED UNUSED L ∧
    sumList (szF s) (L.filter (fun i => (s.m_nodes i).used = false)) +
      sumList (szF s) (L.filter (fun i => (s.m_nodes i).used = true)) = S

/-- Run a sequence of `allocate` calls, collecting the returned handles. -/
def allocateSeq (s : AllocState) : List Nat → AllocState × List Alloc
  | [] => (s, [])
  | n :: t =>
    let r := allocate s n
    let rest := allocateSeq r.1 t
    (rest.1, r.2 :: rest.2)

/-- The first half of `allocAt` (source lines 252-283): pop the head node of
    the bin, mark it used with the exact requested size, and maintain the
    bitmap.  Returns the state together with the popped node index and its
    original (pre-split) size.  `allocAt` is definitionally `popStage`
    followed by `splitStage` (theorem `allocAt_eq_stages`). -/
def popStage (s : AllocState) (size topBinIndex leafBinIndex : Nat) :
    AllocState × Nat × Nat :=
  let binIndex := (topBinIndex <<< TOP_BINS_INDEX_SHIFT) ||| leafBinIndex
  let nodeIndex := s.m_binIndices binIndex
  let node := s.m_nodes nodeIndex
  let nodeTotalSize := node.dataSize
  let s1 := { s with m_nodes := upd s.m_nodes nodeIndex
                         ({ node with dataSize := size, used := true }) }
  let s2 := { s1 with m_binIndices := upd s1.m_binIndices binIndex node.binListNext }
  let s3 := if node.binListNext ≠ UNUSED then
      { s2 with m_nodes := upd s2.m_nodes node.binListNext
                    ({ s2.m_nodes node.binListNext with binListPrev := UNUSED }) }
    else s2
  let s4 := { s3 with m_freeStorage := sub32 s3.m_freeStorage nodeTotalSize }
  let s5 := if s4.m_binIndices binIndex = UNUSED then
      let newLeaf := (s4.m_usedBins topBinIndex) &&& ((U32 - 1) - (1 <<< leafBinIndex))
      let s4a := { s4 with m_usedBins := upd s4.m_usedBins topBinIndex newLeaf }
      if newLeaf = 0 then
        { s4a with m_usedBinsTop := s4a.m_usedBinsTop &&& ((U32 - 1) - (1 <<< topBinIndex)) }
      else s4a
    else s4
  (s5, nodeIndex, nodeTotalSize)

/-- The second half of `allocAt` (source lines 287-299): split off the
    remainder into a lower bin and stitch the neighbor links. -/
def splitStage (s5 : AllocState) (nodeIndex nodeTotalSize size : Nat) :
    AllocState × Alloc :=
  let reminderSize := sub32 nodeTotalSize size
  let s8 := if 0 < reminderSize then
      let pair := insertNodeIntoBin s5 reminderSize
        (add32 (s5.m_nodes nodeIndex).dataOffset size)
      let s6 := pair.1
      let newNodeIndex := pair.2
      let s7 := if (s6.m_nodes nodeIndex).neighborNext ≠ UNUSED then
          { s6 with m_nodes := upd s6.m_nodes ((s6.m_nodes nodeIndex).neighborNext)
                                 ({ s6.m_nodes ((s6.m_nodes nodeIndex).neighborNext) with
                                    neighborPrev := newNodeIndex }) }
        else s6
      let s7a := { s7 with m_nodes := upd s7.m_nodes newNodeIndex
                               ({ s7.m_nodes newNodeIndex with neighborPrev := nodeIndex }) }
      let s7b := { s7a with m_nodes := upd s7a.m_nodes newNodeIndex
                                ({ s7a.m_nodes newNodeIndex with
                                   neighborNext := (s7a.m_nodes nodeIndex).neighborNext }) }
      { s7b with m_nodes := upd s7b.m_nodes nodeIndex
                     ({ s7b.m_nodes nodeIndex with neighborNext := newNodeIndex }) }
    else s5
  (s8, { offset := (s8.m_nodes nodeIndex).dataOffset, metadata := nodeIndex })

/-- The first stage of `free` (source lines 310-321): merge with the previous
    spatial neighbor if it is free.  Returns the state together with the
    combined offset and size so far.  `free` is definitionally the composition
    of `mergePrev`, `mergeNext` and `finishFree` (theorem `free_eq_stages`). -/
def mergePrev (s : AllocState) (nodeIndex : Nat) : AllocState × Nat × Nat :=
  let node0 := s.m_nodes nodeIndex
  let p := node0.neighborPrev
  if p ≠ UNUSED ∧ (s.m_nodes p).used = false then
    let prevNode := s.m_nodes p
    let sA := removeNodeFromBin s p
    let sB := { sA with m_nodes := upd sA.m_nodes nodeIndex
                            ({ sA.m_nodes nodeIndex with neighborPrev := (sA.m_nodes p).neighborPrev }) }
    (sB, prevNode.dataOffset, add32 node0.dataSize prevNode.dataSize)
  else (s, node0.dataOffset, node0.dataSize)

/-- The second stage of `free` (source lines 323-333): merge with the next
    spatial neighbor if it is free. -/
def mergeNext (s1 : AllocState) (nodeIndex size1 : Nat) : AllocState × Nat :=
  let n1 := (s1.m_nodes nodeIndex).neighborNext
  if n1 ≠ UNUSED ∧ (s1.m_nodes n1).used = false then
    let nextNode := s1.m_nodes n1
    let sA := removeNodeFromBin s1 n1
    let sB := { sA with m_nodes := upd sA.m_nodes nodeIndex
                            ({ sA.m_nodes nodeIndex with neighborNext := (sA.m_nodes n1).neighborNext }) }
    (sB, add32 size1 nextNode.dataSize)
  else (s1, size1)

/-- The last stage of `free` (source lines 335-358): return the handle to the
    free stack, insert the combined node into its bin, and reconnect the
    spatial neighbor links. -/
def finishFree (s2 : AllocState) (nodeIndex offset1 size2 : Nat) : AllocState :=
  let neighborNext := (s2.m_nodes nodeIndex).neighborNext
  let neighborPrev := (s2.m_nodes nodeIndex).neighborPrev
  let s3 := { s2 with m_freeOffset := add32 s2.m_freeOffset 1 }
  let s4 := { s3 with m_freeNodes := upd s3.m_freeNodes s3.m_freeOffset nodeIndex }
  let pair := insertNodeIntoBin s4 size2 offset1
  let s5 := pair.1
  let combinedNodeIndex := pair.2
  let s6 := if neighborNext ≠ UNUSED then
      let sA := { s5 with m_nodes := upd s5.m_nodes combinedNodeIndex
                              ({ s5.m_nodes combinedNodeIndex with neighborNext := neighborNext }) }
      { sA with m_nodes := upd sA.m_nodes neighborNext
                    ({ sA.m_nodes neighborNext with neighborPrev := combinedNodeIndex }) }
    else s5
  if neighborPrev ≠ UNUSED then
    let sA := { s6 with m_nodes := upd s6.m_nodes combinedNodeIndex
                            ({ s6.m_nodes combinedNodeIndex with neighborPrev := neighborPrev }) }
    { sA with m_nodes := upd sA.m_nodes neighborPrev
                  ({ sA.m_nodes neighborPrev with neighborNext := combinedNodeIndex }) }
  else s6

/-- The stack-push step of `finishFree` (source line 336:
    `m_freeNodes[++m_freeOffset] = nodeIndex`). -/
def pushFF (s2 : AllocState) (nodeIndex : Nat) : AllocState :=
  let s3 := { s2 with m_freeOffset := add32 s2.m_freeOffset 1 }
  { s3 with m_freeNodes := upd s3.m_freeNodes s3.m_freeOffset nodeIndex }

/-- The neighbor-relinking step of `finishFree` (source lines 345-357). -/
def linkFF (s5 : AllocState) (combinedNodeIndex neighborNext neighborPrev : Nat) :
    AllocState :=
  let s6 := if neighborNext ≠ UNUSED then
      let sA := { s5 with m_nodes := upd s5.m_nodes combinedNodeIndex
                              ({ s5.m_nodes combinedNodeIndex with neighborNext := neighborNext }) }
      { sA with m_nodes := upd sA.m_nodes neighborNext
                    ({ sA.m_nodes neighborNext with neighborPrev := combinedNodeIndex }) }
    else s5
  if neighborPrev ≠ UNUSED then
    let sA := { s6 with m_nodes := upd s6.m_nodes combinedNodeIndex
                            ({ s6.m_nodes combinedNodeIndex with neighborPrev := neighborPrev }) }
    { sA with m_nodes := upd sA.m_nodes neighborPrev
                  ({ sA.m_nodes neighborPrev with neighborNext := combinedNodeIndex }) }
  else s6

/-! ## Characterization of `log2Fuel` -/

theorem log2Fuel_spec : ∀ (fuel n : Nat), 1 ≤ n → n < 2 ^ fuel →
    2 ^ log2Fuel fuel n ≤ n ∧ n < 2 ^ (log2Fuel fuel n + 1) := by
  intro fuel
  induction fuel with
  | zero => intro n h1 h2; omega
  | succ f ih =>
    intro n h1 h2
    rw [log2Fuel]
    by_cases h : 2 ≤ n
    · rw [if_pos h]
      have hn2 : 1 ≤ n / 2 := by omega
      have hlt : n / 2 < 2 ^ f := by
        rw [pow_succ] at h2
        omega
      obtain ⟨hle, hlt'⟩ := ih (n / 2) hn2 hlt
      constructor
      · rw [pow_succ]
        omega
      · rw [pow_succ]
        omega
    · rw [if_neg h]
      simp only [pow_zero, pow_succ, pow_one]
      omega

theorem log2Fuel_unique {fuel n k : Nat} (hn : n < 2 ^ fuel)
    (h1 : 2 ^ k ≤ n) (h2 : n < 2 ^ (k + 1)) : log2Fuel fuel n = k := by
  have h1' : 1 ≤ n := le_trans (Nat.one_le_two_pow) h1
  obtain ⟨hle, hlt⟩ := log2Fuel_spec fuel n h1' hn
  by_contra hne
  rcases Nat.lt_or_ge (log2Fuel fuel n) k with hl | hl
  · have : 2 ^ (log2Fuel fuel n + 1) ≤ 2 ^ k := Nat.pow_le_pow_right (by omega) (by omega)
    omega
  · have hk : k < log2Fuel fuel n := by omega
    have : 2 ^ (k + 1) ≤ 2 ^ log2Fuel fuel n := Nat.pow_le_pow_right (by omega) (by omega)
    omega

theorem log2Fuel_le_31 {n : Nat} (h1 : 1 ≤ n) (h2 : n < U32) :
    log2Fuel 32 n ≤ 31 := by
  obtain ⟨hle, _⟩ := log2Fuel_spec 32 n h1 (by simpa [U32] using h2)
  by_contra hgt
  have : 2 ^ 32 ≤ 2 ^ log2Fuel 32 n := Nat.pow_le_pow_right (by omega) (by omega)
  have : (4294967296 : Nat) ≤ n := by
    calc (4294967296 : Nat) = 2 ^ 32 := by norm_num
    _ ≤ 2 ^ log2Fuel 32 n := this
    _ ≤ n := hle
  simp [U32] at h2
  omega

/-! ## Normal forms for the size-class codec -/

theorem div_pow_bounds {n : Nat} (h8 : 8 ≤ n) (h32 : n < U32) :
    3 ≤ log2Fuel 32 n ∧ log2Fuel 32 n ≤ 31 ∧
      8 ≤ n / 2 ^ (log2Fuel 32 n - 3) ∧ n / 2 ^ (log2Fuel 32 n - 3) < 16 := by
  have h1 : 1 ≤ n := by omega
  obtain ⟨hle, hlt⟩ := log2Fuel_spec 32 n h1 (by simpa [U32] using h32)
  have h31 : log2Fuel 32 n ≤ 31 := log2Fuel_le_31 h1 h32
  set l := log2Fuel 32 n with hl
  have h3 : 3 ≤ l := by
    by_contra h
    have hl1 : l + 1 ≤ 3 := by omega
    have : 2 ^ (l + 1) ≤ 2 ^ 3 := Nat.pow_le_pow_right (by norm_num) hl1
    simp only [pow_succ] at this hlt
    omega
  refine ⟨h3, h31, ?_, ?_⟩
  · have hd : 2 ^ l / 2 ^ (l - 3) ≤ n / 2 ^ (l - 3) := Nat.div_le_div_right hle
    have he : l - (l - 3) = 3 := by omega
    rwa [Nat.pow_div (by omega) (by norm_num), he] at hd
  · rw [Nat.div_lt_iff_lt_mul (Nat.pos_pow_of_pos _ (by norm_num))]
    have he : (16 : Nat) * 2 ^ (l - 3) = 2 ^ (l + 1) := by
      rw [show (16 : Nat) = 2 ^ 4 from rfl, ← pow_add]
      congr 1
      omega
    omega

theorem roundDown_eq {n : Nat} (h8 : 8 ≤ n) (h32 : n < U32) :
    uintToSmallFloatRoundDown n =
      8 * (log2Fuel 32 n - 2) + (n / 2 ^ (log2Fuel 32 n - 3) - 8) := by
  obtain ⟨h3, h31, hq8, hq16⟩ := div_pow_bounds h8 h32
  set l := log2Fuel 32 n with hl
  set q := n / 2 ^ (l - 3) with hq
  simp only [uintToSmallFloatRoundDown, SMALL_FLT_MANTISSA_VALUE,
    SMALL_FLT_MANTISSA_BITS, SMALL_FLT_MANTISSA_MASK, lzcnt_nonzero, ← hl]
  rw [if_neg (by omega)]
  have e1 : 31 - (31 - l) = l := by omega
  rw [e1]
  have e2 : (n >>> (l - 3)) &&& 7 = q % 8 := by
    rw [Nat.shiftRight_eq_div_pow,
      show (7 : Nat) = 2 ^ 3 - 1 from rfl, Nat.and_pow_two_sub_one_eq_mod]
  have e3 : q % 8 = q - 8 := by omega
  rw [e2, e3, Nat.shiftLeft_eq]
  have e4 : (l - 3 + 1) * 2 ^ 3 = 2 ^ 3 * (l - 2) := by ring_nf; omega
  rw [e4, ← Nat.mul_add_lt_is_or (by omega) (l - 2)]

theorem roundUp_eq {n : Nat} (h8 : 8 ≤ n) (h32 : n < U32) :
    uintToSmallFloatRoundUp n =
      uintToSmallFloatRoundDown n +
        (if n % 2 ^ (log2Fuel 32 n - 3) = 0 then 0 else 1) := by
  obtain ⟨h3, h31, hq8, hq16⟩ := div_pow_bounds h8 h32
  rw [roundDown_eq h8 h32]
  set l := log2Fuel 32 n with hl
  set q := n / 2 ^ (l - 3) with hq
  simp only [uintToSmallFloatRoundUp, SMALL_FLT_MANTISSA_VALUE,
    SMALL_FLT_MANTISSA_BITS, SMALL_FLT_MANTISSA_MASK, lzcnt_nonzero, ← hl]
  rw [if_neg (by omega)]
  have e1 : 31 - (31 - l) = l := by omega
  rw [e1]
  have e2 : (n >>> (l - 3)) &&& 7 = q % 8 := by
    rw [Nat.shiftRight_eq_div_pow,
      show (7 : Nat) = 2 ^ 3 - 1 from rfl, Nat.and_pow_two_sub_one_eq_mod]
  have e3 : q % 8 = q - 8 := by omega
  have e5 : n &&& (1 <<< (l - 3) - 1) = n % 2 ^ (l - 3) := by
    rw [Nat.shiftLeft_eq, one_mul, Nat.and_pow_two_sub_one_eq_mod]
  rw [e2, e3, e5, Nat.shiftLeft_eq]
  have e4 : (l - 3 + 1) * 2 ^ 3 = 8 * (l - 2) := by ring_nf; omega
  rw [e4]
  by_cases hz : n % 2 ^ (l - 3) = 0
  · rw [if_neg (by simpa using hz), if_pos hz]
    omega
  · rw [if_pos (by simpa using hz), if_neg hz]
    omega

theorem decode_denorm {c : Nat} (hc : c < 8) : smallFloatToUint c = c := by
  simp only [smallFloatToUint, SMALL_FLT_MANTISSA_BITS, SMALL_FLT_MANTISSA_MASK]
  rw [if_pos]
  · rw [show (7 : Nat) = 2 ^ 3 - 1 from rfl, Nat.and_pow_two_sub_one_eq_mod]
    omega
  · rw [Nat.shiftRight_eq_div_pow]
    omega

/-- Decoding a normalized class index `8 * e + m` (with `1 ≤ e`, `m < 8`)
    yields `(m + 8) * 2^(e-1)`, reduced modulo `2^32`. -/
theorem decode_normal {e m : Nat} (he : 1 ≤ e) (hm : m < 8) :
    smallFloatToUint (8 * e + m) = ((m + 8) * 2 ^ (e - 1)) % U32 := by
  simp only [smallFloatToUint, SMALL_FLT_MANTISSA_BITS, SMALL_FLT_MANTISSA_MASK,
    SMALL_FLT_MANTISSA_VALUE]
  have e1 : (8 * e + m) >>> 3 = e := by
    rw [Nat.shiftRight_eq_div_pow]
    omega
  have e2 : (8 * e + m) &&& 7 = m := by
    rw [show (7 : Nat) = 2 ^ 3 - 1 from rfl, Nat.and_pow_two_sub_one_eq_mod]
    omega
  rw [e1, e2, if_neg (by omega)]
  have e3 : m ||| 8 = m + 8 := by
    have := Nat.mul_add_lt_is_or (b := m) (i := 3) (by omega) 1
    simp only [mul_one] at this
    rw [Nat.lor_comm]
    norm_num at this ⊢
    omega
  rw [e3, Nat.shiftLeft_eq]

theorem roundDown_denorm {n : Nat} (h : n < 8) : uintToSmallFloatRoundDown n = n := by
  simp only [uintToSmallFloatRoundDown, SMALL_FLT_MANTISSA_VALUE]
  rw [if_pos h]

theorem roundUp_denorm {n : Nat} (h : n < 8) : uintToSmallFloatRoundUp n = n := by
  simp only [uintToSmallFloatRoundUp, SMALL_FLT_MANTISSA_VALUE]
  rw [if_pos h]

theorem decode_roundDown_exact {n : Nat} (h8 : 8 ≤ n) (h32 : n < U32) :
    smallFloatToUint (uintToSmallFloatRoundDown n) =
      (n / 2 ^ (log2Fuel 32 n - 3)) * 2 ^ (log2Fuel 32 n - 3) := by
  obtain ⟨h3, h31, hq8, hq16⟩ := div_pow_bounds h8 h32
  rw [roundDown_eq h8 h32]
  set l := log2Fuel 32 n with hl
  set q := n / 2 ^ (l - 3) with hq
  rw [decode_normal (by omega) (by omega)]
  have e1 : q - 8 + 8 = q := by omega
  have e2 : l - 2 - 1 = l - 3 := by omega
  rw [e1, e2, Nat.mod_eq_of_lt]
  calc q * 2 ^ (l - 3) ≤ n := Nat.div_mul_le_self n _
  _ < U32 := h32

theorem decode_roundDown_le {n : Nat} (h32 : n < U32) :
    smallFloatToUint (uintToSmallFloatRoundDown n) ≤ n := by
  by_cases h8 : n < 8
  · rw [roundDown_denorm h8, decode_denorm h8]
  · rw [decode_roundDown_exact (by omega) h32]
    exact Nat.div_mul_le_self n _

/-- Decoding the size class one above `uintToSmallFloatRoundDown n` yields
    `(q + 1) * 2^(l-3)` (one quantization step up), provided the result does
    not wrap past `2^32`. -/
theorem decode_succ {n : Nat} (h8 : 8 ≤ n) (h32 : n < U32)
    (hnw : log2Fuel 32 n ≤ 30 ∨ n / 2 ^ (log2Fuel 32 n - 3) ≤ 14) :
    smallFloatToUint (uintToSmallFloatRoundDown n + 1) =
      (n / 2 ^ (log2Fuel 32 n - 3) + 1) * 2 ^ (log2Fuel 32 n - 3) := by
  obtain ⟨h3, h31, hq8, hq16⟩ := div_pow_bounds h8 h32
  rw [roundDown_eq h8 h32]
  generalize hLdef : log2Fuel 32 n = l at *
  generalize hQdef : n / 2 ^ (l - 3) = q at *
  have hU : U32 = 2 ^ 32 := by norm_num [U32]
  have hpow : (16 : Nat) * 2 ^ (l - 3) = 2 ^ (l + 1) := by
    rw [show (16 : Nat) = 2 ^ 4 from rfl, ← pow_add]
    congr 1
    omega
  by_cases hq15 : q ≤ 14
  · rw [show 8 * (l - 2) + (q - 8) + 1 = 8 * (l - 2) + (q - 7) from by omega,
      decode_normal (by omega) (by omega),
      show q - 7 + 8 = q + 1 from by omega,
      show l - 2 - 1 = l - 3 from by omega,
      Nat.mod_eq_of_lt]
    have h16 : (q + 1) * 2 ^ (l - 3) < 16 * 2 ^ (l - 3) :=
      mul_lt_mul_of_pos_right (by omega) (by positivity)
    have hp2 : (2 : Nat) ^ (l + 1) ≤ 2 ^ 32 := Nat.pow_le_pow_right (by norm_num) (by omega)
    omega
  · have hq' : q = 15 := by omega
    have hl30 : l ≤ 30 := by omega
    rw [show 8 * (l - 2) + (q - 8) + 1 = 8 * (l - 1) + 0 from by omega,
      decode_normal (by omega) (by omega)]
    have e : (0 + 8 : Nat) * 2 ^ (l - 1 - 1) = (q + 1) * 2 ^ (l - 3) := by
      rw [hq', show l - 1 - 1 = (l - 3) + 1 from by omega, pow_succ]
      ring
    rw [e, Nat.mod_eq_of_lt]
    rw [hq', hpow]
    have hp2 : (2 : Nat) ^ (l + 1) ≤ 2 ^ 31 := Nat.pow_le_pow_right (by norm_num) (by omega)
    omega

theorem decode_roundUp_ge {n : Nat} (h : n ≤ 4026531840) :
    n ≤ smallFloatToUint (uintToSmallFloatRoundUp n) := by
  by_cases h8 : n < 8
  · rw [roundUp_denorm h8, decode_denorm h8]
  · push_neg at h8
    have h32 : n < U32 := by simp only [U32]; omega
    obtain ⟨h3, h31, hq8, hq16⟩ := div_pow_bounds h8 h32
    have hdm := Nat.div_add_mod n (2 ^ (log2Fuel 32 n - 3))
    have hmlt : n % 2 ^ (log2Fuel 32 n - 3) < 2 ^ (log2Fuel 32 n - 3) :=
      Nat.mod_lt _ (Nat.pos_pow_of_pos _ (by norm_num))
    rw [roundUp_eq h8 h32]
    by_cases hz : n % 2 ^ (log2Fuel 32 n - 3) = 0
    · rw [if_pos hz, Nat.add_zero, decode_roundDown_exact h8 h32]
      have expand : n / 2 ^ (log2Fuel 32 n - 3) * 2 ^ (log2Fuel 32 n - 3) =
          2 ^ (log2Fuel 32 n - 3) * (n / 2 ^ (log2Fuel 32 n - 3)) := by ring
      omega
    · rw [if_neg hz]
      have hnw : log2Fuel 32 n ≤ 30 ∨ n / 2 ^ (log2Fuel 32 n - 3) ≤ 14 := by
        by_contra hcon
        push_neg at hcon
        obtain ⟨hc1, hc2⟩ := hcon
        have hL31 : log2Fuel 32 n = 31 := by omega
        rw [hL31] at hdm hc2 hz
        norm_num at hdm hc2 hz
        omega
      rw [decode_succ h8 h32 hnw]
      have expand : (n / 2 ^ (log2Fuel 32 n - 3) + 1) * 2 ^ (log2Fuel 32 n - 3) =
          2 ^ (log2Fuel 32 n - 3) * (n / 2 ^ (log2Fuel 32 n - 3)) +
            2 ^ (log2Fuel 32 n - 3) := by ring
      omega

theorem log2Fuel_mono {a b : Nat} (h1 : 1 ≤ a) (hab : a ≤ b) (hb : b < U32) :
    log2Fuel 32 a ≤ log2Fuel 32 b := by
  have hb1 : 1 ≤ b := by omega
  have ha32 : a < 2 ^ 32 := by
    have : b < 2 ^ 32 := by simpa [U32] using hb
    omega
  obtain ⟨hlea, _⟩ := log2Fuel_spec 32 a h1 ha32
  obtain ⟨_, hltb⟩ := log2Fuel_spec 32 b hb1 (by simpa [U32] using hb)
  by_contra hcon
  have : 2 ^ (log2Fuel 32 b + 1) ≤ 2 ^ log2Fuel 32 a :=
    Nat.pow_le_pow_right (by norm_num) (by omega)
  omega

theorem roundDown_mono {a b : Nat} (hab : a ≤ b) (hb : b < U32) :
    uintToSmallFloatRoundDown a ≤ uintToSmallFloatRoundDown b := by
  by_cases hb8 : b < 8
  · rw [roundDown_denorm hb8, roundDown_denorm (by omega)]
    exact hab
  · push_neg at hb8
    obtain ⟨hb3, hb31, hbq8, hbq16⟩ := div_pow_bounds hb8 hb
    by_cases ha8 : a < 8
    · rw [roundDown_denorm ha8, roundDown_eq hb8 hb]
      omega
    · push_neg at ha8
      have ha32 : a < U32 := by omega
      obtain ⟨ha3, ha31, haq8, haq16⟩ := div_pow_bounds ha8 ha32
      rw [roundDown_eq ha8 ha32, roundDown_eq hb8 hb]
      have hmono := log2Fuel_mono (by omega) hab hb
      set la := log2Fuel 32 a with hla
      set lb := log2Fuel 32 b with hlb
      by_cases heq : la = lb
      · rw [heq] at *
        have : a / 2 ^ (lb - 3) ≤ b / 2 ^ (lb - 3) := Nat.div_le_div_right hab
        omega
      · have : la < lb := by omega
        omega

theorem roundUp_mono {a b : Nat} (hab : a ≤ b) (hb : b < U32) :
    uintToSmallFloatRoundUp a ≤ uintToSmallFloatRoundUp b := by
  by_cases hb8 : b < 8
  · rw [roundUp_denorm hb8, roundUp_denorm (by omega)]
    exact hab
  · push_neg at hb8
    obtain ⟨hb3, hb31, hbq8, hbq16⟩ := div_pow_bounds hb8 hb
    by_cases ha8 : a < 8
    · rw [roundUp_denorm ha8, roundUp_eq hb8 hb, roundDown_eq hb8 hb]
      have : (0 : Nat) ≤ if b % 2 ^ (log2Fuel 32 b - 3) = 0 then 0 else 1 := by positivity
      omega
    · push_neg at ha8
      have ha32 : a < U32 := by omega
      have hd := roundDown_mono hab hb
      rw [roundUp_eq ha8 ha32, roundUp_eq hb8 hb]
      rcases Nat.lt_or_ge (uintToSmallFloatRoundDown a) (uintToSmallFloatRoundDown b)
        with hlt | hge
      · have : (if a % 2 ^ (log2Fuel 32 a - 3) = 0 then (0:Nat) else 1) ≤ 1 := by
          split <;> omega
        have : (0 : Nat) ≤ if b % 2 ^ (log2Fuel 32 b - 3) = 0 then 0 else 1 := by positivity
        omega
      · have heq : uintToSmallFloatRoundDown a = uintToSmallFloatRoundDown b := by omega
        by_cases hab' : a = b
        · rw [hab']
        · have haltb : a < b := by omega
          have hbz : b % 2 ^ (log2Fuel 32 b - 3) ≠ 0 := by
            intro hz
            have hdb : smallFloatToUint (uintToSmallFloatRoundDown b) = b := by
              rw [decode_roundDown_exact hb8 hb]
              have := Nat.div_add_mod b (2 ^ (log2Fuel 32 b - 3))
              rw [Nat.mul_comm] at this
              omega
            have hda : smallFloatToUint (uintToSmallFloatRoundDown a) ≤ a :=
              decode_roundDown_le ha32
            rw [heq, hdb] at hda
            omega
          rw [if_neg hbz]
          have : (if a % 2 ^ (log2Fuel 32 a - 3) = 0 then (0:Nat) else 1) ≤ 1 := by
            split <;> omega
          omega

/-! ## Generic list machinery -/

theorem headD_append {α : Type} (t l2 : List α) (e : α) :
    (t ++ l2).headD e = t.headD (l2.headD e) := by
  cases t with
  | nil => simp
  | cons a t' => simp

theorem chainSeg_congr {nxt prv nxt' prv' : Nat → Nat} :
    ∀ (l : List Nat) (p e : Nat), (∀ i ∈ l, nxt i = nxt' i ∧ prv i = prv' i) →
      chainSeg nxt prv p e l → chainSeg nxt' prv' p e l := by
  intro l
  induction l with
  | nil => intro p e _ _; trivial
  | cons i t ih =>
    intro p e h hc
    obtain ⟨h1, h2, h3⟩ := hc
    obtain ⟨hn, hp⟩ := h i (List.mem_cons_self i t)
    exact ⟨hp ▸ h1, hn ▸ h2, ih i e (fun j hj => h j (List.mem_cons_of_mem _ hj)) h3⟩

theorem chainSeg_append {nxt prv : Nat → Nat} :
    ∀ (l1 l2 : List Nat) (p e : Nat),
      chainSeg nxt prv p e (l1 ++ l2) ↔
        chainSeg nxt prv p (l2.headD e) l1 ∧ chainSeg nxt prv (l1.getLastD p) e l2 := by
  intro l1
  induction l1 with
  | nil => intro l2 p e; simp [chainSeg]
  | cons i t ih =>
    intro l2 p e
    simp only [List.cons_append, chainSeg, List.getLastD_cons, List.append_eq]
    rw [ih l2 i e]
    constructor
    · rintro ⟨h1, h2, h3, h4⟩
      refine ⟨⟨h1, ?_, h3⟩, h4⟩
      rw [h2, headD_append]
    · rintro ⟨⟨h1, h2, h3⟩, h4⟩
      refine ⟨h1, ?_, h3, h4⟩
      rw [h2, headD_append]

@[simp] theorem sumList_nil {f : Nat → Nat} : sumList f [] = 0 := rfl

@[simp] theorem sumList_cons {f : Nat → Nat} {i : Nat} {t : List Nat} :
    sumList f (i :: t) = f i + sumList f t := by
  simp [sumList]

theorem sumList_append {f : Nat → Nat} {l1 l2 : List Nat} :
    sumList f (l1 ++ l2) = sumList f l1 + sumList f l2 := by
  simp [sumList]

theorem sumList_congr {f g : Nat → Nat} :
    ∀ {l : List Nat}, (∀ i ∈ l, f i = g i) → sumList f l = sumList g l := by
  intro l
  induction l with
  | nil => intro _; rfl
  | cons i t ih =>
    intro h
    simp only [sumList_cons]
    rw [h i (List.mem_cons_self i t), ih (fun j hj => h j (List.mem_cons_of_mem _ hj))]

theorem le_sumList_of_mem {f : Nat → Nat} :
    ∀ {l : List Nat} {i : Nat}, i ∈ l → f i ≤ sumList f l := by
  intro l
  induction l with
  | nil => intro i h; cases h
  | cons j t ih =>
    intro i h
    rcases List.mem_cons.mp h with h | h
    · subst h; simp
    · have := ih h
      simp only [sumList_cons]
      omega

theorem spansFrom_congr {off sz off' sz' : Nat → Nat} :
    ∀ (l : List Nat) (o : Nat), (∀ i ∈ l, off i = off' i ∧ sz i = sz' i) →
      spansFrom off sz o l → spansFrom off' sz' o l := by
  intro l
  induction l with
  | nil => intro o _ _; trivial
  | cons i t ih =>
    intro o h hs
    obtain ⟨h1, h2⟩ := hs
    obtain ⟨ho, hs'⟩ := h i (List.mem_cons_self i t)
    exact ⟨ho ▸ h1, hs' ▸ ih (o + sz i) (fun j hj => h j (List.mem_cons_of_mem _ hj)) h2⟩

theorem spansFrom_append {off sz : Nat → Nat} :
    ∀ (l1 l2 : List Nat) (o : Nat),
      spansFrom off sz o (l1 ++ l2) ↔
        spansFrom off sz o l1 ∧ spansFrom off sz (o + sumList sz l1) l2 := by
  intro l1
  induction l1 with
  | nil => intro l2 o; simp [spansFrom]
  | cons i t ih =>
    intro l2 o
    simp only [List.cons_append, spansFrom, sumList_cons, List.append_eq]
    rw [ih l2 (o + sz i)]
    constructor
    · rintro ⟨h1, h2, h3⟩
      exact ⟨⟨h1, h2⟩, by rwa [Nat.add_assoc] at h3⟩
    · rintro ⟨⟨h1, h2⟩, h3⟩
      exact ⟨h1, h2, by rwa [Nat.add_assoc]⟩

theorem noAdjFree_congr {u u' : Nat → Bool} :
    ∀ {l : List Nat}, (∀ i ∈ l, u i = u' i) → noAdjFree u l → noAdjFree u' l := by
  intro l
  induction l with
  | nil => intro _ _; exact List.chain'_nil
  | cons i t ih =>
    intro h hc
    cases t with
    | nil => simp [noAdjFree]
    | cons j t' =>
      rw [noAdjFree, List.chain'_cons] at hc ⊢
      refine ⟨?_, ih (fun x hx => h x (List.mem_cons_of_mem _ hx)) hc.2⟩
      have hi := h i (List.mem_cons_self _ _)
      have hj := h j (List.mem_cons_of_mem _ (List.mem_cons_self _ _))
      rw [← hi, ← hj]
      exact hc.1

/-! ## `upd` and 32-bit arithmetic lemmas -/

@[simp] theorem upd_same {α : Type} {f : Nat → α} {i : Nat} {v : α} : upd f i v i = v := by
  simp [upd]

theorem upd_ne {α : Type} {f : Nat → α} {i j : Nat} {v : α} (h : j ≠ i) :
    upd f i v j = f j := by
  simp [upd, h]

theorem add32_eq {a b : Nat} (h : a + b < U32) : add32 a b = a + b := by
  simp only [add32]
  exact Nat.mod_eq_of_lt h

theorem sub32_eq {a b : Nat} (hba : b ≤ a) (ha : a < U32) : sub32 a b = a - b := by
  simp only [sub32, U32] at *
  omega

theorem sub32_underflow {a b : Nat} (hab : a < b) (hb : b ≤ a + U32) :
    sub32 a b = a + U32 - b := by
  simp only [sub32, U32] at *
  omega

/-! ## Bit-level lemmas -/

theorem one_shiftLeft_eq (i : Nat) : (1 <<< i) = 2 ^ i := by
  rw [Nat.shiftLeft_eq, one_mul]

theorem and_shift_ne_iff {x i : Nat} : x &&& (1 <<< i) ≠ 0 ↔ x.testBit i = true := by
  rw [one_shiftLeft_eq, Nat.and_two_pow]
  cases h : x.testBit i <;> simp [h]

theorem testBit_or_shift {x i j : Nat} :
    (x ||| (1 <<< i)).testBit j = (x.testBit j || decide (i = j)) := by
  rw [Nat.testBit_or, one_shiftLeft_eq, Nat.testBit_two_pow]

theorem clearMask_eq_xor : ∀ i, i < 32 → (U32 - 1) - (1 <<< i) = (U32 - 1) ^^^ (1 <<< i) := by
  decide

theorem testBit_clearMask {i j : Nat} (hi : i < 32) :
    ((U32 - 1) - (1 <<< i)).testBit j = (decide (j < 32) && !decide (i = j)) := by
  rw [clearMask_eq_xor i hi, Nat.testBit_xor, one_shiftLeft_eq]
  have : U32 - 1 = 2 ^ 32 - 1 := by norm_num [U32]
  rw [this, Nat.testBit_two_pow_sub_one, Nat.testBit_two_pow]
  by_cases h1 : j < 32
  · by_cases h2 : i = j
    · simp [h1, h2]
    · simp [h1, h2]
  · by_cases h2 : i = j
    · omega
    · simp [h1, h2]

theorem testBit_and {x y i : Nat} : (x &&& y).testBit i = (x.testBit i && y.testBit i) :=
  Nat.testBit_and x y i

theorem eq_zero_of_testBit_false {x n : Nat} (hx : x < 2 ^ n)
    (h : ∀ j, j < n → x.testBit j = false) : x = 0 := by
  apply Nat.eq_of_testBit_eq
  intro j
  rw [Nat.zero_testBit]
  by_cases hj : j < n
  · exact h j hj
  · exact Nat.testBit_lt_two_pow (lt_of_lt_of_le hx (Nat.pow_le_pow_right (by norm_num) (by omega)))

theorem testBit_false_of_zero {x i : Nat} (h : x = 0) : x.testBit i = false := by
  subst h
  exact Nat.zero_testBit i

/-! ## Bitmap maintenance -/

theorem bitmapOK_iff {ub : Nat → Nat} {ut : Nat} {P Q : Nat → Prop}
    (h : BitmapOK ub ut P) (hPQ : ∀ b, b < NUM_LEAF_BINS → (P b ↔ Q b)) :
    BitmapOK ub ut Q := by
  obtain ⟨h1, h2, h3, h4⟩ := h
  exact ⟨fun b hb => (h1 b hb).trans (hPQ b hb), h2, h3, h4⟩

theorem or_ne_zero_right {x i : Nat} : x ||| (1 <<< i) ≠ 0 := by
  intro h
  have := congrArg (fun v => v.testBit i) h
  simp only [Nat.testBit_or, Nat.zero_testBit] at this
  rw [one_shiftLeft_eq, Nat.testBit_two_pow] at this
  simp at this

theorem bitmap_set {ub : Nat → Nat} {ut : Nat} {P : Nat → Prop} {bin : Nat}
    (h : BitmapOK ub ut P) (hbin : bin < NUM_LEAF_BINS) :
    BitmapOK (upd ub (bin / 8) ((ub (bin / 8)) ||| (1 <<< (bin % 8))))
      (ut ||| (1 <<< (bin / 8))) (fun b => b = bin ∨ P b) := by
  obtain ⟨h1, h2, h3, h4⟩ := h
  unfold BitmapOK
  simp only [NUM_LEAF_BINS, NUM_TOP_BINS] at *
  have hb8 : bin / 8 < 32 := by omega
  refine ⟨?_, ?_, ?_, ?_⟩
  · intro b hb
    by_cases hg : b / 8 = bin / 8
    · rw [hg, upd_same, and_shift_ne_iff, testBit_or_shift]
      by_cases hbb : b = bin
      · subst hbb
        simp
      · have hne : b % 8 ≠ bin % 8 := by omega
        have hbit : ((ub (b / 8)).testBit (b % 8) = true) ↔ P b :=
          and_shift_ne_iff.symm.trans (h1 b hb)
        rw [hg] at hbit
        have e2 : decide (bin % 8 = b % 8) = false := by
          simp only [decide_eq_false_iff_not]
          omega
        rw [e2]
        simp only [Bool.or_false]
        rw [hbit]
        constructor
        · exact Or.inr
        · rintro (hh | hh)
          · omega
          · exact hh
    · rw [upd_ne hg]
      have : ¬ b = bin := by omega
      rw [h1 b hb]
      tauto
  · intro t ht
    by_cases hg : t = bin / 8
    · subst hg
      rw [upd_same, and_shift_ne_iff, testBit_or_shift]
      simp only [decide_eq_true_eq]
      constructor
      · intro _
        exact or_ne_zero_right
      · intro _
        simp
    · rw [upd_ne hg, and_shift_ne_iff, testBit_or_shift]
      have e2 : decide (bin / 8 = t) = false := by
        simp only [decide_eq_false_iff_not]
        omega
      rw [e2]
      simp only [Bool.or_false]
      exact and_shift_ne_iff.symm.trans (h2 t ht)
  · intro t ht
    by_cases hg : t = bin / 8
    · subst hg
      rw [upd_same]
      apply Nat.or_lt_two_pow (n := 8) (h3 _ ht)
      rw [one_shiftLeft_eq]
      exact Nat.pow_lt_pow_right (by norm_num) (by omega)
    · rw [upd_ne hg]
      exact h3 t ht
  · have : U32 = 2 ^ 32 := by norm_num [U32]
    rw [this] at h4 ⊢
    apply Nat.or_lt_two_pow h4
    rw [one_shiftLeft_eq]
    exact Nat.pow_lt_pow_right (by norm_num) (by omega)

theorem bitmap_clear {ub : Nat → Nat} {ut : Nat} {P : Nat → Prop} {bin : Nat}
    (h : BitmapOK ub ut P) (hbin : bin < NUM_LEAF_BINS) :
    BitmapOK (upd ub (bin / 8) ((ub (bin / 8)) &&& ((U32 - 1) - (1 <<< (bin % 8)))))
      (if (ub (bin / 8)) &&& ((U32 - 1) - (1 <<< (bin % 8))) = 0 then
        ut &&& ((U32 - 1) - (1 <<< (bin / 8))) else ut)
      (fun b => b ≠ bin ∧ P b) := by
  obtain ⟨h1, h2, h3, h4⟩ := h
  unfold BitmapOK
  simp only [NUM_LEAF_BINS, NUM_TOP_BINS] at *
  have hb8 : bin / 8 < 32 := by omega
  have hm8 : bin % 8 < 32 := by omega
  set newLeaf := (ub (bin / 8)) &&& ((U32 - 1) - (1 <<< (bin % 8))) with hnl
  have hself : newLeaf.testBit (bin % 8) = false := by
    rw [hnl, testBit_and, testBit_clearMask hm8]
    simp
  have hother : ∀ p, p < 8 → p ≠ bin % 8 → newLeaf.testBit p = (ub (bin / 8)).testBit p := by
    intro p hp hpne
    rw [hnl, testBit_and, testBit_clearMask hm8]
    have e1 : decide (p < 32) = true := by
      simp only [decide_eq_true_eq]
      omega
    have e2 : decide (bin % 8 = p) = false := by
      simp only [decide_eq_false_iff_not]
      omega
    rw [e1, e2]
    simp
  refine ⟨?_, ?_, ?_, ?_⟩
  · intro b hb
    by_cases hg : b / 8 = bin / 8
    · rw [hg, upd_same, and_shift_ne_iff]
      by_cases hbb : b = bin
      · subst hbb
        rw [hself]
        simp
      · have hne : b % 8 ≠ bin % 8 := by omega
        have hbit : ((ub (b / 8)).testBit (b % 8) = true) ↔ P b :=
          and_shift_ne_iff.symm.trans (h1 b hb)
        rw [hg] at hbit
        rw [hother (b % 8) (by omega) hne, hbit]
        constructor
        · intro hh
          exact ⟨hbb, hh⟩
        · exact And.right
    · rw [upd_ne hg]
      have : ¬ b = bin := by omega
      rw [h1 b hb]
      tauto
  · intro t ht
    by_cases hg : t = bin / 8
    · subst hg
      rw [upd_same]
      by_cases hz : newLeaf = 0
      · rw [if_pos hz, and_shift_ne_iff, testBit_and, testBit_clearMask hb8]
        simp [hz]
      · rw [if_neg hz]
        rw [and_shift_ne_iff]
        have hold : ub (bin / 8) ≠ 0 := by
          intro hh
          apply hz
          rw [hnl, hh]
          simp [Nat.zero_and]
        constructor
        · intro _
          exact hz
        · intro _
          rw [← and_shift_ne_iff]
          exact (h2 _ ht).mpr hold
    · rw [upd_ne hg]
      split
      · rw [and_shift_ne_iff, testBit_and, testBit_clearMask hb8]
        have e2 : decide (bin / 8 = t) = false := by
          simp only [decide_eq_false_iff_not]
          omega
        have e1 : decide (t < 32) = true := by
          simp only [decide_eq_true_eq]
          omega
        rw [e1, e2]
        simp only [Bool.not_false, Bool.and_true, Bool.true_and]
        exact and_shift_ne_iff.symm.trans (h2 t ht)
      · exact h2 t ht
  · intro t ht
    by_cases hg : t = bin / 8
    · subst hg
      rw [upd_same]
      exact lt_of_le_of_lt Nat.and_le_left (h3 _ ht)
    · rw [upd_ne hg]
      exact h3 t ht
  · split
    · exact lt_of_le_of_lt Nat.and_le_left h4
    · exact h4

/-! ## Reduction lemmas for `insertNodeIntoBin` -/

theorem insertNodeIntoBin_empty {s : AllocState} {sz o : Nat}
    (hempty : s.m_binIndices (uintToSmallFloatRoundDown sz) = UNUSED) :
    insertNodeIntoBin s sz o =
      ({ s with
          m_usedBins := upd s.m_usedBins ((uintToSmallFloatRoundDown sz) >>> TOP_BINS_INDEX_SHIFT)
            ((s.m_usedBins ((uintToSmallFloatRoundDown sz) >>> TOP_BINS_INDEX_SHIFT)) |||
              (1 <<< ((uintToSmallFloatRoundDown sz) &&& LEAF_BINS_INDEX_MASK))),
          m_usedBinsTop := s.m_usedBinsTop |||
            (1 <<< ((uintToSmallFloatRoundDown sz) >>> TOP_BINS_INDEX_SHIFT)),
          m_freeOffset := sub32 s.m_freeOffset 1,
          m_nodes := upd s.m_nodes (s.m_freeNodes s.m_freeOffset)
            ({ dataOffset := o, dataSize := sz, binListNext := UNUSED }),
          m_binIndices := upd s.m_binIndices (uintToSmallFloatRoundDown sz)
            (s.m_freeNodes s.m_freeOffset),
          m_freeStorage := add32 s.m_freeStorage sz },
        s.m_freeNodes s.m_freeOffset) := by
  simp only [insertNodeIntoBin]
  simp [hempty, UNUSED]

theorem insertNodeIntoBin_nonempty {s : AllocState} {sz o : Nat}
    (hne : s.m_binIndices (uintToSmallFloatRoundDown sz) ≠ UNUSED) :
    insertNodeIntoBin s sz o =
      ({ s with
          m_freeOffset := sub32 s.m_freeOffset 1,
          m_nodes := upd
            (upd s.m_nodes (s.m_freeNodes s.m_freeOffset)
              ({ dataOffset := o, dataSize := sz,
                 binListNext := s.m_binIndices (uintToSmallFloatRoundDown sz) }))
            (s.m_binIndices (uintToSmallFloatRoundDown sz))
            ({ (upd s.m_nodes (s.m_freeNodes s.m_freeOffset)
                  ({ dataOffset := o, dataSize := sz,
                     binListNext := s.m_binIndices (uintToSmallFloatRoundDown sz) }))
                (s.m_binIndices (uintToSmallFloatRoundDown sz)) with
               binListPrev := s.m_freeNodes s.m_freeOffset }),
          m_binIndices := upd s.m_binIndices (uintToSmallFloatRoundDown sz)
            (s.m_freeNodes s.m_freeOffset),
          m_freeStorage := add32 s.m_freeStorage sz },
        s.m_freeNodes s.m_freeOffset) := by
  simp only [insertNodeIntoBin, hne]
  simp [hne]

theorem chainSeg_nil {nxt prv : Nat → Nat} {p e : Nat} : chainSeg nxt prv p e [] := trivial

theorem chainSeg_cons {nxt prv : Nat → Nat} {p e i : Nat} {t : List Nat} :
    chainSeg nxt prv p e (i :: t) ↔
      prv i = p ∧ nxt i = t.headD e ∧ chainSeg nxt prv i e t := Iff.rfl

theorem chainSeg_snoc {nxt prv : Nat → Nat} {p e a : Nat} {l : List Nat} :
    chainSeg nxt prv p e (l ++ [a]) ↔
      chainSeg nxt prv p a l ∧ prv a = l.getLastD p ∧ nxt a = e := by
  rw [chainSeg_append]
  simp [chainSeg]

/-- The per-node spec of `insertNodeIntoBin`: it pops the top free-stack
    handle `j`, writes a fresh free node record there, pushes `j` at the head
    of the free list of class `roundDown sz`, and maintains the bitmap.  All
    other node records keep their non-bin-list fields; only the old list head
    gets its `binListPrev` patched. -/
theorem insertNodeIntoBin_spec {s : AllocState} {B : Nat → List Nat} (hB : BinsWF s B)
    {sz o : Nat} (hbin : uintToSmallFloatRoundDown sz < NUM_LEAF_BINS)
    (hjB : ∀ b, b < NUM_LEAF_BINS → s.m_freeNodes s.m_freeOffset ∉ B b)
    (hElem : ∀ b, b < NUM_LEAF_BINS → ∀ i ∈ B b, i ≠ UNUSED) :
    (insertNodeIntoBin s sz o).2 = s.m_freeNodes s.m_freeOffset ∧
    (insertNodeIntoBin s sz o).1.m_size = s.m_size ∧
    (insertNodeIntoBin s sz o).1.m_maxAllocs = s.m_maxAllocs ∧
    (insertNodeIntoBin s sz o).1.hasNodes = s.hasNodes ∧
    (insertNodeIntoBin s sz o).1.m_freeNodes = s.m_freeNodes ∧
    (insertNodeIntoBin s sz o).1.m_freeOffset = sub32 s.m_freeOffset 1 ∧
    (insertNodeIntoBin s sz o).1.m_freeStorage = add32 s.m_freeStorage sz ∧
    (insertNodeIntoBin s sz o).1.m_binIndices =
      upd s.m_binIndices (uintToSmallFloatRoundDown sz) (s.m_freeNodes s.m_freeOffset) ∧
    (insertNodeIntoBin s sz o).1.m_nodes (s.m_freeNodes s.m_freeOffset) =
      { dataOffset := o, dataSize := sz,
        binListNext := (B (uintToSmallFloatRoundDown sz)).headD UNUSED } ∧
    (∀ i, i ≠ s.m_freeNodes s.m_freeOffset → i ∉ B (uintToSmallFloatRoundDown sz) →
      (insertNodeIntoBin s sz o).1.m_nodes i = s.m_nodes i) ∧
    (∀ i, i ≠ s.m_freeNodes s.m_freeOffset →
      ((insertNodeIntoBin s sz o).1.m_nodes i).dataOffset = (s.m_nodes i).dataOffset ∧
      ((insertNodeIntoBin s sz o).1.m_nodes i).dataSize = (s.m_nodes i).dataSize ∧
      ((insertNodeIntoBin s sz o).1.m_nodes i).used = (s.m_nodes i).used ∧
      ((insertNodeIntoBin s sz o).1.m_nodes i).neighborPrev = (s.m_nodes i).neighborPrev ∧
      ((insertNodeIntoBin s sz o).1.m_nodes i).neighborNext = (s.m_nodes i).neighborNext) ∧
    BinsWF (insertNodeIntoBin s sz o).1
      (upd B (uintToSmallFloatRoundDown sz)
        ((s.m_freeNodes s.m_freeOffset) :: B (uintToSmallFloatRoundDown sz))) := by
  set j := s.m_freeNodes s.m_freeOffset with hj
  set bin := uintToSmallFloatRoundDown sz with hbindef
  have eTop : bin >>> TOP_BINS_INDEX_SHIFT = bin / 8 := by
    rw [TOP_BINS_INDEX_SHIFT, Nat.shiftRight_eq_div_pow]
  have eLeaf : bin &&& LEAF_BINS_INDEX_MASK = bin % 8 := by
    rw [LEAF_BINS_INDEX_MASK, show (7 : Nat) = 2 ^ 3 - 1 from rfl,
      Nat.and_pow_two_sub_one_eq_mod]
  have hcross : ∀ b b' i, b < NUM_LEAF_BINS → b' < NUM_LEAF_BINS → i ∈ B b → i ∈ B b' → b = b' := by
    intro b b' i hb hb' hib hib'
    have := (hB.memCls b hb i hib).1
    have := (hB.memCls b' hb' i hib').1
    omega
  cases hBbin : B bin with
  | nil =>
    have hempty : s.m_binIndices bin = UNUSED := by
      rw [hB.head bin hbin, hBbin]
      rfl
    rw [hbindef] at hempty
    have hred := insertNodeIntoBin_empty (o := o) hempty
    rw [← hbindef] at hred
    rw [hred]
    refine ⟨rfl, rfl, rfl, rfl, rfl, rfl, rfl, rfl, ?_, ?_, ?_, ?_⟩
    · simp [upd]
    · intro i hij _
      simp [upd_ne hij]
    · intro i hij
      simp [upd_ne hij]
    · refine ⟨?_, ?_, ?_, ?_, ?_⟩
      · -- head
        intro b hb
        by_cases hbb : b = bin
        · subst hbb
          simp [upd]
        · simp only [upd_ne hbb]
          exact hB.head b hb
      · -- links
        intro b hb
        by_cases hbb : b = bin
        · subst hbb
          simp only [upd_same]
          rw [chainSeg_cons]
          refine ⟨by simp [binPrev, upd], by simp [binNext, upd], chainSeg_nil⟩
        · simp only [upd_ne hbb]
          refine chainSeg_congr (B b) UNUSED UNUSED ?_ (hB.links b hb)
          intro i hi
          have hij : i ≠ j := by
            intro hh
            exact hjB b hb (hh ▸ hi)
          simp [binNext, binPrev, upd_ne hij]
      · -- nodup
        intro b hb
        by_cases hbb : b = bin
        · subst hbb
          simp [upd, hBbin]
        · simp only [upd_ne hbb]
          exact hB.nodup b hb
      · -- memCls
        intro b hb i hi
        by_cases hbb : b = bin
        · subst hbb
          rw [upd_same] at hi
          simp only [List.mem_singleton] at hi
          subst hi
          constructor
          · simp [upd, hbindef]
          · simp [upd]
        · rw [upd_ne hbb] at hi
          have hij : i ≠ j := by
            intro hh
            exact hjB b hb (hh ▸ hi)
          have := hB.memCls b hb i hi
          simpa [upd_ne hij] using this
      · -- bitmap
        rw [eTop, eLeaf]
        have hset := bitmap_set hB.bitmap hbin
        apply bitmapOK_iff hset
        intro b hb
        by_cases hbb : b = bin
        · subst hbb
          simp [upd, hBbin]
        · simp [hbb, upd_ne hbb]
  | cons h0 rest =>
    have hh0mem : h0 ∈ B bin := by
      rw [hBbin]
      exact List.mem_cons_self _ _
    have hh0UN : h0 ≠ UNUSED := hElem bin hbin h0 hh0mem
    have hh0j : h0 ≠ j := by
      intro hh
      exact hjB bin hbin (hh ▸ hh0mem)
    have hne : s.m_binIndices bin ≠ UNUSED := by
      rw [hB.head bin hbin, hBbin]
      simpa using hh0UN
    have hhead : s.m_binIndices bin = h0 := by
      rw [hB.head bin hbin, hBbin]
      rfl
    rw [hbindef] at hne
    have hred := insertNodeIntoBin_nonempty (o := o) hne
    rw [← hbindef] at hred
    rw [hhead] at hred
    rw [hred]
    have hjh0 : j ≠ h0 := fun hh => hh0j hh.symm
    refine ⟨rfl, rfl, rfl, rfl, rfl, rfl, rfl, rfl, ?_, ?_, ?_, ?_⟩
    · simp only [List.headD_cons]
      simp [upd, hjh0]
    · intro i hij hiB
      have hih0 : i ≠ h0 := by
        intro hh
        subst hh
        exact hiB (List.mem_cons_self _ _)
      simp [upd, hij, hih0]
    · intro i hij
      by_cases hih0 : i = h0
      · subst hih0
        simp [upd, hij, hh0j]
      · simp [upd, hij, hih0]
    · refine ⟨?_, ?_, ?_, ?_, ?_⟩
      · -- head
        intro b hb
        by_cases hbb : b = bin
        · subst hbb
          simp [upd]
        · simp only [upd_ne hbb]
          exact hB.head b hb
      · -- links
        intro b hb
        by_cases hbb : b = bin
        · subst hbb
          simp only [upd_same]
          rw [chainSeg_cons]
          refine ⟨?_, ?_, ?_⟩
          · simp [binPrev, upd, hjh0]
          · simp only [List.headD_cons]
            simp [binNext, upd, hjh0]
          · -- chainSeg from j over h0 :: rest
            rw [chainSeg_cons]
            have hlinks := hB.links bin hbin
            rw [hBbin, chainSeg_cons] at hlinks
            obtain ⟨hp0, hn0, hrest⟩ := hlinks
            refine ⟨?_, ?_, ?_⟩
            · simp [binPrev, upd]
            · have hn0' : (s.m_nodes h0).binListNext = rest.headD UNUSED := hn0
              simp [binNext, upd, hh0j]
              simpa using hn0'
            · refine chainSeg_congr rest h0 UNUSED ?_ hrest
              intro i hi
              have hiB : i ∈ B bin := by
                rw [hBbin]
                exact List.mem_cons_of_mem _ hi
              have hij : i ≠ j := fun hh => hjB bin hbin (hh ▸ hiB)
              have hih0 : i ≠ h0 := by
                have hnd := hB.nodup bin hbin
                rw [hBbin] at hnd
                intro hh
                exact (List.nodup_cons.mp hnd).1 (hh ▸ hi)
              simp [binNext, binPrev, upd, hij, hih0]
        · simp only [upd_ne hbb]
          refine chainSeg_congr (B b) UNUSED UNUSED ?_ (hB.links b hb)
          intro i hi
          have hij : i ≠ j := fun hh => hjB b hb (hh ▸ hi)
          have hih0 : i ≠ h0 := by
            intro hh
            exact hbb (hcross b bin i hb hbin hi (hh ▸ hh0mem))
          simp [binNext, binPrev, upd, hij, hih0]
      · -- nodup
        intro b hb
        by_cases hbb : b = bin
        · subst hbb
          rw [upd_same, List.nodup_cons]
          refine ⟨?_, ?_⟩
          · have := hjB bin hbin
            rw [hBbin] at this
            exact this
          · have := hB.nodup bin hbin
            rw [hBbin] at this
            exact this
        · simp only [upd_ne hbb]
          exact hB.nodup b hb
      · -- memCls
        intro b hb i hi
        by_cases hbb : b = bin
        · subst hbb
          rw [upd_same, List.mem_cons] at hi
          rcases hi with hi | hi
          · subst hi
            constructor
            · simp [upd, hjh0, hbindef]
            · simp [upd, hjh0]
          · have hiB : i ∈ B bin := by
              rw [hBbin]
              exact hi
            have hij : i ≠ j := fun hh => hjB bin hbin (hh ▸ hiB)
            have := hB.memCls bin hbin i hiB
            by_cases hih0 : i = h0
            · subst hih0
              simpa [upd, hij, hh0j] using this
            · simpa [upd, hij, hih0] using this
        · rw [upd_ne hbb] at hi
          have hij : i ≠ j := fun hh => hjB b hb (hh ▸ hi)
          have hih0 : i ≠ h0 := by
            intro hh
            exact hbb (hcross b bin i hb hbin hi (hh ▸ hh0mem))
          have := hB.memCls b hb i hi
          simpa [upd, hij, hih0] using this
      · -- bitmap: no bitmap change, bin stays non-empty
        apply bitmapOK_iff hB.bitmap
        intro b hb
        by_cases hbb : b = bin
        · subst hbb
          simp [upd, hBbin]
        · simp [upd_ne hbb]

/-- The per-node spec of `removeNodeFromBin`: detach `x` from its bin free
    list (splicing its bin-list neighbors, or moving the bin head and
    maintaining the bitmap when `x` is the head), push `x` back on the
    free-index stack, and subtract its size from `freeStorage`.  Only bin-list
    link fields of other nodes change; `x`'s own record is untouched. -/
theorem removeNodeFromBin_spec {s : AllocState} {B : Nat → List Nat} (hB : BinsWF s B)
    {x bx : Nat} {P Q : List Nat} (hbx : bx < NUM_LEAF_BINS)
    (hdec : B bx = P ++ x :: Q)
    (hElem : ∀ b, b < NUM_LEAF_BINS → ∀ i ∈ B b, i ≠ UNUSED) :
    (removeNodeFromBin s x).m_size = s.m_size ∧
    (removeNodeFromBin s x).m_maxAllocs = s.m_maxAllocs ∧
    (removeNodeFromBin s x).hasNodes = s.hasNodes ∧
    (removeNodeFromBin s x).m_freeOffset = add32 s.m_freeOffset 1 ∧
    (removeNodeFromBin s x).m_freeNodes = upd s.m_freeNodes (add32 s.m_freeOffset 1) x ∧
    (removeNodeFromBin s x).m_freeStorage = sub32 s.m_freeStorage ((s.m_nodes x).dataSize) ∧
    (removeNodeFromBin s x).m_nodes x = s.m_nodes x ∧
    (∀ i, i ∉ B bx → (removeNodeFromBin s x).m_nodes i = s.m_nodes i) ∧
    (∀ i, ((removeNodeFromBin s x).m_nodes i).dataOffset = (s.m_nodes i).dataOffset ∧
      ((removeNodeFromBin s x).m_nodes i).dataSize = (s.m_nodes i).dataSize ∧
      ((removeNodeFromBin s x).m_nodes i).used = (s.m_nodes i).used ∧
      ((removeNodeFromBin s x).m_nodes i).neighborPrev = (s.m_nodes i).neighborPrev ∧
      ((removeNodeFromBin s x).m_nodes i).neighborNext = (s.m_nodes i).neighborNext) ∧
    BinsWF (removeNodeFromBin s x) (upd B bx (P ++ Q)) := by
  have hxmem : x ∈ B bx := by
    rw [hdec]
    exact List.mem_append_cons_self
  have hxcls : uintToSmallFloatRoundDown ((s.m_nodes x).dataSize) = bx :=
    (hB.memCls bx hbx x hxmem).1
  have hnd : (P ++ x :: Q).Nodup := by
    rw [← hdec]
    exact hB.nodup bx hbx
  have hnd2 := List.nodup_middle.mp hnd
  have hxPQ : x ∉ P ++ Q := (List.nodup_cons.mp hnd2).1
  have hndPQ : (P ++ Q).Nodup := (List.nodup_cons.mp hnd2).2
  have hxP : x ∉ P := fun hh => hxPQ (List.mem_append_left _ hh)
  have hxQ : x ∉ Q := fun hh => hxPQ (List.mem_append_right _ hh)
  have hsplit := hB.links bx hbx
  rw [hdec, chainSeg_append, chainSeg_cons] at hsplit
  obtain ⟨hP, hpx, hnx, hQ⟩ := hsplit
  simp only [List.headD_cons] at hP
  have eTop : bx >>> TOP_BINS_INDEX_SHIFT = bx / 8 := by
    rw [TOP_BINS_INDEX_SHIFT, Nat.shiftRight_eq_div_pow]
  have eLeaf : bx &&& LEAF_BINS_INDEX_MASK = bx % 8 := by
    rw [LEAF_BINS_INDEX_MASK, show (7 : Nat) = 2 ^ 3 - 1 from rfl,
      Nat.and_pow_two_sub_one_eq_mod]
  have hcross : ∀ b b' i, b < NUM_LEAF_BINS → b' < NUM_LEAF_BINS → i ∈ B b → i ∈ B b' →
      b = b' := by
    intro b b' i hb hb' hib hib'
    have := (hB.memCls b hb i hib).1
    have := (hB.memCls b' hb' i hib').1
    omega
  rcases List.eq_nil_or_concat P with hPnil | ⟨P0, lp, hPcat⟩
  · -- x is the head of its bin: the "hard case" of the source
    subst hPnil
    simp only [List.nil_append] at hdec hnd2 hxPQ hndPQ
    simp only [List.getLastD_nil] at hpx
    cases Q with
    | nil =>
      have hc1 : (s.m_nodes x).binListPrev = UNUSED := hpx
      have hc2 : (s.m_nodes x).binListNext = UNUSED := by simpa using hnx
      have hBx : B bx = [x] := hdec
      by_cases hz : (s.m_usedBins (bx >>> TOP_BINS_INDEX_SHIFT)) &&&
          ((U32 - 1) - (1 <<< (bx &&& LEAF_BINS_INDEX_MASK))) = 0
      · have hred : removeNodeFromBin s x =
            { s with
                m_binIndices := upd s.m_binIndices bx UNUSED,
                m_usedBins := upd s.m_usedBins (bx >>> TOP_BINS_INDEX_SHIFT)
                  ((s.m_usedBins (bx >>> TOP_BINS_INDEX_SHIFT)) &&&
                    ((U32 - 1) - (1 <<< (bx &&& LEAF_BINS_INDEX_MASK)))),
                m_usedBinsTop := s.m_usedBinsTop &&&
                  ((U32 - 1) - (1 <<< (bx >>> TOP_BINS_INDEX_SHIFT))),
                m_freeOffset := add32 s.m_freeOffset 1,
                m_freeNodes := upd s.m_freeNodes (add32 s.m_freeOffset 1) x,
                m_freeStorage := sub32 s.m_freeStorage ((s.m_nodes x).dataSize) } := by
          simp only [removeNodeFromBin]
          simp [hc1, hc2, hxcls, upd_same, hz]
        rw [hred]
        refine ⟨rfl, rfl, rfl, rfl, rfl, rfl, rfl, fun i _ => rfl, fun i => ⟨rfl, rfl, rfl, rfl, rfl⟩,
          ?_, ?_, ?_, ?_, ?_⟩
        · intro b hb
          by_cases hbb : b = bx
          · subst hbb
            simp [upd]
          · simp only [upd_ne hbb]
            exact hB.head b hb
        · intro b hb
          by_cases hbb : b = bx
          · subst hbb
            simp only [upd_same]
            exact chainSeg_nil
          · simp only [upd_ne hbb]
            exact hB.links b hb
        · intro b hb
          by_cases hbb : b = bx
          · subst hbb
            simp [upd]
          · simp only [upd_ne hbb]
            exact hB.nodup b hb
        · intro b hb i hi
          by_cases hbb : b = bx
          · subst hbb
            rw [upd_same] at hi
            simp at hi
          · rw [upd_ne hbb] at hi
            exact hB.memCls b hb i hi
        · rw [eTop, eLeaf]
          have hbc := bitmap_clear hB.bitmap hbx
          rw [eTop, eLeaf] at hz
          rw [if_pos hz] at hbc
          apply bitmapOK_iff hbc
          intro b hb
          by_cases hbb : b = bx
          · subst hbb
            simp [upd]
          · simp [upd_ne hbb, hbb]
      · have hred : removeNodeFromBin s x =
            { s with
                m_binIndices := upd s.m_binIndices bx UNUSED,
                m_usedBins := upd s.m_usedBins (bx >>> TOP_BINS_INDEX_SHIFT)
                  ((s.m_usedBins (bx >>> TOP_BINS_INDEX_SHIFT)) &&&
                    ((U32 - 1) - (1 <<< (bx &&& LEAF_BINS_INDEX_MASK)))),
                m_freeOffset := add32 s.m_freeOffset 1,
                m_freeNodes := upd s.m_freeNodes (add32 s.m_freeOffset 1) x,
                m_freeStorage := sub32 s.m_freeStorage ((s.m_nodes x).dataSize) } := by
          simp only [removeNodeFromBin]
          simp [hc1, hc2, hxcls, upd_same, hz]
        rw [hred]
        refine ⟨rfl, rfl, rfl, rfl, rfl, rfl, rfl, fun i _ => rfl, fun i => ⟨rfl, rfl, rfl, rfl, rfl⟩,
          ?_, ?_, ?_, ?_, ?_⟩
        · intro b hb
          by_cases hbb : b = bx
          · subst hbb
            simp [upd]
          · simp only [upd_ne hbb]
            exact hB.head b hb
        · intro b hb
          by_cases hbb : b = bx
          · subst hbb
            simp only [upd_same]
            exact chainSeg_nil
          · simp only [upd_ne hbb]
            exact hB.links b hb
        · intro b hb
          by_cases hbb : b = bx
          · subst hbb
            simp [upd]
          · simp only [upd_ne hbb]
            exact hB.nodup b hb
        · intro b hb i hi
          by_cases hbb : b = bx
          · subst hbb
            rw [upd_same] at hi
            simp at hi
          · rw [upd_ne hbb] at hi
            exact hB.memCls b hb i hi
        · rw [eTop, eLeaf]
          have hbc := bitmap_clear hB.bitmap hbx
          rw [eTop, eLeaf] at hz
          rw [if_neg hz] at hbc
          apply bitmapOK_iff hbc
          intro b hb
          by_cases hbb : b = bx
          · subst hbb
            simp [upd]
          · simp [upd_ne hbb, hbb]
    | cons q0 Qt =>
      have hc1 : (s.m_nodes x).binListPrev = UNUSED := hpx
      have hc2 : (s.m_nodes x).binListNext = q0 := by simpa using hnx
      have hq0mem : q0 ∈ B bx := by
        rw [hdec]
        exact List.mem_cons_of_mem _ (List.mem_cons_self _ _)
      have hq0UN : q0 ≠ UNUSED := hElem bx hbx q0 hq0mem
      have hxq0 : x ≠ q0 := by
        intro hh
        exact hxQ (hh ▸ List.mem_cons_self _ _)
      have hq0x : q0 ≠ x := fun hh => hxq0 hh.symm
      rw [chainSeg_cons] at hQ
      obtain ⟨hpq0, hnq0, hQt⟩ := hQ
      have hndQ : (q0 :: Qt).Nodup := hndPQ
      have hq0Qt : q0 ∉ Qt := (List.nodup_cons.mp hndQ).1
      have hred : removeNodeFromBin s x =
          { s with
              m_binIndices := upd s.m_binIndices bx q0,
              m_nodes := upd s.m_nodes q0 ({ s.m_nodes q0 with binListPrev := UNUSED }),
              m_freeOffset := add32 s.m_freeOffset 1,
              m_freeNodes := upd s.m_freeNodes (add32 s.m_freeOffset 1) x,
              m_freeStorage := sub32 s.m_freeStorage ((s.m_nodes x).dataSize) } := by
        simp only [removeNodeFromBin]
        simp [hc1, hc2, hxcls, upd_same, hq0UN, hxq0, upd_ne]
      rw [hred]
      refine ⟨rfl, rfl, rfl, rfl, rfl, rfl, by simp [upd_ne hxq0], ?_, ?_,
        ?_, ?_, ?_, ?_, ?_⟩
      · intro i hiB
        have hiq0 : i ≠ q0 := fun hh => hiB (hh ▸ hq0mem)
        simp [upd_ne hiq0]
      · intro i
        by_cases hiq0 : i = q0
        · subst hiq0
          simp [upd]
        · simp [upd_ne hiq0]
      · intro b hb
        by_cases hbb : b = bx
        · subst hbb
          simp [upd]
        · simp only [upd_ne hbb]
          exact hB.head b hb
      · intro b hb
        by_cases hbb : b = bx
        · subst hbb
          simp only [upd_same, List.nil_append]
          rw [chainSeg_cons]
          refine ⟨by simp [binPrev, upd], ?_, ?_⟩
          · have : (s.m_nodes q0).binListNext = Qt.headD UNUSED := hnq0
            simp [binNext, upd]
            simpa using this
          · refine chainSeg_congr Qt q0 UNUSED ?_ hQt
            intro i hi
            have hiq0 : i ≠ q0 := fun hh => hq0Qt (hh ▸ hi)
            simp [binNext, binPrev, upd, hiq0]
        · simp only [upd_ne hbb]
          refine chainSeg_congr (B b) UNUSED UNUSED ?_ (hB.links b hb)
          intro i hi
          have hiq0 : i ≠ q0 := by
            intro hh
            exact hbb (hcross b bx i hb hbx hi (hh ▸ hq0mem))
          simp [binNext, binPrev, upd, hiq0]
      · intro b hb
        by_cases hbb : b = bx
        · subst hbb
          simpa using hndQ
        · simp only [upd_ne hbb]
          exact hB.nodup b hb
      · intro b hb i hi
        by_cases hbb : b = bx
        · subst hbb
          rw [upd_same, List.nil_append] at hi
          have hiB := hdec ▸ List.mem_cons_of_mem x hi
          have := hB.memCls _ hbx i hiB
          by_cases hiq0 : i = q0
          · subst hiq0
            simpa [upd] using this
          · simpa [upd, hiq0] using this
        · rw [upd_ne hbb] at hi
          have hiq0 : i ≠ q0 := by
            intro hh
            exact hbb (hcross b bx i hb hbx hi (hh ▸ hq0mem))
          have := hB.memCls b hb i hi
          simpa [upd, hiq0] using this
      · apply bitmapOK_iff hB.bitmap
        intro b hb
        by_cases hbb : b = bx
        · subst hbb
          simp [upd, hdec]
        · simp [upd_ne hbb]
  · -- x has a predecessor in its bin list: the "easy case" of the source
    subst hPcat
    simp only [List.concat_eq_append] at hdec hnd hnd2 hxPQ hndPQ hxP hP hpx ⊢
    have hxlp : x ≠ lp := by
      intro hh
      exact hxP (hh ▸ List.mem_append_right _ (List.mem_singleton_self _))
    have hlpx : lp ≠ x := fun hh => hxlp hh.symm
    have hlpmem : lp ∈ B bx := by
      rw [hdec]
      exact List.mem_append_left _ (List.mem_append_right _ (List.mem_singleton_self _))
    have hlpUN : lp ≠ UNUSED := hElem bx hbx lp hlpmem
    have hc1 : (s.m_nodes x).binListPrev = lp := by
      have : binPrev s x = lp := by
        rw [hpx, List.getLastD_concat]
      exact this
    rw [chainSeg_snoc] at hP
    obtain ⟨hP0seg, hplp, hnlp⟩ := hP
    have hndP : (P0 ++ [lp]).Nodup := List.Nodup.of_append_left hnd
    have hlpP0 : lp ∉ P0 := by
      have := List.nodup_middle.mp (show (P0 ++ lp :: []).Nodup from hndP)
      have := (List.nodup_cons.mp this).1
      simpa using this
    have hdisj : (P0 ++ [lp]).Disjoint Q := by
      have h1 : ((P0 ++ [lp]) ++ Q).Nodup := hndPQ
      exact List.disjoint_of_nodup_append h1
    have hlpQ : lp ∉ Q := hdisj (List.mem_append_right _ (List.mem_singleton_self _))
    cases Q with
    | nil =>
      have hc2 : (s.m_nodes x).binListNext = UNUSED := by simpa using hnx
      have hred : removeNodeFromBin s x =
          { s with
              m_nodes := upd s.m_nodes lp ({ s.m_nodes lp with binListNext := UNUSED }),
              m_freeOffset := add32 s.m_freeOffset 1,
              m_freeNodes := upd s.m_freeNodes (add32 s.m_freeOffset 1) x,
              m_freeStorage := sub32 s.m_freeStorage ((s.m_nodes x).dataSize) } := by
        simp only [removeNodeFromBin]
        simp [hc1, hc2, hlpUN, hxlp, upd_ne]
      rw [hred]
      refine ⟨rfl, rfl, rfl, rfl, rfl, rfl, by simp [upd_ne hxlp], ?_, ?_,
        ?_, ?_, ?_, ?_, ?_⟩
      · intro i hiB
        have hilp : i ≠ lp := fun hh => hiB (hh ▸ hlpmem)
        simp [upd_ne hilp]
      · intro i
        by_cases hilp : i = lp
        · subst hilp
          simp [upd]
        · simp [upd_ne hilp]
      · intro b hb
        by_cases hbb : b = bx
        · subst hbb
          rw [upd_same, hB.head _ hb, hdec]
          cases P0 <;> simp
        · simp only [upd_ne hbb]
          exact hB.head b hb
      · intro b hb
        by_cases hbb : b = bx
        · subst hbb
          rw [upd_same, List.append_nil, chainSeg_snoc]
          refine ⟨?_, ?_, ?_⟩
          · refine chainSeg_congr P0 UNUSED lp ?_ hP0seg
            intro i hi
            have hilp : i ≠ lp := fun hh => hlpP0 (hh ▸ hi)
            simp [binNext, binPrev, upd, hilp]
          · have : (s.m_nodes lp).binListPrev = P0.getLastD UNUSED := hplp
            simp [binPrev, upd]
            simpa using this
          · simp [binNext, upd]
        · simp only [upd_ne hbb]
          refine chainSeg_congr (B b) UNUSED UNUSED ?_ (hB.links b hb)
          intro i hi
          have hilp : i ≠ lp := by
            intro hh
            exact hbb (hcross b bx i hb hbx hi (hh ▸ hlpmem))
          simp [binNext, binPrev, upd, hilp]
      · intro b hb
        by_cases hbb : b = bx
        · subst hbb
          rw [upd_same]
          simpa using hndPQ
        · simp only [upd_ne hbb]
          exact hB.nodup b hb
      · intro b hb i hi
        by_cases hbb : b = bx
        · subst hbb
          rw [upd_same, List.append_nil] at hi
          have hiB := hdec ▸ List.mem_append_left (x :: []) hi
          have := hB.memCls _ hbx i hiB
          by_cases hilp : i = lp
          · subst hilp
            simpa [upd] using this
          · simpa [upd, hilp] using this
        · rw [upd_ne hbb] at hi
          have hilp : i ≠ lp := by
            intro hh
            exact hbb (hcross b bx i hb hbx hi (hh ▸ hlpmem))
          have := hB.memCls b hb i hi
          simpa [upd, hilp] using this
      · apply bitmapOK_iff hB.bitmap
        intro b hb
        by_cases hbb : b = bx
        · subst hbb
          simp [upd, hdec]
        · simp [upd_ne hbb]
    | cons q0 Qt =>
      have hc2 : (s.m_nodes x).binListNext = q0 := by simpa using hnx
      have hq0mem : q0 ∈ B bx := by
        rw [hdec]
        exact List.mem_append_right _ (List.mem_cons_of_mem _ (List.mem_cons_self _ _))
      have hq0UN : q0 ≠ UNUSED := hElem bx hbx q0 hq0mem
      have hxq0 : x ≠ q0 := by
        intro hh
        exact hxQ (hh ▸ List.mem_cons_self _ _)
      have hq0lp : q0 ≠ lp := by
        intro hh
        exact hlpQ (hh ▸ List.mem_cons_self _ _)
      have hlpq0 : lp ≠ q0 := fun hh => hq0lp hh.symm
      have hq0P0 : q0 ∉ P0 := by
        intro hh
        exact (hdisj (List.mem_append_left _ hh)) (List.mem_cons_self _ _)
      rw [chainSeg_cons] at hQ
      obtain ⟨hpq0, hnq0, hQt⟩ := hQ
      have hndQ : (q0 :: Qt).Nodup := List.Nodup.of_append_right hndPQ
      have hq0Qt : q0 ∉ Qt := (List.nodup_cons.mp hndQ).1
      have hred : removeNodeFromBin s x =
          { s with
              m_nodes := upd (upd s.m_nodes lp ({ s.m_nodes lp with binListNext := q0 })) q0
                ({ s.m_nodes q0 with binListPrev := lp }),
              m_freeOffset := add32 s.m_freeOffset 1,
              m_freeNodes := upd s.m_freeNodes (add32 s.m_freeOffset 1) x,
              m_freeStorage := sub32 s.m_freeStorage ((s.m_nodes x).dataSize) } := by
        simp only [removeNodeFromBin]
        simp [hc1, hc2, hlpUN, hq0UN, hxlp, hxq0, hq0lp, upd_ne, upd]
      rw [hred]
      refine ⟨rfl, rfl, rfl, rfl, rfl, rfl, by simp [upd, hxlp, hxq0], ?_, ?_,
        ?_, ?_, ?_, ?_, ?_⟩
      · intro i hiB
        have hilp : i ≠ lp := fun hh => hiB (hh ▸ hlpmem)
        have hiq0 : i ≠ q0 := fun hh => hiB (hh ▸ hq0mem)
        simp [upd, hilp, hiq0]
      · intro i
        by_cases hiq0 : i = q0
        · subst hiq0
          simp [upd, hq0lp]
        · by_cases hilp : i = lp
          · subst hilp
            simp [upd, hlpq0]
          · simp [upd, hilp, hiq0]
      · intro b hb
        by_cases hbb : b = bx
        · subst hbb
          rw [upd_same, hB.head _ hb, hdec]
          cases P0 <;> simp
        · simp only [upd_ne hbb]
          exact hB.head b hb
      · intro b hb
        by_cases hbb : b = bx
        · subst hbb
          rw [upd_same, chainSeg_append, chainSeg_snoc]
          refine ⟨⟨?_, ?_, ?_⟩, ?_⟩
          · refine chainSeg_congr P0 UNUSED lp ?_ hP0seg
            intro i hi
            have hilp : i ≠ lp := fun hh => hlpP0 (hh ▸ hi)
            have hiq0 : i ≠ q0 := fun hh => hq0P0 (hh ▸ hi)
            simp [binNext, binPrev, upd, hilp, hiq0]
          · have : (s.m_nodes lp).binListPrev = P0.getLastD UNUSED := hplp
            simp [binPrev, upd, hlpq0]
            simpa using this
          · simp [binNext, upd, hlpq0]
          · rw [List.getLastD_concat, chainSeg_cons]
            refine ⟨?_, ?_, ?_⟩
            · simp [binPrev, upd]
            · have : (s.m_nodes q0).binListNext = Qt.headD UNUSED := hnq0
              simp [binNext, upd, hq0lp]
              simpa using this
            · refine chainSeg_congr Qt q0 UNUSED ?_ hQt
              intro i hi
              have hilp : i ≠ lp := fun hh => hlpQ (hh ▸ List.mem_cons_of_mem _ hi)
              have hiq0 : i ≠ q0 := fun hh => hq0Qt (hh ▸ hi)
              simp [binNext, binPrev, upd, hilp, hiq0]
        · simp only [upd_ne hbb]
          refine chainSeg_congr (B b) UNUSED UNUSED ?_ (hB.links b hb)
          intro i hi
          have hilp : i ≠ lp := by
            intro hh
            exact hbb (hcross b bx i hb hbx hi (hh ▸ hlpmem))
          have hiq0 : i ≠ q0 := by
            intro hh
            exact hbb (hcross b bx i hb hbx hi (hh ▸ hq0mem))
          simp [binNext, binPrev, upd, hilp, hiq0]
      · intro b hb
        by_cases hbb : b = bx
        · subst hbb
          rw [upd_same]
          exact hndPQ
        · simp only [upd_ne hbb]
          exact hB.nodup b hb
      · intro b hb i hi
        by_cases hbb : b = bx
        · subst hbb
          rw [upd_same] at hi
          have hiB : i ∈ B b := by
            rw [hdec]
            rcases List.mem_append.mp hi with hi | hi
            · exact List.mem_append_left _ hi
            · exact List.mem_append_right _ (List.mem_cons_of_mem _ hi)
          have := hB.memCls _ hbx i hiB
          by_cases hiq0 : i = q0
          · subst hiq0
            simpa [upd, hq0lp] using this
          · by_cases hilp : i = lp
            · subst hilp
              simpa [upd, hlpq0, hiq0] using this
            · simpa [upd, hilp, hiq0] using this
        · rw [upd_ne hbb] at hi
          have hilp : i ≠ lp := by
            intro hh
            exact hbb (hcross b bx i hb hbx hi (hh ▸ hlpmem))
          have hiq0 : i ≠ q0 := by
            intro hh
            exact hbb (hcross b bx i hb hbx hi (hh ▸ hq0mem))
          have := hB.memCls b hb i hi
          simpa [upd, hilp, hiq0] using this
      · apply bitmapOK_iff hB.bitmap
        intro b hb
        by_cases hbb : b = bx
        · subst hbb
          simp [upd, hdec]
        · simp [upd_ne hbb]

/-! ## Fit and range lemmas for the codec -/

theorem roundDown_le_239 {n : Nat} (hn : n < U32) : uintToSmallFloatRoundDown n ≤ 239 := by
  by_cases h8 : n < 8
  · rw [roundDown_denorm h8]
    omega
  · push_neg at h8
    obtain ⟨h3, h31, hq8, hq16⟩ := div_pow_bounds h8 hn
    rw [roundDown_eq h8 hn]
    omega

theorem roundUp_le_240 {n : Nat} (hn : n < U32) : uintToSmallFloatRoundUp n ≤ 240 := by
  by_cases h8 : n < 8
  · rw [roundUp_denorm h8]
    omega
  · push_neg at h8
    obtain ⟨h3, h31, hq8, hq16⟩ := div_pow_bounds h8 hn
    rw [roundUp_eq h8 hn, roundDown_eq h8 hn]
    split <;> omega

theorem roundDown_le_roundUp {n : Nat} (hn : n < U32) :
    uintToSmallFloatRoundDown n ≤ uintToSmallFloatRoundUp n := by
  by_cases h8 : n < 8
  · rw [roundDown_denorm h8, roundUp_denorm h8]
  · push_neg at h8
    rw [roundUp_eq h8 hn]
    split <;> omega

/-- If the round-up class of a request fits below the round-down class of a
    free node, the node really is large enough. -/
theorem fit_of_roundUp_le_roundDown {n m : Nat} (hn : n < U32) (hm : m < U32)
    (h : uintToSmallFloatRoundUp n ≤ uintToSmallFloatRoundDown m) : n ≤ m := by
  by_contra h2
  push_neg at h2
  have hmono : uintToSmallFloatRoundDown m ≤ uintToSmallFloatRoundDown n :=
    roundDown_mono (by omega) hn
  have hdu : uintToSmallFloatRoundDown n ≤ uintToSmallFloatRoundUp n :=
    roundDown_le_roundUp hn
  have heq1 : uintToSmallFloatRoundDown n = uintToSmallFloatRoundUp n := by omega
  have heq2 : uintToSmallFloatRoundDown m = uintToSmallFloatRoundDown n := by omega
  have hexact : smallFloatToUint (uintToSmallFloatRoundDown n) = n := by
    by_cases h8 : n < 8
    · rw [roundDown_denorm h8, decode_denorm h8]
    · push_neg at h8
      have := roundUp_eq h8 hn
      rw [← heq1] at this
      have hz : n % 2 ^ (log2Fuel 32 n - 3) = 0 := by
        by_cases hz : n % 2 ^ (log2Fuel 32 n - 3) = 0
        · exact hz
        · rw [if_neg hz] at this
          omega
      rw [decode_roundDown_exact h8 hn]
      have hdm := Nat.div_add_mod n (2 ^ (log2Fuel 32 n - 3))
      have expand : n / 2 ^ (log2Fuel 32 n - 3) * 2 ^ (log2Fuel 32 n - 3) =
          2 ^ (log2Fuel 32 n - 3) * (n / 2 ^ (log2Fuel 32 n - 3)) := by ring
      omega
  have hle : smallFloatToUint (uintToSmallFloatRoundDown m) ≤ m := decode_roundDown_le hm
  rw [heq2, hexact] at hle
  omega

/-! ## `tzcnt` and `findLowestSetBitAfter` -/

theorem tzcntFuel_testBit : ∀ (fuel v : Nat), v ≠ 0 → v < 2 ^ fuel →
    v.testBit (tzcntFuel fuel v) = true := by
  intro fuel
  induction fuel with
  | zero => intro v hv h2; omega
  | succ f ih =>
    intro v hv h2
    rw [tzcntFuel]
    by_cases hodd : v % 2 = 1
    · rw [if_pos hodd]
      rw [Nat.testBit_zero]
      simp [hodd]
    · rw [if_neg hodd]
      have hv2 : v / 2 ≠ 0 := by omega
      have hlt : v / 2 < 2 ^ f := by
        rw [pow_succ] at h2
        omega
      have := ih (v / 2) hv2 hlt
      rwa [Nat.testBit_succ]

theorem testBit_lt_of_lt {v k n : Nat} (hv : v < 2 ^ n) (h : v.testBit k = true) : k < n := by
  by_contra hk
  push_neg at hk
  have : v.testBit k = false :=
    Nat.testBit_lt_two_pow (lt_of_lt_of_le hv (Nat.pow_le_pow_right (by norm_num) hk))
  rw [this] at h
  cases h

theorem maskAfter_eq {st : Nat} (hst : st ≤ 32) :
    (U32 - 1) - ((1 <<< st) - 1) = (2 ^ (32 - st) - 1) <<< st := by
  rw [one_shiftLeft_eq, Nat.shiftLeft_eq]
  have h1 : (2 : Nat) ^ st ≤ 2 ^ 32 := Nat.pow_le_pow_right (by norm_num) hst
  have h2 : (2 : Nat) ^ (32 - st) * 2 ^ st = 2 ^ 32 := by
    rw [← pow_add]
    congr 1
    omega
  have hU : U32 = 2 ^ 32 := by norm_num [U32]
  have h3 : (2 ^ (32 - st) - 1) * 2 ^ st = 2 ^ 32 - 2 ^ st := by
    have hp : (1 : Nat) ≤ 2 ^ (32 - st) := Nat.one_le_two_pow
    calc (2 ^ (32 - st) - 1) * 2 ^ st = 2 ^ (32 - st) * 2 ^ st - 1 * 2 ^ st := by
          rw [Nat.sub_mul]
    _ = 2 ^ 32 - 2 ^ st := by rw [h2, one_mul]
  rw [h3, hU]
  have hp : (1 : Nat) ≤ 2 ^ st := Nat.one_le_two_pow
  revert hp h1
  generalize (2 : Nat) ^ st = X
  intro hp h1
  norm_num at h1 ⊢
  omega

theorem testBit_maskAfter {st j : Nat} (hst : st ≤ 32) :
    ((U32 - 1) - ((1 <<< st) - 1)).testBit j = (decide (st ≤ j) && decide (j < 32)) := by
  rw [maskAfter_eq hst, Nat.testBit_shiftLeft, Nat.testBit_two_pow_sub_one]
  by_cases h1 : st ≤ j
  · by_cases h2 : j < 32
    · have e1 : decide (st ≤ j) = true := by simp [h1]
      have e2 : decide (j < 32) = true := by simp [h2]
      have e3 : decide (j - st < 32 - st) = true := by
        simp only [decide_eq_true_eq]
        omega
      rw [e1, e2, e3]
    · have e2 : decide (j < 32) = false := by simp [h2]
      have e3 : decide (j - st < 32 - st) = false := by
        simp only [decide_eq_false_iff_not]
        omega
      simp [e2, e3]
  · have e1 : decide (st ≤ j) = false := by simp [h1]
    rw [e1]
    simp

/-- When `findLowestSetBitAfter` finds a bit, it is a set bit of the mask at
    or beyond the start index (and below 32 when the mask is a `uint32`). -/
theorem findLowestSetBitAfter_found {m st r : Nat} (hm : m < U32) (hst : st ≤ 32)
    (h : findLowestSetBitAfter m st = r) (hr : r ≠ NO_SPACE) :
    m.testBit r = true ∧ st ≤ r ∧ r < 32 := by
  simp only [findLowestSetBitAfter] at h
  by_cases hz : m &&& ((U32 - 1) - ((1 <<< st) - 1)) = 0
  · rw [if_pos hz] at h
    exact absurd h.symm hr
  · rw [if_neg hz] at h
    have hU : U32 = 2 ^ 32 := by norm_num [U32]
    have hlt : m &&& ((U32 - 1) - ((1 <<< st) - 1)) < 2 ^ 32 := by
      have := Nat.and_le_left (n := m) (m := (U32 - 1) - ((1 <<< st) - 1))
      omega
    have htb := tzcntFuel_testBit 32 _ hz hlt
    rw [show tzcntFuel 32 (m &&& ((U32 - 1) - ((1 <<< st) - 1))) = tzcnt_nonzero
      (m &&& ((U32 - 1) - ((1 <<< st) - 1))) from rfl, h] at htb
    rw [Nat.testBit_and, testBit_maskAfter hst] at htb
    simp only [Bool.and_eq_true, decide_eq_true_eq] at htb
    exact ⟨htb.1, htb.2.1, htb.2.2⟩

/-- When `findLowestSetBitAfter` fails, no bit at or beyond the start index
    is set. -/
theorem findLowestSetBitAfter_failed {m st : Nat} (hm : m < U32) (hst : st ≤ 32)
    (h : findLowestSetBitAfter m st = NO_SPACE) :
    ∀ j, st ≤ j → j < 32 → m.testBit j = false := by
  intro j hj1 hj2
  simp only [findLowestSetBitAfter] at h
  by_cases hz : m &&& ((U32 - 1) - ((1 <<< st) - 1)) = 0
  · have := congrArg (fun v => v.testBit j) hz
    simp only [Nat.testBit_and, testBit_maskAfter hst, Nat.zero_testBit] at this
    have e1 : decide (st ≤ j) = true := by simp [hj1]
    have e2 : decide (j < 32) = true := by simp [hj2]
    rw [e1, e2] at this
    simpa using this
  · rw [if_neg hz] at h
    have hU : U32 = 2 ^ 32 := by norm_num [U32]
    have hlt : m &&& ((U32 - 1) - ((1 <<< st) - 1)) < 2 ^ 32 := by
      have := Nat.and_le_left (n := m) (m := (U32 - 1) - ((1 <<< st) - 1))
      omega
    have htb := tzcntFuel_testBit 32 _ hz hlt
    have := testBit_lt_of_lt (n := 32) (by omega) htb
    rw [show tzcntFuel 32 (m &&& ((U32 - 1) - ((1 <<< st) - 1))) = tzcnt_nonzero
      (m &&& ((U32 - 1) - ((1 <<< st) - 1))) from rfl, h] at this
    simp only [NO_SPACE] at this
    omega

/-! ## `binWalk` correctness -/

theorem binWalk_eq {s : AllocState} :
    ∀ (l : List Nat) (fuel p : Nat), chainSeg (binNext s) (binPrev s) p UNUSED l →
      (∀ i ∈ l, i ≤ s.m_maxAllocs) → s.m_maxAllocs < UNUSED → l.length < fuel →
      binWalk s fuel (l.headD UNUSED) = l := by
  intro l
  induction l with
  | nil =>
    intro fuel p _ _ _ hlen
    cases fuel with
    | zero => omega
    | succ f => simp [binWalk]
  | cons i t ih =>
    intro fuel p hc hb hmax hlen
    obtain ⟨h1, h2, h3⟩ := hc
    cases fuel with
    | zero => omega
    | succ f =>
      have hi : i ≤ s.m_maxAllocs := hb i (List.mem_cons_self _ _)
      have hne : i ≠ UNUSED := by omega
      simp only [List.headD_cons, binWalk, if_neg hne]
      have hnext : (s.m_nodes i).binListNext = t.headD UNUSED := h2
      rw [hnext]
      rw [ih f i h3 (fun j hj => hb j (List.mem_cons_of_mem _ hj)) hmax (by simpa using hlen)]

/-! ## Further list and arithmetic helpers -/

theorem sumList_sublist_le {f : Nat → Nat} {l1 l2 : List Nat} (h : List.Sublist l1 l2) :
    sumList f l1 ≤ sumList f l2 := by
  induction h with
  | slnil => exact Nat.le_refl _
  | cons a h ih =>
    simp only [sumList_cons]
    omega
  | cons₂ a h ih =>
    simp only [sumList_cons]
    omega

theorem sumList_filter_le {f : Nat → Nat} {p : Nat → Bool} {l : List Nat} :
    sumList f (l.filter p) ≤ sumList f l :=
  sumList_sublist_le (List.filter_sublist l)

theorem pair_le_sumList {f : Nat → Nat} :
    ∀ {l : List Nat}, l.Nodup → ∀ {p q : Nat}, p ∈ l → q ∈ l → p ≠ q →
      f p + f q ≤ sumList f l := by
  intro l
  induction l with
  | nil => intro _ p q hp; cases hp
  | cons a t ih =>
    intro hnd p q hp hq hpq
    have hat : a ∉ t := (List.nodup_cons.mp hnd).1
    have hndt : t.Nodup := (List.nodup_cons.mp hnd).2
    simp only [sumList_cons]
    rcases List.mem_cons.mp hp with hpa | hpt
    · subst hpa
      rcases List.mem_cons.mp hq with hqa | hqt
      · exact absurd hqa.symm hpq
      · have := le_sumList_of_mem (f := f) hqt
        omega
    · rcases List.mem_cons.mp hq with hqa | hqt
      · subst hqa
        have := le_sumList_of_mem (f := f) hpt
        omega
      · have := ih hndt hpt hqt hpq
        omega

theorem spansFrom_bounds {off sz : Nat → Nat} :
    ∀ {l : List Nat} {o : Nat}, spansFrom off sz o l →
      ∀ i ∈ l, o ≤ off i ∧ off i + sz i ≤ o + sumList sz l := by
  intro l
  induction l with
  | nil => intro o _ i hi; cases hi
  | cons a t ih =>
    intro o hs i hi
    obtain ⟨h1, h2⟩ := hs
    rcases List.mem_cons.mp hi with hia | hit
    · subst hia
      have := sumList_cons (f := sz) (i := i) (t := t)
      omega
    · have := ih h2 i hit
      simp only [sumList_cons]
      omega

theorem noAdjFree_mono {u u' : Nat → Bool} :
    ∀ {l : List Nat}, (∀ i ∈ l, u i = true → u' i = true) → noAdjFree u l →
      noAdjFree u' l := by
  intro l
  induction l with
  | nil => intro _ _; exact List.chain'_nil
  | cons i t ih =>
    intro h hc
    cases t with
    | nil => simp [noAdjFree]
    | cons j t' =>
      rw [noAdjFree, List.chain'_cons] at hc ⊢
      refine ⟨?_, ih (fun x hx => h x (List.mem_cons_of_mem _ hx)) hc.2⟩
      rcases hc.1 with h1 | h1
      · exact Or.inl (h i (List.mem_cons_self _ _) h1)
      · exact Or.inr (h j (List.mem_cons_of_mem _ (List.mem_cons_self _ _)) h1)

theorem BinsWF_congr {s s' : AllocState} {B : Nat → List Nat}
    (hbi : s'.m_binIndices = s.m_binIndices)
    (hub : s'.m_usedBins = s.m_usedBins)
    (hut : s'.m_usedBinsTop = s.m_usedBinsTop)
    (hn : ∀ i, (s'.m_nodes i).binListNext = (s.m_nodes i).binListNext ∧
      (s'.m_nodes i).binListPrev = (s.m_nodes i).binListPrev ∧
      (s'.m_nodes i).dataSize = (s.m_nodes i).dataSize ∧
      (s'.m_nodes i).used = (s.m_nodes i).used)
    (hB : BinsWF s B) : BinsWF s' B := by
  refine ⟨?_, ?_, hB.nodup, ?_, ?_⟩
  · intro b hb
    rw [hbi]
    exact hB.head b hb
  · intro b hb
    refine chainSeg_congr (B b) UNUSED UNUSED ?_ (hB.links b hb)
    intro i _
    exact ⟨((hn i).1).symm, ((hn i).2.1).symm⟩
  · intro b hb i hi
    rw [(hn i).2.2.1, (hn i).2.2.2]
    exact hB.memCls b hb i hi
  · rw [hub, hut]
    exact hB.bitmap

theorem sub32_sub32_one {m l : Nat} (hl : l ≤ m) (hm : m < U32) :
    sub32 (sub32 m l) 1 = sub32 m (l + 1) := by
  simp only [sub32, U32] at *
  omega

theorem add32_sub32_one {m l : Nat} (hl1 : 1 ≤ l) (hl2 : l ≤ m + 1) (hm : m < U32) :
    add32 (sub32 m l) 1 = sub32 m (l - 1) := by
  simp only [add32, sub32, U32] at *
  omega

theorem sub32_eq_NO_SPACE_iff {m l : Nat} (hl : l ≤ m + 1) (hm : m ≤ U32 - 2) :
    sub32 m l = NO_SPACE ↔ l = m + 1 := by
  simp only [sub32, U32, NO_SPACE] at *
  omega

/-! ## Highest set bit via `lzcnt_nonzero` -/

theorem log2Fuel_testBit {v : Nat} (hv : v ≠ 0) (h32 : v < U32) :
    v.testBit (log2Fuel 32 v) = true ∧
      ∀ j, log2Fuel 32 v < j → v.testBit j = false := by
  have hU : U32 = 2 ^ 32 := by norm_num [U32]
  have hspec := log2Fuel_spec 32 v (by omega) (by omega)
  set l := log2Fuel 32 v with hl
  constructor
  · rw [Nat.testBit_to_div_mod]
    have hdiv : v / 2 ^ l = 1 := by
      have h1 : 1 ≤ v / 2 ^ l := (Nat.le_div_iff_mul_le (Nat.pos_pow_of_pos _ (by norm_num))).mpr
        (by omega)
      have h2 : v / 2 ^ l < 2 := by
        rw [Nat.div_lt_iff_lt_mul (Nat.pos_pow_of_pos _ (by norm_num))]
        have : 2 * 2 ^ l = 2 ^ (l + 1) := by ring
        omega
      omega
    simp [hdiv]
  · intro j hj
    have : v < 2 ^ j := by
      have : 2 ^ (l + 1) ≤ 2 ^ j := Nat.pow_le_pow_right (by norm_num) (by omega)
      omega
    exact Nat.testBit_lt_two_pow this

theorem shiftLeft_or_low_eq_add {a b k : Nat} (hb : b < 2 ^ k) :
    (a <<< k) ||| b = a * 2 ^ k + b := by
  apply Nat.eq_of_testBit_eq
  intro j
  rw [Nat.testBit_or, Nat.testBit_shiftLeft, Nat.mul_comm,
    Nat.testBit_mul_pow_two_add a hb j]
  by_cases hjk : j < k
  · have e1 : decide (k ≤ j) = false := by
      simp only [decide_eq_false_iff_not]
      omega
    simp [hjk, e1]
  · have e1 : decide (k ≤ j) = true := by
      simp only [decide_eq_true_eq]
      omega
    have hbj : b.testBit j = false :=
      Nat.testBit_lt_two_pow
        (lt_of_lt_of_le hb (Nat.pow_le_pow_right (by norm_num) (by omega)))
    simp [hjk, e1, hbj]

theorem highestBin_max {ub : Nat → Nat} {ut : Nat} {P : Nat → Prop}
    (h : BitmapOK ub ut P) (hne : ut ≠ 0) :
    let tb := 31 - lzcnt_nonzero ut
    let lb := 31 - lzcnt_nonzero (ub tb)
    let bin := (tb <<< TOP_BINS_INDEX_SHIFT) ||| lb
    bin < NUM_LEAF_BINS ∧ P bin ∧ ∀ b, b < NUM_LEAF_BINS → P b → b ≤ bin := by
  obtain ⟨h1, h2, h3, h4⟩ := h
  intro tb lb bin
  have hU : U32 = 2 ^ 32 := by norm_num [U32]
  have htb : tb = log2Fuel 32 ut := by
    have := log2Fuel_le_31 (n := ut) (by omega) h4
    simp only [tb, lzcnt_nonzero]
    omega
  have htop := log2Fuel_testBit hne h4
  rw [← htb] at htop
  have htb32 : tb < 32 := by
    have := log2Fuel_le_31 (n := ut) (by omega) h4
    omega
  have hubne : ub tb ≠ 0 := by
    apply (h2 tb (by simpa [NUM_TOP_BINS] using htb32)).mp
    rw [and_shift_ne_iff]
    exact htop.1
  have hub256 : ub tb < 256 := h3 tb (by simpa [NUM_TOP_BINS] using htb32)
  have hlb : lb = log2Fuel 32 (ub tb) := by
    have := log2Fuel_le_31 (n := ub tb) (by omega) (by omega)
    simp only [lb, lzcnt_nonzero]
    omega
  have hleaf := log2Fuel_testBit hubne (by omega)
  rw [← hlb] at hleaf
  have hlb8 : lb < 8 := by
    by_contra hc
    push_neg at hc
    have : ub tb < 2 ^ lb := by
      have : (256 : Nat) ≤ 2 ^ lb :=
        le_trans (by norm_num) (Nat.pow_le_pow_right (by norm_num) hc)
      omega
    rw [Nat.testBit_lt_two_pow this] at hleaf
    exact absurd hleaf.1 (by simp)
  have hbin_eq : bin = 8 * tb + lb := by
    simp only [bin, TOP_BINS_INDEX_SHIFT]
    rw [shiftLeft_or_low_eq_add (by norm_num; omega)]
    ring_nf
  have hdiv8 : bin / 8 = tb ∧ bin % 8 = lb := by omega
  have hbin256 : bin < 256 := by omega
  refine ⟨by simpa [NUM_LEAF_BINS] using hbin256, ?_, ?_⟩
  · have := (h1 bin (by simpa [NUM_LEAF_BINS] using hbin256)).mp
    apply this
    rw [hdiv8.1, hdiv8.2, and_shift_ne_iff]
    exact hleaf.1
  · intro b hb hPb
    simp only [NUM_LEAF_BINS] at hb
    have hbset : (ub (b / 8)).testBit (b % 8) = true := by
      have := (h1 b (by simpa [NUM_LEAF_BINS] using hb)).mpr hPb
      rwa [and_shift_ne_iff] at this
    have hubne' : ub (b / 8) ≠ 0 := by
      intro hc
      rw [hc] at hbset
      simp [Nat.zero_testBit] at hbset
    have htset : ut.testBit (b / 8) = true := by
      have := (h2 (b / 8) (by simp [NUM_TOP_BINS]; omega)).mpr hubne'
      rwa [and_shift_ne_iff] at this
    have hb8le : b / 8 ≤ tb := by
      by_contra hc
      push_neg at hc
      rw [htop.2 (b / 8) hc] at htset
      cases htset
    rcases Nat.lt_or_ge (b / 8) tb with hlt | hge
    · omega
    · have hbeq : b / 8 = tb := by omega
      have : b % 8 ≤ lb := by
        by_contra hc
        push_neg at hc
        rw [hbeq] at hbset
        rw [hleaf.2 (b % 8) hc] at hbset
        cases hbset
      omega

theorem getLastD_mem_of_ne_nil {l : List Nat} (h : l ≠ []) : l.getLastD 0 ∈ l := by
  cases l with
  | nil => exact absurd rfl h
  | cons a t =>
    rw [List.getLastD_cons]
    exact List.getLastD_mem_cons t a

theorem pairwise_lt_le_getLastD :
    ∀ {l : List Nat}, l.Pairwise (· < ·) → ∀ a ∈ l, a ≤ l.getLastD 0 := by
  intro l
  induction l with
  | nil => intro _ a ha; cases ha
  | cons b t ih =>
    intro hp a ha
    rw [List.getLastD_cons]
    have hbt : ∀ x ∈ t, b < x := fun x hx => List.rel_of_pairwise_cons hp hx
    have hpt : t.Pairwise (· < ·) := (List.pairwise_cons.mp hp).2
    rcases List.mem_cons.mp ha with hab | hat
    · subst hab
      cases t with
      | nil => simp
      | cons c t' =>
        rw [List.getLastD_cons]
        have hmem : (t'.getLastD c) ∈ c :: t' := List.getLastD_mem_cons t' c
        have := hbt _ hmem
        omega
    · cases t with
      | nil => cases hat
      | cons c t' =>
        have := ih hpt a hat
        rw [List.getLastD_cons] at this ⊢
        exact this

theorem filter_range_getLastD {P : Nat → Bool} {n b : Nat}
    (hb : b < n) (hPb : P b = true) (hmax : ∀ c, c < n → P c = true → c ≤ b) :
    ((List.range n).filter P).getLastD 0 = b := by
  have hmem : b ∈ (List.range n).filter P := by
    rw [List.mem_filter, List.mem_range]
    exact ⟨hb, hPb⟩
  have hne : (List.range n).filter P ≠ [] := by
    intro hc
    rw [hc] at hmem
    cases hmem
  have hglmem := getLastD_mem_of_ne_nil hne
  have hpw : ((List.range n).filter P).Pairwise (· < ·) :=
    List.Pairwise.filter _ (List.pairwise_lt_range n)
  have h1 : ((List.range n).filter P).getLastD 0 ≤ b := by
    rw [List.mem_filter, List.mem_range] at hglmem
    exact hmax _ hglmem.1 hglmem.2
  have h2 : b ≤ ((List.range n).filter P).getLastD 0 :=
    pairwise_lt_le_getLastD hpw b hmem
  omega

/-! ## `reset` -/

theorem reset_noop {s : AllocState} {n : Nat} (h : s.m_size = n) : reset s n = s := by
  simp [reset, h]

theorem reset_ne {s : AllocState} {n : Nat} (hne : s.m_size ≠ n) :
    reset s n =
      { m_size := n
        m_maxAllocs := s.m_maxAllocs
        m_freeStorage := add32 0 n
        m_usedBinsTop := 0 |||
          (1 <<< ((uintToSmallFloatRoundDown n) >>> TOP_BINS_INDEX_SHIFT))
        m_usedBins := upd (fun _ => 0)
          ((uintToSmallFloatRoundDown n) >>> TOP_BINS_INDEX_SHIFT)
          (0 ||| (1 <<< ((uintToSmallFloatRoundDown n) &&& LEAF_BINS_INDEX_MASK)))
        m_binIndices := upd (fun _ => UNUSED) (uintToSmallFloatRoundDown n) 0
        hasNodes := true
        m_nodes := upd (fun _ => {}) 0
          ({ dataOffset := 0, dataSize := n, binListNext := UNUSED })
        m_freeNodes := fun i => if i < s.m_maxAllocs + 1 then s.m_maxAllocs - i else 0
        m_freeOffset := sub32 s.m_maxAllocs 1 } := by
  simp only [reset, if_neg hne]
  rw [insertNodeIntoBin_empty rfl]
  simp [Nat.lt_succ_self, Nat.sub_self]

theorem reset_invW {s : AllocState} {n : Nat} (hne : s.m_size ≠ n) (hn : n < U32)
    (hmax : s.m_maxAllocs ≤ U32 - 2) :
    InvW (reset s n) [0] (upd (fun _ => []) (uintToSmallFloatRoundDown n) [0]) := by
  rw [reset_ne hne]
  set bin := uintToSmallFloatRoundDown n with hbin
  have hbin256 : bin < NUM_LEAF_BINS := by
    have := roundDown_le_239 hn
    simp only [NUM_LEAF_BINS]
    omega
  have eTop : bin >>> TOP_BINS_INDEX_SHIFT = bin / 8 := by
    rw [TOP_BINS_INDEX_SHIFT, Nat.shiftRight_eq_div_pow]
  have eLeaf : bin &&& LEAF_BINS_INDEX_MASK = bin % 8 := by
    rw [LEAF_BINS_INDEX_MASK, show (7 : Nat) = 2 ^ 3 - 1 from rfl,
      Nat.and_pow_two_sub_one_eq_mod]
  have hmaxU : s.m_maxAllocs < U32 := by
    simp only [U32] at *
    omega
  refine ⟨rfl, hn, hmax, ?_, ?_, ?_, ?_, ?_, ?_, ?_⟩
  · -- ChainWF
    refine ⟨?_, ?_, ?_, ?_, ?_, ?_⟩
    · exact ⟨by simp [nbrPrev, upd], by simp [nbrNext, upd], trivial⟩
    · exact ⟨by simp [offF, upd], trivial⟩
    · simp [sumList, szF, upd]
    · simp
    · intro i hi
      simp only [List.mem_singleton] at hi
      subst hi
      exact Nat.zero_le _
    · simp [noAdjFree]
  · -- BinsWF
    refine ⟨?_, ?_, ?_, ?_, ?_⟩
    · intro b hb
      by_cases hbb : b = bin
      · subst hbb
        simp [upd]
      · simp [upd_ne hbb]
    · intro b hb
      by_cases hbb : b = bin
      · subst hbb
        simp only [upd_same]
        exact ⟨by simp [binPrev, upd], by simp [binNext, upd], trivial⟩
      · simp only [upd_ne hbb]
        trivial
    · intro b hb
      by_cases hbb : b = bin
      · subst hbb
        simp
      · simp [upd_ne hbb]
    · intro b hb i hi
      by_cases hbb : b = bin
      · subst hbb
        rw [upd_same] at hi
        simp only [List.mem_singleton] at hi
        subst hi
        constructor
        · simp [upd, hbin]
        · simp [upd]
      · rw [upd_ne hbb] at hi
        cases hi
    · -- bitmap
      have hbase : BitmapOK (fun _ => 0) 0 (fun _ => False) := by
        refine ⟨?_, ?_, ?_, ?_⟩
        · intro b hb
          simp [Nat.zero_and]
        · intro t ht
          simp [Nat.zero_and]
        · intro t ht
          norm_num
        · simp [U32]
      have hset := bitmap_set hbase hbin256
      rw [eTop, eLeaf]
      refine bitmapOK_iff hset ?_
      intro b hb
      by_cases hbb : b = bin
      · subst hbb
        simp [upd]
      · simp [hbb, upd_ne hbb]
  · -- StackWF
    refine ⟨?_, rfl, ?_, ?_⟩
    · simp
    · intro k hk
      simp only [List.length_singleton] at hk
      dsimp only
      rw [if_pos (by omega)]
      refine ⟨by omega, ?_⟩
      simp only [List.mem_singleton]
      omega
    · intro k1 k2 h12 hk2
      simp only [List.length_singleton] at hk2
      dsimp only
      rw [if_pos (by omega), if_pos (by omega)]
      omega
  · -- binsSub
    intro b hb i hi
    by_cases hbb : b = bin
    · subst hbb
      rw [upd_same] at hi
      exact hi
    · rw [upd_ne hbb] at hi
      cases hi
  · -- freeInBin
    intro i hi _
    simp only [List.mem_singleton] at hi
    subst hi
    have : uintToSmallFloatRoundDown ((upd (fun _ => ({} : Node)) 0
        ({ dataOffset := 0, dataSize := n, binListNext := UNUSED } : Node)) 0).dataSize
        = bin := by
      simp [upd, hbin]
    simp only [AllocState.mk.injEq] at *
    rw [this, upd_same]
    simp
  · -- unusedOut
    intro i hi hni
    simp only [List.mem_singleton] at hni
    simp [upd_ne hni]
  · -- storage
    have hfil : (List.filter (fun i =>
        decide (((upd (fun _ => ({} : Node)) 0
          ({ dataOffset := 0, dataSize := n, binListNext := UNUSED } : Node)) i).used
            = false)) [0]) = [0] := by
      simp [upd]
    simp only [add32, Nat.zero_add]
    rw [Nat.mod_eq_of_lt hn]
    simp [szF, sumList, upd]

/-! ## The bin search performed by `allocate` -/

theorem allocate_noSpace {s : AllocState} {n : Nat} (h : s.m_freeOffset = NO_SPACE) :
    allocate s n = (s, ({} : Alloc)) := by
  simp [allocate, h]

theorem allocate_search {s : AllocState} {B : Nat → List Nat} (hB : BinsWF s B)
    {n : Nat} (hn : n < U32) (hoff : s.m_freeOffset ≠ NO_SPACE) :
    (allocate s n = (s, ({} : Alloc)) ∧
      ∀ b, uintToSmallFloatRoundUp n ≤ b → b < NUM_LEAF_BINS → B b = []) ∨
    (∃ tb lb, allocate s n = allocAt s n tb lb ∧ tb < 32 ∧ lb < 8 ∧
      uintToSmallFloatRoundUp n ≤ (tb <<< TOP_BINS_INDEX_SHIFT) ||| lb ∧
      ((tb <<< TOP_BINS_INDEX_SHIFT) ||| lb) < NUM_LEAF_BINS ∧
      B ((tb <<< TOP_BINS_INDEX_SHIFT) ||| lb) ≠ []) := by
  obtain ⟨bm1, bm2, bm3, bm4⟩ := hB.bitmap
  simp only [NUM_LEAF_BINS, NUM_TOP_BINS] at bm1 bm2 bm3
  have h240 := roundUp_le_240 hn
  have eTop : uintToSmallFloatRoundUp n >>> TOP_BINS_INDEX_SHIFT =
      uintToSmallFloatRoundUp n / 8 := by
    rw [TOP_BINS_INDEX_SHIFT, Nat.shiftRight_eq_div_pow]
  have eLeaf : uintToSmallFloatRoundUp n &&& LEAF_BINS_INDEX_MASK =
      uintToSmallFloatRoundUp n % 8 := by
    rw [LEAF_BINS_INDEX_MASK, show (7 : Nat) = 2 ^ 3 - 1 from rfl,
      Nat.and_pow_two_sub_one_eq_mod]
  have eOr : ∀ a b : Nat, b < 8 → (a <<< TOP_BINS_INDEX_SHIFT) ||| b = 8 * a + b := by
    intro a b hb
    rw [shiftLeft_or_low_eq_add (k := TOP_BINS_INDEX_SHIFT)
      (by simp only [TOP_BINS_INDEX_SHIFT]; omega)]
    simp only [TOP_BINS_INDEX_SHIFT]
    omega
  have hmt30 : uintToSmallFloatRoundUp n / 8 ≤ 30 := by omega
  by_cases hr0 : (if s.m_usedBinsTop &&&
        (1 <<< (uintToSmallFloatRoundUp n >>> TOP_BINS_INDEX_SHIFT)) ≠ 0 then
      findLowestSetBitAfter
        (s.m_usedBins (uintToSmallFloatRoundUp n >>> TOP_BINS_INDEX_SHIFT))
        (uintToSmallFloatRoundUp n &&& LEAF_BINS_INDEX_MASK)
    else NO_SPACE) = NO_SPACE
  · -- the leaf scan of the minimum top bin failed (or that top bin is empty):
    -- every leaf bin of the minimum row at or after the minimum class is empty
    have hrow : ∀ j, uintToSmallFloatRoundUp n % 8 ≤ j → j < 8 →
        (s.m_usedBins (uintToSmallFloatRoundUp n / 8)).testBit j = false := by
      intro j hj1 hj2
      by_cases hc1 : s.m_usedBinsTop &&&
          (1 <<< (uintToSmallFloatRoundUp n >>> TOP_BINS_INDEX_SHIFT)) ≠ 0
      · rw [if_pos hc1] at hr0
        rw [eTop, eLeaf] at hr0
        exact findLowestSetBitAfter_failed
          (by have := bm3 (uintToSmallFloatRoundUp n / 8) (by omega)
              simp only [U32]
              omega)
          (by omega) hr0 j hj1 (by omega)
      · push_neg at hc1
        have hub0 : s.m_usedBins (uintToSmallFloatRoundUp n / 8) = 0 := by
          by_contra hub
          have h2 := (bm2 _ (by omega)).mpr hub
          rw [← eTop] at h2
          exact h2 hc1
        rw [hub0]
        exact Nat.zero_testBit j
    by_cases ht : findLowestSetBitAfter s.m_usedBinsTop
        ((uintToSmallFloatRoundUp n >>> TOP_BINS_INDEX_SHIFT) + 1) = NO_SPACE
    · -- complete failure
      left
      constructor
      · simp only [allocate, if_neg hoff]
        rw [if_pos hr0, if_pos ht]
      · intro b hb1 hb2
        simp only [NUM_LEAF_BINS] at hb2
        have hb8 : uintToSmallFloatRoundUp n / 8 ≤ b / 8 := by omega
        by_contra hbne
        have hset := (bm1 b (by omega)).mpr hbne
        rw [and_shift_ne_iff] at hset
        rcases Nat.eq_or_lt_of_le hb8 with heq | hlt
        · -- same top row: leaf scan said empty
          have hj : uintToSmallFloatRoundUp n % 8 ≤ b % 8 := by omega
          rw [← heq] at hset
          rw [hrow (b % 8) hj (by omega)] at hset
          cases hset
        · -- higher top rows: the top-level scan said empty
          have hub0 : s.m_usedBins (b / 8) = 0 := by
            by_contra hub
            have h2 := (bm2 (b / 8) (by omega)).mpr hub
            rw [and_shift_ne_iff] at h2
            rw [findLowestSetBitAfter_failed bm4 (by rw [eTop]; omega) ht (b / 8)
              (by rw [eTop]; omega) (by omega)] at h2
            cases h2
          rw [hub0, Nat.zero_testBit] at hset
          cases hset
    · -- found a non-empty higher top bin; take its lowest set leaf bit
      right
      have hfound := findLowestSetBitAfter_found bm4 (by rw [eTop]; omega)
        (rfl : findLowestSetBitAfter s.m_usedBinsTop
          ((uintToSmallFloatRoundUp n >>> TOP_BINS_INDEX_SHIFT) + 1) = _) ht
      obtain ⟨htbit, htge, htlt⟩ := hfound
      set t := findLowestSetBitAfter s.m_usedBinsTop
        ((uintToSmallFloatRoundUp n >>> TOP_BINS_INDEX_SHIFT) + 1) with hT
      rw [eTop] at htge
      have hubt : s.m_usedBins t ≠ 0 := by
        apply (bm2 t (by omega)).mp
        rw [and_shift_ne_iff]
        exact htbit
      have hub256 : s.m_usedBins t < 256 := bm3 t (by omega)
      have hlbit := tzcntFuel_testBit 32 (s.m_usedBins t) hubt (by omega)
      have hlb8 : tzcnt_nonzero (s.m_usedBins t) < 8 :=
        testBit_lt_of_lt (n := 8) (by omega) hlbit
      refine ⟨t, tzcnt_nonzero (s.m_usedBins t), ?_, htlt, hlb8, ?_, ?_, ?_⟩
      · simp only [allocate, if_neg hoff]
        rw [if_pos hr0, if_neg ht]
      · rw [eOr _ _ hlb8]
        omega
      · rw [eOr _ _ hlb8]
        simp only [NUM_LEAF_BINS]
        omega
      · apply (bm1 ((t <<< TOP_BINS_INDEX_SHIFT) ||| tzcnt_nonzero (s.m_usedBins t))
          (by rw [eOr _ _ hlb8]; omega)).mp
        rw [eOr _ _ hlb8]
        have e1 : (8 * t + tzcnt_nonzero (s.m_usedBins t)) / 8 = t := by omega
        have e2 : (8 * t + tzcnt_nonzero (s.m_usedBins t)) % 8 =
            tzcnt_nonzero (s.m_usedBins t) := by omega
        rw [e1, e2, and_shift_ne_iff]
        exact hlbit
  · -- the leaf scan of the minimum top bin succeeded
    right
    have hc1 : s.m_usedBinsTop &&&
        (1 <<< (uintToSmallFloatRoundUp n >>> TOP_BINS_INDEX_SHIFT)) ≠ 0 := by
      by_contra hc
      rw [if_neg (not_not_intro hc)] at hr0
      exact hr0 rfl
    rw [if_pos hc1] at hr0
    have hfound := @findLowestSetBitAfter_found
      (s.m_usedBins (uintToSmallFloatRoundUp n >>> TOP_BINS_INDEX_SHIFT))
      (uintToSmallFloatRoundUp n &&& LEAF_BINS_INDEX_MASK) _
      (by rw [eTop]
          have := bm3 (uintToSmallFloatRoundUp n / 8) (by omega)
          simp only [U32]
          omega)
      (by rw [eLeaf]; omega) rfl hr0
    obtain ⟨hbit, hge, _⟩ := hfound
    set r := findLowestSetBitAfter
      (s.m_usedBins (uintToSmallFloatRoundUp n >>> TOP_BINS_INDEX_SHIFT))
      (uintToSmallFloatRoundUp n &&& LEAF_BINS_INDEX_MASK) with hR
    rw [eLeaf] at hge
    have hub256 : s.m_usedBins (uintToSmallFloatRoundUp n / 8) < 256 :=
      bm3 _ (by omega)
    have hr8 : r < 8 := by
      rw [eTop] at hbit
      exact testBit_lt_of_lt (n := 8) (by omega) hbit
    refine ⟨uintToSmallFloatRoundUp n >>> TOP_BINS_INDEX_SHIFT, r, ?_,
      (by rw [eTop]; omega), hr8, ?_, ?_, ?_⟩
    · simp only [allocate, if_neg hoff]
      rw [if_neg (by rw [if_pos hc1, ← hR]; exact fun hc => hr0 hc)]
      rw [if_pos hc1, ← hR]
    · rw [eOr _ _ hr8, eTop]
      omega
    · rw [eOr _ _ hr8, eTop]
      simp only [NUM_LEAF_BINS]
      omega
    · apply (bm1 _ (by rw [eOr _ _ hr8, eTop]; omega)).mp
      rw [eOr _ _ hr8, eTop]
      have e1 : (8 * (uintToSmallFloatRoundUp n / 8) + r) / 8 =
          uintToSmallFloatRoundUp n / 8 := by omega
      have e2 : (8 * (uintToSmallFloatRoundUp n / 8) + r) % 8 = r := by omega
      rw [e1, e2, and_shift_ne_iff, ← eTop]
      exact hbit

/-! ## `allocAt`, decomposed into its two stages -/

theorem allocAt_eq_stages (s : AllocState) (n tb lb : Nat) :
    allocAt s n tb lb =
      splitStage (popStage s n tb lb).1 (popStage s n tb lb).2.1
        (popStage s n tb lb).2.2 n := rfl

theorem popStage_spec {s : AllocState} {B : Nat → List Nat} (hB : BinsWF s B)
    {tb lb x : Nat} {Q : List Nat} (htb : tb < 32) (hlb : lb < 8)
    (hdec : B ((tb <<< TOP_BINS_INDEX_SHIFT) ||| lb) = x :: Q)
    (hElem : ∀ b, b < NUM_LEAF_BINS → ∀ i ∈ B b, i ≠ UNUSED)
    (n : Nat) :
    (popStage s n tb lb).2.1 = x ∧
    (popStage s n tb lb).2.2 = (s.m_nodes x).dataSize ∧
    (popStage s n tb lb).1.m_size = s.m_size ∧
    (popStage s n tb lb).1.m_maxAllocs = s.m_maxAllocs ∧
    (popStage s n tb lb).1.hasNodes = s.hasNodes ∧
    (popStage s n tb lb).1.m_freeNodes = s.m_freeNodes ∧
    (popStage s n tb lb).1.m_freeOffset = s.m_freeOffset ∧
    (popStage s n tb lb).1.m_freeStorage = sub32 s.m_freeStorage ((s.m_nodes x).dataSize) ∧
    (popStage s n tb lb).1.m_nodes x = { s.m_nodes x with dataSize := n, used := true } ∧
    (∀ i, i ≠ x → i ∉ B ((tb <<< TOP_BINS_INDEX_SHIFT) ||| lb) →
      (popStage s n tb lb).1.m_nodes i = s.m_nodes i) ∧
    (∀ i, i ≠ x →
      ((popStage s n tb lb).1.m_nodes i).dataOffset = (s.m_nodes i).dataOffset ∧
      ((popStage s n tb lb).1.m_nodes i).dataSize = (s.m_nodes i).dataSize ∧
      ((popStage s n tb lb).1.m_nodes i).used = (s.m_nodes i).used ∧
      ((popStage s n tb lb).1.m_nodes i).neighborPrev = (s.m_nodes i).neighborPrev ∧
      ((popStage s n tb lb).1.m_nodes i).neighborNext = (s.m_nodes i).neighborNext) ∧
    BinsWF (popStage s n tb lb).1 (upd B ((tb <<< TOP_BINS_INDEX_SHIFT) ||| lb) Q) := by
  have eOr : ∀ a b : Nat, b < 8 → (a <<< TOP_BINS_INDEX_SHIFT) ||| b = 8 * a + b := by
    intro a b hb
    rw [shiftLeft_or_low_eq_add (k := TOP_BINS_INDEX_SHIFT)
      (by simp only [TOP_BINS_INDEX_SHIFT]; omega)]
    simp only [TOP_BINS_INDEX_SHIFT]
    omega
  have hbin8 : (tb <<< TOP_BINS_INDEX_SHIFT) ||| lb = 8 * tb + lb := eOr tb lb hlb
  have hbin256 : (tb <<< TOP_BINS_INDEX_SHIFT) ||| lb < NUM_LEAF_BINS := by
    rw [hbin8]
    simp only [NUM_LEAF_BINS]
    omega
  set bin := (tb <<< TOP_BINS_INDEX_SHIFT) ||| lb with hbindef
  have hx : s.m_binIndices bin = x := by
    rw [hB.head bin hbin256, hdec]
    rfl
  have hxQ : x ∉ Q := by
    have := hB.nodup bin hbin256
    rw [hdec] at this
    exact (List.nodup_cons.mp this).1
  have hndQ : Q.Nodup := by
    have := hB.nodup bin hbin256
    rw [hdec] at this
    exact (List.nodup_cons.mp this).2
  have hlinks := hB.links bin hbin256
  rw [hdec, chainSeg_cons] at hlinks
  obtain ⟨hpx, hnx, hlQ⟩ := hlinks
  have hcross : ∀ b b' i, b < NUM_LEAF_BINS → b' < NUM_LEAF_BINS → i ∈ B b → i ∈ B b' →
      b = b' := by
    intro b b' i hb hb' hib hib'
    have := (hB.memCls b hb i hib).1
    have := (hB.memCls b' hb' i hib').1
    omega
  have hxmem : x ∈ B bin := by
    rw [hdec]
    exact List.mem_cons_self _ _
  obtain ⟨bm1, bm2, bm3, bm4⟩ := hB.bitmap
  have hdiv : bin / 8 = tb := by omega
  have hmod : bin % 8 = lb := by omega
  cases Q with
  | nil =>
    -- the bin becomes empty: the bitmap bits are cleared
    have hnxU : (s.m_nodes x).binListNext = UNUSED := by simpa using hnx
    by_cases hz : (s.m_usedBins tb) &&& ((U32 - 1) - (1 <<< lb)) = 0
    · have hred : popStage s n tb lb =
          ({ s with
              m_nodes := upd s.m_nodes x ({ s.m_nodes x with dataSize := n, used := true }),
              m_binIndices := upd s.m_binIndices bin UNUSED,
              m_freeStorage := sub32 s.m_freeStorage ((s.m_nodes x).dataSize),
              m_usedBins := upd s.m_usedBins tb
                ((s.m_usedBins tb) &&& ((U32 - 1) - (1 <<< lb))),
              m_usedBinsTop := s.m_usedBinsTop &&& ((U32 - 1) - (1 <<< tb)) },
            x, (s.m_nodes x).dataSize) := by
        simp only [popStage, ← hbindef, hx, hnxU, hz]
        simp [upd_same, hz]
      rw [hred]
      refine ⟨rfl, rfl, rfl, rfl, rfl, rfl, rfl, rfl, by simp [upd_same], ?_, ?_, ?_⟩
      · intro i hix _
        simp [upd_ne hix]
      · intro i hix
        simp [upd_ne hix]
      · -- BinsWF with the bin emptied
        refine ⟨?_, ?_, ?_, ?_, ?_⟩
        · intro b hb
          by_cases hbb : b = bin
          · subst hbb
            simp [upd]
          · simp only [upd_ne hbb]
            exact hB.head b hb
        · intro b hb
          by_cases hbb : b = bin
          · subst hbb
            simp only [upd_same]
            trivial
          · simp only [upd_ne hbb]
            refine chainSeg_congr (B b) UNUSED UNUSED ?_ (hB.links b hb)
            intro i hi
            have hix : i ≠ x := by
              intro hc
              subst hc
              exact hbb (hcross b bin i hb hbin256 hi hxmem)
            simp [binNext, binPrev, upd_ne hix]
        · intro b hb
          by_cases hbb : b = bin
          · subst hbb
            simp
          · simp only [upd_ne hbb]
            exact hB.nodup b hb
        · intro b hb i hi
          by_cases hbb : b = bin
          · subst hbb
            rw [upd_same] at hi
            cases hi
          · rw [upd_ne hbb] at hi
            have hix : i ≠ x := by
              intro hc
              subst hc
              exact hbb (hcross b bin i hb hbin256 hi hxmem)
            have hmem := hB.memCls b hb i hi
            simpa [upd_ne hix] using hmem
        · have hclear := @bitmap_clear s.m_usedBins s.m_usedBinsTop
            (fun b => B b ≠ []) _ ⟨bm1, bm2, bm3, bm4⟩ hbin256
          rw [hdiv, hmod, if_pos hz] at hclear
          refine bitmapOK_iff hclear ?_
          intro b hb
          by_cases hbb : b = bin
          · subst hbb
            simp [upd, hdec]
          · simp only [upd_ne hbb]
            constructor
            · rintro ⟨_, hh⟩
              exact hh
            · intro hh
              exact ⟨hbb, hh⟩
    · have hred : popStage s n tb lb =
          ({ s with
              m_nodes := upd s.m_nodes x ({ s.m_nodes x with dataSize := n, used := true }),
              m_binIndices := upd s.m_binIndices bin UNUSED,
              m_freeStorage := sub32 s.m_freeStorage ((s.m_nodes x).dataSize),
              m_usedBins := upd s.m_usedBins tb
                ((s.m_usedBins tb) &&& ((U32 - 1) - (1 <<< lb))) },
            x, (s.m_nodes x).dataSize) := by
        simp only [popStage, ← hbindef, hx, hnxU, hz]
        simp [upd_same, hz]
      rw [hred]
      refine ⟨rfl, rfl, rfl, rfl, rfl, rfl, rfl, rfl, by simp [upd_same], ?_, ?_, ?_⟩
      · intro i hix _
        simp [upd_ne hix]
      · intro i hix
        simp [upd_ne hix]
      · refine ⟨?_, ?_, ?_, ?_, ?_⟩
        · intro b hb
          by_cases hbb : b = bin
          · subst hbb
            simp [upd]
          · simp only [upd_ne hbb]
            exact hB.head b hb
        · intro b hb
          by_cases hbb : b = bin
          · subst hbb
            simp only [upd_same]
            trivial
          · simp only [upd_ne hbb]
            refine chainSeg_congr (B b) UNUSED UNUSED ?_ (hB.links b hb)
            intro i hi
            have hix : i ≠ x := by
              intro hc
              subst hc
              exact hbb (hcross b bin i hb hbin256 hi hxmem)
            simp [binNext, binPrev, upd_ne hix]
        · intro b hb
          by_cases hbb : b = bin
          · subst hbb
            simp
          · simp only [upd_ne hbb]
            exact hB.nodup b hb
        · intro b hb i hi
          by_cases hbb : b = bin
          · subst hbb
            rw [upd_same] at hi
            cases hi
          · rw [upd_ne hbb] at hi
            have hix : i ≠ x := by
              intro hc
              subst hc
              exact hbb (hcross b bin i hb hbin256 hi hxmem)
            have hmem := hB.memCls b hb i hi
            simpa [upd_ne hix] using hmem
        · have hclear := @bitmap_clear s.m_usedBins s.m_usedBinsTop
            (fun b => B b ≠ []) _ ⟨bm1, bm2, bm3, bm4⟩ hbin256
          rw [hdiv, hmod, if_neg hz] at hclear
          refine bitmapOK_iff hclear ?_
          intro b hb
          by_cases hbb : b = bin
          · subst hbb
            simp [upd, hdec]
          · simp only [upd_ne hbb]
            constructor
            · rintro ⟨_, hh⟩
              exact hh
            · intro hh
              exact ⟨hbb, hh⟩
  | cons q Q' =>
    -- the bin stays non-empty: new head `q`, its `binListPrev` cleared
    have hq : (s.m_nodes x).binListNext = q := by simpa using hnx
    have hqmem : q ∈ B bin := by
      rw [hdec]
      exact List.mem_cons_of_mem _ (List.mem_cons_self _ _)
    have hqU : q ≠ UNUSED := hElem bin hbin256 q hqmem
    have hqx : q ≠ x := by
      intro hc
      subst hc
      exact hxQ (List.mem_cons_self _ _)
    have hxq : x ≠ q := fun hc => hqx hc.symm
    have hred : popStage s n tb lb =
        ({ s with
            m_nodes := upd
              (upd s.m_nodes x ({ s.m_nodes x with dataSize := n, used := true })) q
              ({ s.m_nodes q with binListPrev := UNUSED }),
            m_binIndices := upd s.m_binIndices bin q,
            m_freeStorage := sub32 s.m_freeStorage ((s.m_nodes x).dataSize) },
          x, (s.m_nodes x).dataSize) := by
      simp only [popStage, ← hbindef, hx, hq]
      simp [upd_same, upd_ne hqx, hqU, upd_ne hqU]
    rw [hred]
    refine ⟨rfl, rfl, rfl, rfl, rfl, rfl, rfl, rfl, ?_, ?_, ?_, ?_⟩
    · simp [upd_ne hxq, upd_same]
    · intro i hix hiB
      have hiq : i ≠ q := fun hc => hiB (hc ▸ hqmem)
      simp [upd_ne hix, upd_ne hiq]
    · intro i hix
      by_cases hiq : i = q
      · subst hiq
        simp [upd_same, upd_ne hix]
      · simp [upd_ne hix, upd_ne hiq]
    · refine ⟨?_, ?_, ?_, ?_, ?_⟩
      · intro b hb
        by_cases hbb : b = bin
        · subst hbb
          simp [upd]
        · simp only [upd_ne hbb]
          exact hB.head b hb
      · intro b hb
        by_cases hbb : b = bin
        · subst hbb
          simp only [upd_same]
          rw [chainSeg_cons]
          have hqpatch : ∀ j ∈ Q', j ≠ q ∧ j ≠ x := by
            intro j hj
            constructor
            · intro hc
              subst hc
              exact (List.nodup_cons.mp hndQ).1 hj
            · intro hc
              subst hc
              exact hxQ (List.mem_cons_of_mem _ hj)
          refine ⟨by simp [binPrev, upd_same], ?_, ?_⟩
          · rw [chainSeg_cons] at hlQ
            have := hlQ.2.1
            simp only [binNext] at this ⊢
            rw [upd_same]
            exact this
          · rw [chainSeg_cons] at hlQ
            refine chainSeg_congr Q' q UNUSED ?_ hlQ.2.2
            intro j hj
            obtain ⟨hjq, hjx⟩ := hqpatch j hj
            simp [binNext, binPrev, upd_ne hjq, upd_ne hjx]
        · simp only [upd_ne hbb]
          refine chainSeg_congr (B b) UNUSED UNUSED ?_ (hB.links b hb)
          intro i hi
          have hix : i ≠ x := by
            intro hc
            subst hc
            exact hbb (hcross b bin i hb hbin256 hi hxmem)
          have hiq : i ≠ q := by
            intro hc
            subst hc
            exact hbb (hcross b bin i hb hbin256 hi hqmem)
          simp [binNext, binPrev, upd_ne hix, upd_ne hiq]
      · intro b hb
        by_cases hbb : b = bin
        · subst hbb
          rw [upd_same]
          exact hndQ
        · simp only [upd_ne hbb]
          exact hB.nodup b hb
      · intro b hb i hi
        by_cases hbb : b = bin
        · subst hbb
          rw [upd_same] at hi
          have hiB : i ∈ B bin := by
            rw [hdec]
            exact List.mem_cons_of_mem _ hi
          have hix : i ≠ x := by
            intro hc
            subst hc
            exact hxQ hi
          have hmem := hB.memCls bin hbin256 i hiB
          by_cases hiq : i = q
          · subst hiq
            simpa [upd_same, upd_ne hix] using hmem
          · simpa [upd_ne hix, upd_ne hiq] using hmem
        · rw [upd_ne hbb] at hi
          have hix : i ≠ x := by
            intro hc
            subst hc
            exact hbb (hcross b bin i hb hbin256 hi hxmem)
          have hiq : i ≠ q := by
            intro hc
            subst hc
            exact hbb (hcross b bin i hb hbin256 hi hqmem)
          have hmem := hB.memCls b hb i hi
          simpa [upd_ne hix, upd_ne hiq] using hmem
      · refine bitmapOK_iff ⟨bm1, bm2, bm3, bm4⟩ ?_
        intro b hb
        by_cases hbb : b = bin
        · subst hbb
          simp [upd, hdec]
        · simp [upd_ne hbb]

theorem noAdjFree_insert {u : Nat → Bool} {l1 l2 : List Nat} {a b : Nat}
    (h : noAdjFree u (l1 ++ a :: l2)) (hab : u a = true ∨ u b = true)
    (hb : ∀ y ∈ l2.head?, u b = true ∨ u y = true) :
    noAdjFree u (l1 ++ a :: b :: l2) := by
  unfold noAdjFree at *
  rw [List.chain'_append] at h ⊢
  obtain ⟨h1, h2, h3⟩ := h
  rw [List.chain'_cons'] at h2
  refine ⟨h1, ?_, ?_⟩
  · rw [List.chain'_cons]
    exact ⟨hab, List.chain'_cons'.mpr ⟨hb, h2.2⟩⟩
  · simpa using h3

theorem nodup_insert_middle {l1 l2 : List Nat} {a b : Nat}
    (h : (l1 ++ a :: l2).Nodup) (hb : b ∉ l1 ++ a :: l2) :
    (l1 ++ a :: b :: l2).Nodup := by
  have h2 : ((l1 ++ [a]) ++ b :: l2).Nodup := by
    rw [List.nodup_middle, List.nodup_cons]
    constructor
    · intro hmem
      apply hb
      simp only [List.mem_append, List.mem_singleton, List.mem_cons] at hmem ⊢
      tauto
    · simpa [List.append_assoc] using h
  simpa [List.append_assoc] using h2

set_option maxHeartbeats 1600000 in
/-- Field-level description of `splitStage` when the remainder is non-empty:
    the remainder becomes the fresh node `J`, spliced spatially right after
    the popped node `x`. -/
theorem splitStage_desc {s t u : AllocState} {x J n : Nat} {Bl L2 : List Nat}
    (hrsz0 : 0 < sub32 ((s.m_nodes x).dataSize) n)
    (hi1 : (insertNodeIntoBin t (sub32 ((s.m_nodes x).dataSize) n)
      (add32 ((t.m_nodes x).dataOffset) n)).2 = J)
    (hu : u = (insertNodeIntoBin t (sub32 ((s.m_nodes x).dataSize) n)
      (add32 ((t.m_nodes x).dataOffset) n)).1)
    (hufullx : u.m_nodes x = { s.m_nodes x with dataSize := n, used := true })
    (hi9 : u.m_nodes J = { dataOffset := add32 ((t.m_nodes x).dataOffset) n,
                           dataSize := sub32 ((s.m_nodes x).dataSize) n,
                           binListNext := Bl.headD UNUSED })
    (hxJ : x ≠ J) (hJx : J ≠ x)
    (hnxlink : (s.m_nodes x).neighborNext = L2.headD UNUSED)
    (hhead : L2 ≠ [] → (L2.headD UNUSED) ≠ UNUSED ∧ (L2.headD UNUSED) ≠ x ∧
      (L2.headD UNUSED) ≠ J) :
    (splitStage t x ((s.m_nodes x).dataSize) n).2 =
      ({ offset := (s.m_nodes x).dataOffset, metadata := x } : Alloc) ∧
    (splitStage t x ((s.m_nodes x).dataSize) n).1.m_size = u.m_size ∧
    (splitStage t x ((s.m_nodes x).dataSize) n).1.m_maxAllocs = u.m_maxAllocs ∧
    (splitStage t x ((s.m_nodes x).dataSize) n).1.hasNodes = u.hasNodes ∧
    (splitStage t x ((s.m_nodes x).dataSize) n).1.m_freeNodes = u.m_freeNodes ∧
    (splitStage t x ((s.m_nodes x).dataSize) n).1.m_freeOffset = u.m_freeOffset ∧
    (splitStage t x ((s.m_nodes x).dataSize) n).1.m_freeStorage = u.m_freeStorage ∧
    (splitStage t x ((s.m_nodes x).dataSize) n).1.m_binIndices = u.m_binIndices ∧
    (splitStage t x ((s.m_nodes x).dataSize) n).1.m_usedBins = u.m_usedBins ∧
    (splitStage t x ((s.m_nodes x).dataSize) n).1.m_usedBinsTop = u.m_usedBinsTop ∧
    (splitStage t x ((s.m_nodes x).dataSize) n).1.m_nodes x =
      { s.m_nodes x with dataSize := n, used := true, neighborNext := J } ∧
    (splitStage t x ((s.m_nodes x).dataSize) n).1.m_nodes J =
      { dataOffset := add32 ((t.m_nodes x).dataOffset) n,
        dataSize := sub32 ((s.m_nodes x).dataSize) n,
        binListPrev := UNUSED,
        binListNext := Bl.headD UNUSED,
        neighborPrev := x,
        neighborNext := (s.m_nodes x).neighborNext,
        used := false } ∧
    (∀ i, i ≠ x → i ≠ J →
      ((splitStage t x ((s.m_nodes x).dataSize) n).1.m_nodes i).binListNext =
        (u.m_nodes i).binListNext ∧
      ((splitStage t x ((s.m_nodes x).dataSize) n).1.m_nodes i).binListPrev =
        (u.m_nodes i).binListPrev ∧
      ((splitStage t x ((s.m_nodes x).dataSize) n).1.m_nodes i).dataOffset =
        (u.m_nodes i).dataOffset ∧
      ((splitStage t x ((s.m_nodes x).dataSize) n).1.m_nodes i).dataSize =
        (u.m_nodes i).dataSize ∧
      ((splitStage t x ((s.m_nodes x).dataSize) n).1.m_nodes i).used =
        (u.m_nodes i).used ∧
      ((splitStage t x ((s.m_nodes x).dataSize) n).1.m_nodes i).neighborNext =
        (u.m_nodes i).neighborNext) ∧
    (∀ i, i ≠ x → i ≠ J → i ≠ L2.headD UNUSED →
      ((splitStage t x ((s.m_nodes x).dataSize) n).1.m_nodes i).neighborPrev =
        (u.m_nodes i).neighborPrev) ∧
    (L2 ≠ [] →
      ((splitStage t x ((s.m_nodes x).dataSize) n).1.m_nodes
        (L2.headD UNUSED)).neighborPrev = J) := by
  have hunx : (u.m_nodes x).neighborNext = (s.m_nodes x).neighborNext := by
    rw [hufullx]
  cases L2 with
  | nil =>
    have hnxU : (s.m_nodes x).neighborNext = UNUSED := by
      simpa using hnxlink
    refine ⟨?_, ?_, ?_, ?_, ?_, ?_, ?_, ?_, ?_, ?_, ?_, ?_, ?_, ?_, ?_⟩
    · simp only [splitStage]
      rw [if_pos hrsz0, hi1, ← hu, hunx, hnxU]
      simp [upd, hxJ, hJx, hufullx]
    · simp only [splitStage]
      rw [if_pos hrsz0, hi1, ← hu, hunx, hnxU]
      simp
    · simp only [splitStage]
      rw [if_pos hrsz0, hi1, ← hu, hunx, hnxU]
      simp
    · simp only [splitStage]
      rw [if_pos hrsz0, hi1, ← hu, hunx, hnxU]
      simp
    · simp only [splitStage]
      rw [if_pos hrsz0, hi1, ← hu, hunx, hnxU]
      simp
    · simp only [splitStage]
      rw [if_pos hrsz0, hi1, ← hu, hunx, hnxU]
      simp
    · simp only [splitStage]
      rw [if_pos hrsz0, hi1, ← hu, hunx, hnxU]
      simp
    · simp only [splitStage]
      rw [if_pos hrsz0, hi1, ← hu, hunx, hnxU]
      simp
    · simp only [splitStage]
      rw [if_pos hrsz0, hi1, ← hu, hunx, hnxU]
      simp
    · simp only [splitStage]
      rw [if_pos hrsz0, hi1, ← hu, hunx, hnxU]
      simp
    · simp only [splitStage]
      rw [if_pos hrsz0, hi1, ← hu, hunx, hnxU]
      simp [upd, hxJ, hJx, hufullx]
    · simp only [splitStage]
      rw [if_pos hrsz0, hi1, ← hu, hunx, hnxU]
      simp [upd, hxJ, hJx, hufullx, hi9, hunx, hnxU]
    · intro i hix hiJ
      simp only [splitStage]
      rw [if_pos hrsz0, hi1, ← hu, hunx, hnxU]
      simp [upd, hix, hiJ]
    · intro i hix hiJ _
      simp only [splitStage]
      rw [if_pos hrsz0, hi1, ← hu, hunx, hnxU]
      simp [upd, hix, hiJ]
    · intro hc
      exact absurd rfl hc
  | cons h L2' =>
    have hnxh : (s.m_nodes x).neighborNext = h := by
      simpa using hnxlink
    obtain ⟨hhU, hhx, hhJ⟩ := hhead (by intro hc; cases hc)
    simp only [List.headD_cons] at hhU hhx hhJ
    have hxh : x ≠ h := fun hc => hhx hc.symm
    have hJh : J ≠ h := fun hc => hhJ hc.symm
    refine ⟨?_, ?_, ?_, ?_, ?_, ?_, ?_, ?_, ?_, ?_, ?_, ?_, ?_, ?_, ?_⟩
    · simp only [splitStage]
      rw [if_pos hrsz0, hi1, ← hu, hunx, hnxh]
      simp [upd, hxJ, hJx, hxh, hhx, hJh, hhJ, hhU, hufullx]
    · simp only [splitStage]
      rw [if_pos hrsz0, hi1, ← hu, hunx, hnxh]
      simp [hhU]
    · simp only [splitStage]
      rw [if_pos hrsz0, hi1, ← hu, hunx, hnxh]
      simp [hhU]
    · simp only [splitStage]
      rw [if_pos hrsz0, hi1, ← hu, hunx, hnxh]
      simp [hhU]
    · simp only [splitStage]
      rw [if_pos hrsz0, hi1, ← hu, hunx, hnxh]
      simp [hhU]
    · simp only [splitStage]
      rw [if_pos hrsz0, hi1, ← hu, hunx, hnxh]
      simp [hhU]
    · simp only [splitStage]
      rw [if_pos hrsz0, hi1, ← hu, hunx, hnxh]
      simp [hhU]
    · simp only [splitStage]
      rw [if_pos hrsz0, hi1, ← hu, hunx, hnxh]
      simp [hhU]
    · simp only [splitStage]
      rw [if_pos hrsz0, hi1, ← hu, hunx, hnxh]
      simp [hhU]
    · simp only [splitStage]
      rw [if_pos hrsz0, hi1, ← hu, hunx, hnxh]
      simp [hhU]
    · simp only [splitStage]
      rw [if_pos hrsz0, hi1, ← hu, hunx, hnxh]
      simp [upd, hxJ, hJx, hxh, hhx, hJh, hhJ, hhU, hufullx]
    · simp only [splitStage]
      rw [if_pos hrsz0, hi1, ← hu, hunx, hnxh]
      simp [upd, hxJ, hJx, hxh, hhx, hJh, hhJ, hhU, hufullx, hi9, hunx, hnxh]
    · intro i hix hiJ
      simp only [splitStage]
      rw [if_pos hrsz0, hi1, ← hu, hunx, hnxh]
      by_cases hih : i = h
      · subst hih
        simp [upd, hix, hiJ, hhU]
      · simp [upd, hix, hiJ, hih, hhU]
    · intro i hix hiJ hih
      simp only [List.headD_cons] at hih
      simp only [splitStage]
      rw [if_pos hrsz0, hi1, ← hu, hunx, hnxh]
      simp [upd, hix, hiJ, hih, hhU]
    · intro _
      simp only [List.headD_cons]
      simp only [splitStage]
      rw [if_pos hrsz0, hi1, ← hu, hunx, hnxh]
      simp [upd, hhx, hhJ, hhU]


set_option maxHeartbeats 1600000 in
/-- The central specification of `allocAt` on an invariant-satisfying state:
    it pops the head `x` of the designated non-empty bin, marks it used with
    the exact requested size, splits off any remainder as a fresh free node
    spliced next to `x`, and re-establishes the full invariant. -/
theorem allocAt_spec {s : AllocState} {L : List Nat} {B : Nat → List Nat} (hI : InvW s L B)
    {n tb lb : Nat} (htb : tb < 32) (hlb : lb < 8)
    (hbinNE : B ((tb <<< TOP_BINS_INDEX_SHIFT) ||| lb) ≠ [])
    (hfit : uintToSmallFloatRoundUp n ≤ (tb <<< TOP_BINS_INDEX_SHIFT) ||| lb)
    (hbin256 : ((tb <<< TOP_BINS_INDEX_SHIFT) ||| lb) < NUM_LEAF_BINS)
    (hn : n < U32) (hlen : L.length ≤ s.m_maxAllocs) :
    ∃ L' B' x,
      InvW (allocAt s n tb lb).1 L' B' ∧
      (allocAt s n tb lb).2 = { offset := (s.m_nodes x).dataOffset, metadata := x } ∧
      x ∈ L ∧ x ≤ s.m_maxAllocs ∧ (s.m_nodes x).used = false ∧
      ((allocAt s n tb lb).1.m_nodes x).dataSize = n ∧
      ((allocAt s n tb lb).1.m_nodes x).used = true ∧
      (allocAt s n tb lb).1.hasNodes = true ∧
      (allocAt s n tb lb).1.m_size = s.m_size ∧
      (allocAt s n tb lb).1.m_maxAllocs = s.m_maxAllocs ∧
      (∀ i, i ≠ x → ((allocAt s n tb lb).1.m_nodes i).used = (s.m_nodes i).used) ∧
      L'.length ≤ L.length + 1 ∧
      ((L'.filter (fun i => ((allocAt s n tb lb).1.m_nodes i).used)).length =
        (L.filter (fun i => (s.m_nodes i).used)).length + 1) := by
  obtain ⟨x, Q, hdec⟩ := List.exists_cons_of_ne_nil hbinNE
  have hmaxU : s.m_maxAllocs < U32 := by
    have := hI.maxLt
    simp only [U32] at *
    omega
  have hElem : ∀ b, b < NUM_LEAF_BINS → ∀ i ∈ B b, i ≠ UNUSED := by
    intro b hb i hi
    have hiL := hI.binsSub b hb i hi
    have h1 := hI.chain.bounded i hiL
    have h2 := hI.maxLt
    simp only [UNUSED, U32] at *
    omega
  have hxmemB : x ∈ B ((tb <<< TOP_BINS_INDEX_SHIFT) ||| lb) := by
    rw [hdec]
    exact List.mem_cons_self _ _
  have hxL : x ∈ L := hI.binsSub _ hbin256 x hxmemB
  have hxmax : x ≤ s.m_maxAllocs := hI.chain.bounded x hxL
  have hxcls := hI.bins.memCls _ hbin256 x hxmemB
  have hxfree : (s.m_nodes x).used = false := hxcls.2
  have hszx32 : (s.m_nodes x).dataSize < U32 := by
    have h1 : (szF s) x ≤ sumList (szF s) L := le_sumList_of_mem hxL
    rw [hI.chain.total] at h1
    have := hI.sizeLt
    simp only [szF] at h1
    omega
  have hfitx : n ≤ (s.m_nodes x).dataSize := by
    refine fit_of_roundUp_le_roundDown hn hszx32 ?_
    rw [hxcls.1]
    exact hfit
  have hndB := hI.bins.nodup _ hbin256
  rw [hdec] at hndB
  have hxQ : x ∉ Q := (List.nodup_cons.mp hndB).1
  have hpop := popStage_spec hI.bins htb hlb hdec hElem n
  set t := (popStage s n tb lb).1 with ht
  obtain ⟨hp1, hp2, hp3, hp4, hp5, hp6, hp7, hp8, hp9, hp10, hp11, hp12⟩ := hpop
  clear_value t
  set bin := (tb <<< TOP_BINS_INDEX_SHIFT) ||| lb with hbindef
  set B2 := upd B bin Q with hB2def
  -- decompose the live chain around x
  obtain ⟨L1, L2, hLdec⟩ := List.append_of_mem hxL
  have hnd := hI.chain.nodup
  rw [hLdec] at hnd
  have hxL12 : x ∉ L1 ++ L2 := (List.nodup_cons.mp (List.nodup_middle.mp hnd)).1
  have hndL12 : (L1 ++ L2).Nodup := (List.nodup_cons.mp (List.nodup_middle.mp hnd)).2
  have hxL1 : x ∉ L1 := fun hc => hxL12 (List.mem_append_left _ hc)
  have hxL2 : x ∉ L2 := fun hc => hxL12 (List.mem_append_right _ hc)
  have hlinks := hI.chain.links
  rw [hLdec, chainSeg_append, chainSeg_cons] at hlinks
  obtain ⟨hlinkL1, hpxlink, hnxlink, hlinkL2⟩ := hlinks
  simp only [List.headD_cons] at hlinkL1
  have hspans := hI.chain.spans
  rw [hLdec, spansFrom_append] at hspans
  obtain ⟨hspL1, hoffx, hspL2⟩ := hspans
  have htot := hI.chain.total
  rw [hLdec, sumList_append, sumList_cons] at htot
  -- the offset of x and the bound on its span
  have hoffb : (s.m_nodes x).dataOffset + (s.m_nodes x).dataSize ≤ s.m_size := by
    have := spansFrom_bounds hI.chain.spans x hxL
    rw [hI.chain.total] at this
    simp only [offF, szF] at this
    omega
  -- decomposition of the free-storage sum
  have hstor := hI.storage
  have hfilx : (fun i => decide ((s.m_nodes i).used = false)) x = true := by
    simp [hxfree]
  rw [hLdec, List.filter_append, List.filter_cons, if_pos hfilx, sumList_append,
    sumList_cons] at hstor
  have hfsle : s.m_freeStorage ≤ s.m_size := by
    rw [hI.storage, ← hI.chain.total]
    exact sumList_filter_le
  -- rewrite the goal through the two stages
  rw [allocAt_eq_stages, hp1, hp2, ← ht]
  -- frame for the used flags out of t
  have htused : ∀ i, i ≠ x → (t.m_nodes i).used = (s.m_nodes i).used := by
    intro i hix
    exact (hp11 i hix).2.2.1
  rcases Nat.eq_or_lt_of_le hfitx with heq | hlt
  · -- exact fit: the remainder is empty, no split happens
    have hrem : sub32 ((s.m_nodes x).dataSize) n = 0 := by
      simp only [sub32, U32, ← heq]
      omega
    have hsplit : splitStage t x ((s.m_nodes x).dataSize) n =
        (t, { offset := ((t.m_nodes x).dataOffset), metadata := x }) := by
      simp only [splitStage, hrem]
      simp
    rw [hsplit]
    have hszt : ∀ i, i ≠ x → (t.m_nodes i).dataSize = (s.m_nodes i).dataSize :=
      fun i hix => (hp11 i hix).2.1
    have hofft : ∀ i, i ≠ x → (t.m_nodes i).dataOffset = (s.m_nodes i).dataOffset :=
      fun i hix => (hp11 i hix).1
    have hsztx : (t.m_nodes x).dataSize = (s.m_nodes x).dataSize := by
      simp only [hp9]
      exact heq
    have hofftx : (t.m_nodes x).dataOffset = (s.m_nodes x).dataOffset := by
      simp [hp9]
    have husedtx : (t.m_nodes x).used = true := by
      simp [hp9]
    refine ⟨L, B2, x, ?_, ?_, hxL, hxmax, hxfree, by simp only [hp9], husedtx,
      by rw [hp5]; exact hI.hasN, hp3, hp4, htused, by omega, ?_⟩
    · -- the invariant is preserved with the same live chain
      refine ⟨by rw [hp5]; exact hI.hasN, by rw [hp3]; exact hI.sizeLt,
        by rw [hp4]; exact hI.maxLt, ?_, hp12, ?_, ?_, ?_, ?_, ?_⟩
      · -- ChainWF
        refine ⟨?_, ?_, ?_, hI.chain.nodup, ?_, ?_⟩
        · refine chainSeg_congr L UNUSED UNUSED ?_ hI.chain.links
          intro i _
          by_cases hix : i = x
          · subst hix
            constructor
            · simp only [nbrNext, hp9]
            · simp only [nbrPrev, hp9]
          · have := hp11 i hix
            exact ⟨by simp only [nbrNext]; rw [this.2.2.2.2],
              by simp only [nbrPrev]; rw [this.2.2.2.1]⟩
        · refine spansFrom_congr L 0 ?_ hI.chain.spans
          intro i _
          by_cases hix : i = x
          · subst hix
            exact ⟨by simp only [offF]; rw [hofftx], by simp only [szF]; rw [hsztx]⟩
          · exact ⟨by simp only [offF]; rw [hofft i hix],
              by simp only [szF]; rw [hszt i hix]⟩
        · rw [show sumList (szF t) L = sumList (szF s) L from sumList_congr ?_, hp3]
          · exact hI.chain.total
          · intro i _
            by_cases hix : i = x
            · subst hix
              simp only [szF]
              rw [hsztx]
            · simp only [szF]
              rw [hszt i hix]
        · intro i hi
          rw [hp4]
          exact hI.chain.bounded i hi
        · refine noAdjFree_mono ?_ hI.chain.coalesced
          intro i _ hu
          by_cases hix : i = x
          · subst hix
            simp only [usedF, husedtx]
          · simp only [usedF] at *
            rw [htused i hix]
            exact hu
      · -- StackWF
        refine ⟨by rw [hp4]; exact hI.stack.count, by rw [hp7, hp4]; exact hI.stack.off,
          ?_, ?_⟩
        · intro k hk
          rw [hp4] at hk
          rw [hp6, hp4]
          exact hI.stack.mem k hk
        · intro k1 k2 h12 hk2
          rw [hp4] at hk2
          rw [hp6]
          exact hI.stack.dist k1 k2 h12 hk2
      · -- binsSub
        intro b hb i hi
        by_cases hbb : b = bin
        · subst hbb
          rw [hB2def, upd_same] at hi
          exact hI.binsSub bin hbin256 i (by rw [hdec]; exact List.mem_cons_of_mem _ hi)
        · rw [hB2def, upd_ne hbb] at hi
          exact hI.binsSub b hb i hi
      · -- freeInBin
        intro i hi hfree
        have hix : i ≠ x := by
          intro hc
          subst hc
          rw [husedtx] at hfree
          cases hfree
        have hfs : (s.m_nodes i).used = false := by
          rw [← htused i hix]
          exact hfree
        have hcls := hI.freeInBin i hi hfs
        rw [hszt i hix]
        by_cases hcb : uintToSmallFloatRoundDown ((s.m_nodes i).dataSize) = bin
        · rw [hcb, hB2def, upd_same]
          rw [hcb, hdec] at hcls
          rcases List.mem_cons.mp hcls with hc | hc
          · exact absurd hc hix
          · exact hc
        · rw [hB2def, upd_ne hcb]
          exact hcls
      · -- unusedOut
        intro i hi hni
        rw [hp4] at hi
        have hix : i ≠ x := by
          intro hc
          subst hc
          exact hni hxL
        rw [htused i hix]
        exact hI.unusedOut i hi hni
      · -- storage
        rw [hp8]
        have hfree_filter :
            L.filter (fun i => decide ((t.m_nodes i).used = false)) =
              (L1.filter (fun i => decide ((s.m_nodes i).used = false))) ++
                (L2.filter (fun i => decide ((s.m_nodes i).used = false))) := by
          rw [hLdec, List.filter_append, List.filter_cons]
          rw [if_neg (by simp [husedtx])]
          congr 1
          · refine List.filter_congr ?_
            intro i hi
            have hix : i ≠ x := fun hc => hxL1 (hc ▸ hi)
            rw [htused i hix]
          · refine List.filter_congr ?_
            intro i hi
            have hix : i ≠ x := fun hc => hxL2 (hc ▸ hi)
            rw [htused i hix]
        rw [hfree_filter, sumList_append]
        have hsz1 : sumList (szF t) (L1.filter (fun i => decide ((s.m_nodes i).used = false)))
            = sumList (szF s) (L1.filter (fun i => decide ((s.m_nodes i).used = false))) := by
          refine sumList_congr ?_
          intro i hi
          have hiL1 : i ∈ L1 := List.mem_of_mem_filter hi
          have hix : i ≠ x := fun hc => hxL1 (hc ▸ hiL1)
          simp only [szF]
          rw [hszt i hix]
        have hsz2 : sumList (szF t) (L2.filter (fun i => decide ((s.m_nodes i).used = false)))
            = sumList (szF s) (L2.filter (fun i => decide ((s.m_nodes i).used = false))) := by
          refine sumList_congr ?_
          intro i hi
          have hiL2 : i ∈ L2 := List.mem_of_mem_filter hi
          have hix : i ≠ x := fun hc => hxL2 (hc ▸ hiL2)
          simp only [szF]
          rw [hszt i hix]
        rw [hsz1, hsz2]
        rw [sub32_eq (by simp only [szF] at hstor; omega)
          (by have := hI.sizeLt; omega)]
        simp only [szF] at hstor ⊢
        omega
    · -- the alloc record
      rw [hofftx]
    · -- the used count increases by one
      rw [hLdec, List.filter_append, List.filter_append, List.filter_cons,
        List.filter_cons]
      rw [if_pos (by simp [husedtx]), if_neg (by simp [hxfree])]
      have e1 : L1.filter (fun i => (t.m_nodes i).used) =
          L1.filter (fun i => (s.m_nodes i).used) := by
        refine List.filter_congr ?_
        intro i hi
        have hix : i ≠ x := fun hc => hxL1 (hc ▸ hi)
        rw [htused i hix]
      have e2 : L2.filter (fun i => (t.m_nodes i).used) =
          L2.filter (fun i => (s.m_nodes i).used) := by
        refine List.filter_congr ?_
        intro i hi
        have hix : i ≠ x := fun hc => hxL2 (hc ▸ hi)
        rw [htused i hix]
      rw [e1, e2]
      simp only [List.length_append, List.length_cons]
      omega
  · -- proper split: the remainder goes back into a lower bin as a fresh node
    have hrem : sub32 ((s.m_nodes x).dataSize) n = (s.m_nodes x).dataSize - n :=
      sub32_eq (le_of_lt hlt) hszx32
    have hrsz0 : 0 < sub32 ((s.m_nodes x).dataSize) n := by omega
    have hrsz32 : sub32 ((s.m_nodes x).dataSize) n < U32 := by omega
    have hszL : ∀ i ∈ L, (s.m_nodes i).dataSize < U32 := by
      intro i hi
      have h1 : (szF s) i ≤ sumList (szF s) L := le_sumList_of_mem hi
      rw [hI.chain.total] at h1
      have := hI.sizeLt
      simp only [szF] at h1
      omega
    -- the fresh handle popped from the free stack
    set J := s.m_freeNodes s.m_freeOffset with hJdef
    have hoffeq : s.m_freeOffset = s.m_maxAllocs - L.length := by
      rw [hI.stack.off, sub32_eq hlen hmaxU]
    have hJprops : J ≤ s.m_maxAllocs ∧ J ∉ L := by
      have h0 := hI.stack.mem (s.m_maxAllocs - L.length) (by omega)
      rw [← hoffeq] at h0
      exact h0
    have hJL : J ∉ L := hJprops.2
    have hJmax : J ≤ s.m_maxAllocs := hJprops.1
    have hxJ : x ≠ J := fun hc => hJL (hc ▸ hxL)
    have hJx : J ≠ x := fun hc => hxJ hc.symm
    have hB2sub : ∀ b, b < NUM_LEAF_BINS → ∀ i ∈ B2 b, i ∈ B b ∧ i ≠ x := by
      intro b hb i hi
      by_cases hbb : b = bin
      · subst hbb
        rw [hB2def, upd_same] at hi
        refine ⟨by rw [hdec]; exact List.mem_cons_of_mem _ hi, ?_⟩
        intro hc
        subst hc
        exact hxQ hi
      · rw [hB2def, upd_ne hbb] at hi
        refine ⟨hi, ?_⟩
        intro hc
        subst hc
        have h1 := (hI.bins.memCls b hb _ hi).1
        have h2 := hxcls.1
        omega
    have hjB2 : ∀ b, b < NUM_LEAF_BINS → t.m_freeNodes t.m_freeOffset ∉ B2 b := by
      intro b hb hc
      rw [hp6, hp7, ← hJdef] at hc
      exact hJL (hI.binsSub b hb J (hB2sub b hb J hc).1)
    have hElem2 : ∀ b, b < NUM_LEAF_BINS → ∀ i ∈ B2 b, i ≠ UNUSED :=
      fun b hb i hi => hElem b hb i (hB2sub b hb i hi).1
    have hbin2lt : uintToSmallFloatRoundDown (sub32 ((s.m_nodes x).dataSize) n) <
        NUM_LEAF_BINS := by
      have := roundDown_le_239 hrsz32
      simp only [NUM_LEAF_BINS]
      omega
    have hins := @insertNodeIntoBin_spec t B2 hp12
      (sub32 ((s.m_nodes x).dataSize) n)
      (add32 ((t.m_nodes x).dataOffset) n) hbin2lt hjB2 hElem2
    rw [hp6, hp7, ← hJdef] at hins
    obtain ⟨hi1, hi2, hi3, hi4, hi5, hi6, hi7, hi8, hi9, hi10, hi11, hi12⟩ := hins
    set u := (insertNodeIntoBin t (sub32 ((s.m_nodes x).dataSize) n)
      (add32 ((t.m_nodes x).dataOffset) n)).1 with hu
    clear_value u
    set bin2 := uintToSmallFloatRoundDown (sub32 ((s.m_nodes x).dataSize) n) with hbin2def
    clear_value bin2
    have hxB2bin2 : x ∉ B2 bin2 := fun hc => (hB2sub bin2 hbin2lt x hc).2 rfl
    have hufullx : u.m_nodes x = { s.m_nodes x with dataSize := n, used := true } := by
      rw [hi10 x hxJ hxB2bin2, hp9]
    have hunx : (u.m_nodes x).neighborNext = (s.m_nodes x).neighborNext := by
      rw [hufullx]
    -- the field-level description of the final state
    have hD := splitStage_desc hrsz0 hi1 hu hufullx hi9 hxJ hJx
      (by simpa [nbrNext] using hnxlink)
      (by
        intro hne
        cases L2 with
        | nil => exact absurd rfl hne
        | cons h L2' =>
          simp only [List.headD_cons]
          have hhL : h ∈ L := by
            rw [hLdec]
            exact List.mem_append_right _ (List.mem_cons_of_mem _ (List.mem_cons_self _ _))
          refine ⟨?_, ?_, ?_⟩
          · have h1 := hI.chain.bounded h hhL
            have h2 := hI.maxLt
            simp only [UNUSED, U32] at *
            omega
          · intro hc
            apply hxL2
            rw [← hc]
            exact List.mem_cons_self _ _
          · intro hc
            apply hJL
            rw [← hc]
            exact hhL)
    obtain ⟨hd0, hd1, hd2, hd3, hd4, hd5, hd6, hd7, hd8, hd9, hdx, hdJ, hdF, hdP, hdH⟩ := hD
    set w := (splitStage t x ((s.m_nodes x).dataSize) n).1 with hwdef
    clear_value w
    -- composed scalar facts
    have hw_size : w.m_size = s.m_size := by rw [hd1, hi2, hp3]
    have hw_max : w.m_maxAllocs = s.m_maxAllocs := by rw [hd2, hi3, hp4]
    have hw_has : w.hasNodes = s.hasNodes := by rw [hd3, hi4, hp5]
    have hw_fn : w.m_freeNodes = s.m_freeNodes := by rw [hd4, hi5]
    have hw_fo : w.m_freeOffset = sub32 s.m_freeOffset 1 := by rw [hd5, hi6]
    have hw_fs : w.m_freeStorage =
        add32 (sub32 s.m_freeStorage ((s.m_nodes x).dataSize))
          (sub32 ((s.m_nodes x).dataSize) n) := by
      rw [hd6, hi7, hp8]
    -- composed node frames down to `s`
    have hSfr : ∀ i, i ≠ x → i ≠ J →
        (w.m_nodes i).dataOffset = (s.m_nodes i).dataOffset ∧
        (w.m_nodes i).dataSize = (s.m_nodes i).dataSize ∧
        (w.m_nodes i).used = (s.m_nodes i).used ∧
        (w.m_nodes i).neighborNext = (s.m_nodes i).neighborNext := by
      intro i hix hiJ
      obtain ⟨f1, f2, f3, f4, f5, f6⟩ := hdF i hix hiJ
      have hu' := hi11 i hiJ
      have hp' := hp11 i hix
      exact ⟨by rw [f3, hu'.1, hp'.1], by rw [f4, hu'.2.1, hp'.2.1],
        by rw [f5, hu'.2.2.1, hp'.2.2.1], by rw [f6, hu'.2.2.2.2, hp'.2.2.2.2]⟩
    have hSfrP : ∀ i, i ≠ x → i ≠ J → i ≠ L2.headD UNUSED →
        (w.m_nodes i).neighborPrev = (s.m_nodes i).neighborPrev := by
      intro i hix hiJ hih
      rw [hdP i hix hiJ hih, (hi11 i hiJ).2.2.2.1, (hp11 i hix).2.2.2.1]
    have husedw : ∀ i, i ≠ x → (w.m_nodes i).used = (s.m_nodes i).used := by
      intro i hix
      by_cases hiJ : i = J
      · subst hiJ
        rw [hI.unusedOut J hJmax hJL]
        simp [hdJ]
      · exact (hSfr i hix hiJ).2.2.1
    have haddJ : add32 ((t.m_nodes x).dataOffset) n = (s.m_nodes x).dataOffset + n := by
      have hofftx : (t.m_nodes x).dataOffset = (s.m_nodes x).dataOffset := by rw [hp9]
      rw [hofftx, add32_eq (by have := hI.sizeLt; omega)]
    -- basic list bookkeeping for the extended chain
    have hlenL' : (L1 ++ x :: J :: L2).length = L.length + 1 := by
      rw [hLdec]
      simp only [List.length_append, List.length_cons]
      omega
    have hJnotin : J ∉ L1 ++ x :: L2 := by
      rw [← hLdec]
      exact hJL
    have hmemL' : ∀ i, i ∈ L1 ++ x :: J :: L2 ↔ i ∈ L ∨ i = J := by
      intro i
      rw [hLdec]
      simp only [List.mem_append, List.mem_cons]
      tauto
    have hdisj : ∀ a ∈ L1, a ∉ L2 := by
      intro a ha hc
      rcases List.nodup_append.mp hndL12 with ⟨_, _, hdj⟩
      exact hdj ha hc
    have hL1head : ∀ i ∈ L1, i ≠ L2.headD UNUSED := by
      intro i hi
      cases L2 with
      | nil =>
        simp only [List.headD_nil]
        have h1 : i ≤ s.m_maxAllocs := hI.chain.bounded i (by rw [hLdec]; exact List.mem_append_left _ hi)
        have := hI.maxLt
        simp only [UNUSED, U32] at *
        omega
      | cons h L2' =>
        simp only [List.headD_cons]
        intro hc
        exact hdisj i hi (hc ▸ List.mem_cons_self _ _)
    have hL2head : ∀ i ∈ L2, i ≠ x ∧ i ≠ J := by
      intro i hi
      constructor
      · intro hc
        subst hc
        exact hxL2 hi
      · intro hc
        subst hc
        exact hJL (by rw [hLdec]; exact List.mem_append_right _ (List.mem_cons_of_mem _ hi))
    have hheadused : ∀ h L2', L2 = h :: L2' → (s.m_nodes h).used = true := by
      intro h L2' hE
      have hco := hI.chain.coalesced
      rw [hLdec, hE] at hco
      unfold noAdjFree at hco
      rw [List.chain'_append] at hco
      have h2 := hco.2.1
      rw [List.chain'_cons] at h2
      rcases h2.1 with hc | hc
      · simp only [usedF] at hc
        rw [hxfree] at hc
        cases hc
      · simpa only [usedF] using hc
    refine ⟨L1 ++ x :: J :: L2, upd B2 bin2 (J :: B2 bin2), x, ?_, hd0, hxL, hxmax,
      hxfree, by simp [hdx], by simp [hdx], by rw [hw_has]; exact hI.hasN, hw_size,
      hw_max, husedw, by rw [hlenL'], ?_⟩
    · -- the invariant for the extended chain
      refine ⟨by rw [hw_has]; exact hI.hasN, by rw [hw_size]; exact hI.sizeLt,
        by rw [hw_max]; exact hI.maxLt, ?_, ?_, ?_, ?_, ?_, ?_, ?_⟩
      · -- ChainWF
        refine ⟨?_, ?_, ?_, ?_, ?_, ?_⟩
        · -- links
          rw [chainSeg_append]
          constructor
          · simp only [List.headD_cons]
            refine chainSeg_congr L1 UNUSED x ?_ hlinkL1
            intro i hi
            have hix : i ≠ x := fun hc => hxL1 (hc ▸ hi)
            have hiJ : i ≠ J := fun hc => hJnotin (hc ▸ List.mem_append_left _ hi)
            constructor
            · simp only [nbrNext]
              rw [(hSfr i hix hiJ).2.2.2]
            · simp only [nbrPrev]
              rw [hSfrP i hix hiJ (hL1head i hi)]
          · rw [chainSeg_cons]
            refine ⟨?_, ?_, ?_⟩
            · simp only [nbrPrev]
              simp only [nbrPrev] at hpxlink
              simp only [hdx]
              exact hpxlink
            · simp only [nbrNext, List.headD_cons]
              simp [hdx]
            · rw [chainSeg_cons]
              refine ⟨?_, ?_, ?_⟩
              · simp only [nbrPrev]
                simp [hdJ]
              · simp only [nbrNext]
                simp only [nbrNext] at hnxlink
                simp only [hdJ]
                exact hnxlink
              · cases L2 with
                | nil => trivial
                | cons h L2' =>
                  have hhL := List.mem_cons_self h L2'
                  obtain ⟨hhx, hhJ⟩ := hL2head h hhL
                  rw [chainSeg_cons]
                  rw [chainSeg_cons] at hlinkL2
                  obtain ⟨_, hnexth, hrest⟩ := hlinkL2
                  refine ⟨?_, ?_, ?_⟩
                  · simp only [nbrPrev]
                    exact hdH (by intro hc; cases hc)
                  · simp only [nbrNext]
                    rw [(hSfr h hhx hhJ).2.2.2]
                    simpa only [nbrNext] using hnexth
                  · refine chainSeg_congr L2' h UNUSED ?_ hrest
                    intro j hj
                    have hjL2 := List.mem_cons_of_mem h hj
                    obtain ⟨hjx, hjJ⟩ := hL2head j hjL2
                    have hndL2 : (h :: L2').Nodup := by
                      rcases List.nodup_append.mp hndL12 with ⟨_, hnd2, _⟩
                      exact hnd2
                    have hjh : j ≠ h := by
                      intro hc
                      subst hc
                      exact (List.nodup_cons.mp hndL2).1 hj
                    constructor
                    · simp only [nbrNext]
                      rw [(hSfr j hjx hjJ).2.2.2]
                    · simp only [nbrPrev]
                      rw [hSfrP j hjx hjJ (by simpa only [List.headD_cons] using hjh)]
        · -- spans
          rw [spansFrom_append]
          have hsum1 : sumList (szF w) L1 = sumList (szF s) L1 := by
            refine sumList_congr ?_
            intro i hi
            have hix : i ≠ x := fun hc => hxL1 (hc ▸ hi)
            have hiJ : i ≠ J := fun hc => hJnotin (hc ▸ List.mem_append_left _ hi)
            simp only [szF]
            rw [(hSfr i hix hiJ).2.1]
          constructor
          · refine spansFrom_congr L1 0 ?_ hspL1
            intro i hi
            have hix : i ≠ x := fun hc => hxL1 (hc ▸ hi)
            have hiJ : i ≠ J := fun hc => hJnotin (hc ▸ List.mem_append_left _ hi)
            exact ⟨by simp only [offF]; rw [(hSfr i hix hiJ).1],
              by simp only [szF]; rw [(hSfr i hix hiJ).2.1]⟩
          · refine ⟨?_, ?_, ?_⟩
            · simp only [offF]
              rw [hsum1]
              simp only [offF] at hoffx
              simp only [hdx]
              omega
            · simp only [offF]
              simp only [hdJ, haddJ]
              have hszwx : szF w x = n := by
                simp only [szF]
                simp only [hdx]
              rw [hszwx, hsum1]
              simp only [offF] at hoffx
              omega
            · have hszwJ : szF w J = (s.m_nodes x).dataSize - n := by
                simp only [szF]
                simp [hdJ, hrem]
              have hszwx : szF w x = n := by
                simp only [szF]
                simp [hdx]
              have harith : 0 + sumList (szF w) L1 + szF w x + szF w J =
                  0 + sumList (szF s) L1 + szF s x := by
                rw [hsum1, hszwJ, hszwx]
                simp only [szF]
                omega
              rw [harith]
              refine spansFrom_congr L2 _ ?_ hspL2
              intro i hi
              obtain ⟨hix, hiJ⟩ := hL2head i hi
              exact ⟨by simp only [offF]; rw [(hSfr i hix hiJ).1],
                by simp only [szF]; rw [(hSfr i hix hiJ).2.1]⟩
        · -- total
          rw [sumList_append, sumList_cons, sumList_cons, hw_size]
          have hsum1 : sumList (szF w) L1 = sumList (szF s) L1 := by
            refine sumList_congr ?_
            intro i hi
            have hix : i ≠ x := fun hc => hxL1 (hc ▸ hi)
            have hiJ : i ≠ J := fun hc => hJnotin (hc ▸ List.mem_append_left _ hi)
            simp only [szF]
            rw [(hSfr i hix hiJ).2.1]
          have hsum2 : sumList (szF w) L2 = sumList (szF s) L2 := by
            refine sumList_congr ?_
            intro i hi
            obtain ⟨hix, hiJ⟩ := hL2head i hi
            simp only [szF]
            rw [(hSfr i hix hiJ).2.1]
          have hszwJ : szF w J = (s.m_nodes x).dataSize - n := by
            simp only [szF]
            simp [hdJ, hrem]
          have hszwx : szF w x = n := by
            simp only [szF]
            simp [hdx]
          rw [hsum1, hsum2, hszwJ, hszwx]
          simp only [szF] at htot
          omega
        · -- nodup
          exact nodup_insert_middle hnd hJnotin
        · -- bounded
          intro i hi
          rw [hw_max]
          rcases (hmemL' i).mp hi with hiL | hiJ
          · exact hI.chain.bounded i hiL
          · subst hiJ
            exact hJmax
        · -- coalesced
          have hcoal0 : noAdjFree (usedF w) (L1 ++ x :: L2) := by
            refine noAdjFree_mono ?_ (by rw [← hLdec]; exact hI.chain.coalesced)
            intro i hi hui
            by_cases hix : i = x
            · subst hix
              simp only [usedF]
              simp [hdx]
            · simp only [usedF] at *
              rw [husedw i hix]
              exact hui
          refine noAdjFree_insert hcoal0 (Or.inl (by simp only [usedF]; simp [hdx])) ?_
          intro y hy
          cases L2 with
          | nil => cases hy
          | cons h L2' =>
            have hyh : y = h := by
              have := hy
              simp only [List.head?_cons, Option.mem_def, Option.some.injEq] at this
              omega
            right
            obtain ⟨hhx, _⟩ := hL2head h (List.mem_cons_self _ _)
            simp only [usedF]
            rw [hyh, husedw h hhx]
            exact hheadused h L2' rfl
      · -- BinsWF
        refine BinsWF_congr hd7 hd8 hd9 ?_ hi12
        intro i
        by_cases hix : i = x
        · subst hix
          refine ⟨?_, ?_, ?_, ?_⟩ <;> simp [hdx, hufullx]
        · by_cases hiJ : i = J
          · subst hiJ
            refine ⟨?_, ?_, ?_, ?_⟩ <;> simp [hdJ, hi9]
          · obtain ⟨f1, f2, f3, f4, f5, f6⟩ := hdF i hix hiJ
            exact ⟨f1, f2, f4, f5⟩
      · -- StackWF
        refine ⟨?_, ?_, ?_, ?_⟩
        · rw [hw_max, hlenL']
          omega
        · rw [hw_fo, hI.stack.off, hw_max, hlenL']
          exact sub32_sub32_one hlen hmaxU
        · intro k hk
          rw [hw_max, hlenL'] at hk
          rw [hw_fn, hw_max]
          have hmem := hI.stack.mem k (by omega)
          refine ⟨hmem.1, ?_⟩
          intro hc
          rcases (hmemL' _).mp hc with hc1 | hc1
          · exact hmem.2 hc1
          · have hne := hI.stack.dist k (s.m_maxAllocs - L.length) (by omega) (by omega)
            exact hne (by rw [hc1, hJdef, hoffeq])
        · intro k1 k2 h12 hk2
          rw [hw_max, hlenL'] at hk2
          rw [hw_fn]
          exact hI.stack.dist k1 k2 h12 (by omega)
      · -- binsSub
        intro b hb i hi
        by_cases hbb : b = bin2
        · subst hbb
          rw [upd_same] at hi
          rcases List.mem_cons.mp hi with hiJ | hi2
          · subst hiJ
            exact (hmemL' _).mpr (Or.inr rfl)
          · exact (hmemL' _).mpr (Or.inl (hI.binsSub _ hb _ (hB2sub _ hb _ hi2).1))
        · rw [upd_ne hbb] at hi
          exact (hmemL' _).mpr (Or.inl (hI.binsSub _ hb _ (hB2sub _ hb _ hi).1))
      · -- freeInBin
        intro i hi hfree
        rcases (hmemL' i).mp hi with hiL | hiJ
        · by_cases hix : i = x
          · have hwx : (w.m_nodes x).used = true := by simp [hdx]
            rw [hix, hwx] at hfree
            simp at hfree
          · have hiJ : i ≠ J := fun hc => hJL (hc ▸ hiL)
            have hfs : (s.m_nodes i).used = false := by
              rw [← husedw i hix]
              exact hfree
            have hmem0 := hI.freeInBin i hiL hfs
            rw [(hSfr i hix hiJ).2.1]
            have hiB2 : i ∈ B2 (uintToSmallFloatRoundDown ((s.m_nodes i).dataSize)) := by
              by_cases hcb : uintToSmallFloatRoundDown ((s.m_nodes i).dataSize) = bin
              · rw [hB2def, hcb, upd_same]
                rw [hcb, hdec] at hmem0
                rcases List.mem_cons.mp hmem0 with hc | hc
                · exact absurd hc hix
                · exact hc
              · rw [hB2def, upd_ne hcb]
                exact hmem0
            by_cases hcb2 : uintToSmallFloatRoundDown ((s.m_nodes i).dataSize) = bin2
            · rw [hcb2, upd_same]
              rw [hcb2] at hiB2
              exact List.mem_cons_of_mem _ hiB2
            · rw [upd_ne hcb2]
              exact hiB2
        · have hwJ : (w.m_nodes J).dataSize = sub32 ((s.m_nodes x).dataSize) n := by
            simp [hdJ]
          rw [hiJ, hwJ, ← hbin2def, upd_same]
          exact List.mem_cons_self _ _
      · -- unusedOut
        intro i hi hni
        rw [hw_max] at hi
        have hix : i ≠ x := fun hc => hni ((hmemL' i).mpr (Or.inl (hc ▸ hxL)))
        have hiJ : i ≠ J := fun hc => hni ((hmemL' i).mpr (Or.inr hc))
        have hiL : i ∉ L := fun hc => hni ((hmemL' i).mpr (Or.inl hc))
        rw [husedw i hix]
        exact hI.unusedOut i hi hiL
      · -- storage
        rw [hw_fs]
        simp only [szF] at hstor
        have hszxle : (s.m_nodes x).dataSize ≤ s.m_freeStorage := by omega
        have hfsU : s.m_freeStorage < U32 := by
          have := hI.sizeLt
          omega
        rw [sub32_eq hszxle hfsU, hrem, add32_eq (by omega)]
        rw [List.filter_append, List.filter_cons, List.filter_cons]
        rw [if_neg (by simp [hdx]), if_pos (by simp [hdJ])]
        have e1 : L1.filter (fun i => decide ((w.m_nodes i).used = false)) =
            L1.filter (fun i => decide ((s.m_nodes i).used = false)) := by
          refine List.filter_congr ?_
          intro i hi
          have hix : i ≠ x := fun hc => hxL1 (hc ▸ hi)
          rw [husedw i hix]
        have e2 : L2.filter (fun i => decide ((w.m_nodes i).used = false)) =
            L2.filter (fun i => decide ((s.m_nodes i).used = false)) := by
          refine List.filter_congr ?_
          intro i hi
          rw [husedw i (hL2head i hi).1]
        rw [e1, e2, sumList_append, sumList_cons]
        have hszwJ : szF w J = (s.m_nodes x).dataSize - n := by
          simp only [szF]
          simp [hdJ, hrem]
        have hs1 : sumList (szF w)
            (L1.filter (fun i => decide ((s.m_nodes i).used = false))) =
            sumList (szF s)
            (L1.filter (fun i => decide ((s.m_nodes i).used = false))) := by
          refine sumList_congr ?_
          intro i hi
          have hiL1 : i ∈ L1 := List.mem_of_mem_filter hi
          have hix : i ≠ x := fun hc => hxL1 (hc ▸ hiL1)
          have hiJ : i ≠ J := fun hc => hJnotin (hc ▸ List.mem_append_left _ hiL1)
          simp only [szF]
          rw [(hSfr i hix hiJ).2.1]
        have hs2 : sumList (szF w)
            (L2.filter (fun i => decide ((s.m_nodes i).used = false))) =
            sumList (szF s)
            (L2.filter (fun i => decide ((s.m_nodes i).used = false))) := by
          refine sumList_congr ?_
          intro i hi
          have hiL2 : i ∈ L2 := List.mem_of_mem_filter hi
          obtain ⟨hix, hiJ⟩ := hL2head i hiL2
          simp only [szF]
          rw [(hSfr i hix hiJ).2.1]
        rw [hszwJ, hs1, hs2]
        omega
    · -- the used count increases by one
      rw [List.filter_append, List.filter_cons, List.filter_cons]
      rw [if_pos (by simp [hdx]), if_neg (by simp [hdJ])]
      rw [hLdec, List.filter_append, List.filter_cons, if_neg (by simp [hxfree])]
      have e1 : L1.filter (fun i => (w.m_nodes i).used) =
          L1.filter (fun i => (s.m_nodes i).used) := by
        refine List.filter_congr ?_
        intro i hi
        have hix : i ≠ x := fun hc => hxL1 (hc ▸ hi)
        rw [husedw i hix]
      have e2 : L2.filter (fun i => (w.m_nodes i).used) =
          L2.filter (fun i => (s.m_nodes i).used) := by
        refine List.filter_congr ?_
        intro i hi
        rw [husedw i (hL2head i hi).1]
      rw [e1, e2]
      simp only [List.length_append, List.length_cons]
      omega

/-- The top-level specification of `allocate` on an invariant-satisfying
    state: it either fails returning the sentinel and leaving the state
    untouched, or succeeds, marking one previously-free node used with the
    exact requested size and preserving the invariant. -/
theorem allocate_spec {s : AllocState} {L : List Nat} {B : Nat → List Nat}
    (hI : InvW s L B) {n : Nat} (hn : n < U32) :
    allocate s n = (s, ({} : Alloc)) ∨
    ∃ L' B' x,
      InvW (allocate s n).1 L' B' ∧
      (allocate s n).2 = { offset := (s.m_nodes x).dataOffset, metadata := x } ∧
      x ∈ L ∧ x ≤ s.m_maxAllocs ∧ (s.m_nodes x).used = false ∧
      ((allocate s n).1.m_nodes x).dataSize = n ∧
      ((allocate s n).1.m_nodes x).used = true ∧
      (allocate s n).1.hasNodes = true ∧
      (allocate s n).1.m_size = s.m_size ∧
      (allocate s n).1.m_maxAllocs = s.m_maxAllocs ∧
      (∀ i, i ≠ x → ((allocate s n).1.m_nodes i).used = (s.m_nodes i).used) ∧
      L'.length ≤ L.length + 1 ∧
      ((L'.filter (fun i => ((allocate s n).1.m_nodes i).used)).length =
        (L.filter (fun i => (s.m_nodes i).used)).length + 1) := by
  by_cases hoff : s.m_freeOffset = NO_SPACE
  · exact Or.inl (allocate_noSpace hoff)
  · have hlen : L.length ≤ s.m_maxAllocs := by
      have h1 := hI.stack.count
      have h2 := hI.stack.off
      by_cases hc : L.length = s.m_maxAllocs + 1
      · exfalso
        apply hoff
        rw [h2, hc]
        rw [sub32_eq_NO_SPACE_iff (by omega) hI.maxLt]
      · omega
    rcases allocate_search hI.bins hn hoff with ⟨hfail, _⟩ | ⟨tb, lb, heq, htb, hlb, hge, hlt256, hne⟩
    · exact Or.inl hfail
    · right
      rw [heq]
      exact allocAt_spec hI htb hlb hne hge hlt256 hn hlen

/-- When every live node is used (no free node at all), `allocate` fails. -/
theorem allocate_fail_all_used {s : AllocState} {L : List Nat} {B : Nat → List Nat}
    (hI : InvW s L B) {n : Nat} (hn : n < U32)
    (hall : ∀ i ∈ L, (s.m_nodes i).used = true) :
    allocate s n = (s, ({} : Alloc)) := by
  by_cases hoff : s.m_freeOffset = NO_SPACE
  · exact allocate_noSpace hoff
  · rcases allocate_search hI.bins hn hoff with ⟨hfail, _⟩ | ⟨tb, lb, _, _, _, _, hlt256, hne⟩
    · exact hfail
    · exfalso
      obtain ⟨x, Q, hdec⟩ := List.exists_cons_of_ne_nil hne
      have hxB : x ∈ B ((tb <<< TOP_BINS_INDEX_SHIFT) ||| lb) := by
        rw [hdec]
        exact List.mem_cons_self _ _
      have hfree := (hI.bins.memCls _ hlt256 x hxB).2
      have hused := hall x (hI.binsSub _ hlt256 x hxB)
      rw [hused] at hfree
      cases hfree

/-! ## `free`, decomposed into its three stages -/

theorem free_eq_stages (s : AllocState) (nodeIndex : Nat) :
    free s nodeIndex =
      if nodeIndex = NO_SPACE ∨ s.hasNodes = false then s
      else finishFree
        (mergeNext (mergePrev s nodeIndex).1 nodeIndex (mergePrev s nodeIndex).2.2).1
        nodeIndex
        (mergePrev s nodeIndex).2.1
        (mergeNext (mergePrev s nodeIndex).1 nodeIndex (mergePrev s nodeIndex).2.2).2 := rfl

/-! ## `free`: stage specifications and invariant preservation -/


theorem getLastD_snoc : ∀ (l : List Nat) (a d : Nat), (l ++ [a]).getLastD d = a := by
  intro l
  induction l with
  | nil => intro a d; rfl
  | cons b t ih =>
    intro a d
    rw [List.cons_append, List.getLastD_cons, ih]

theorem chain'_snoc_rel {R : Nat → Nat → Prop} :
    ∀ (l : List Nat) (a d : Nat), List.Chain' R (l ++ [a]) → l ≠ [] →
      R (l.getLastD d) a := by
  intro l
  induction l with
  | nil => intro a d _ hne; exact absurd rfl hne
  | cons b t ih =>
    intro a d h hne
    rw [List.getLastD_cons]
    cases t with
    | nil =>
      simp only [List.getLastD_nil]
      exact (List.chain'_cons.mp h).1
    | cons c t' =>
      refine ih a b ?_ (by intro hc; cases hc)
      exact (List.chain'_cons.mp h).2

theorem slot_top_eq {m l : Nat} (hl1 : 1 ≤ l) (hl2 : l ≤ m + 1) (hm : m ≤ U32 - 2) :
    add32 (sub32 m l) 1 = m + 1 - l := by
  simp only [add32, sub32, U32] at *
  omega

theorem sub32_add32_one {a : Nat} (ha : a < U32) : sub32 (add32 a 1) 1 = a := by
  have h : a < 4294967296 := by simpa only [U32] using ha
  simp only [add32, sub32, U32]
  omega

set_option maxHeartbeats 1000000 in
/-- Stage one of `free`: if the previous spatial neighbor of the freed node
    `y` is free, it is removed from its bin and absorbed; the combined offset
    and size are returned alongside.  Uniform description via the absorbed
    prefix `R1` (length 0 or 1) of the address-ordered live chain. -/
theorem mergePrev_spec {s : AllocState} {L : List Nat} {B : Nat → List Nat}
    (hI : InvW s L B) {y : Nat} {L1 L2 : List Nat}
    (hLdec : L = L1 ++ y :: L2) (hyused : (s.m_nodes y).used = true) :
    ∃ L1p R1 B1,
      L1 = L1p ++ R1 ∧ R1.length ≤ 1 ∧
      (∀ r ∈ R1, (s.m_nodes r).used = false) ∧
      (L1p ≠ [] → (s.m_nodes (L1p.getLastD UNUSED)).used = true) ∧
      (mergePrev s y).2.1 = sumList (szF s) L1p ∧
      (mergePrev s y).2.2 = (s.m_nodes y).dataSize + sumList (szF s) R1 ∧
      (mergePrev s y).1.m_size = s.m_size ∧
      (mergePrev s y).1.m_maxAllocs = s.m_maxAllocs ∧
      (mergePrev s y).1.hasNodes = s.hasNodes ∧
      (mergePrev s y).1.m_freeStorage = s.m_freeStorage - sumList (szF s) R1 ∧
      (mergePrev s y).1.m_freeOffset = sub32 s.m_maxAllocs (L.length - R1.length) ∧
      (∀ k, k < s.m_maxAllocs + 1 - (L.length - R1.length) →
        (mergePrev s y).1.m_freeNodes k ≤ s.m_maxAllocs ∧
        (mergePrev s y).1.m_freeNodes k ∉ L1p ++ y :: L2) ∧
      (∀ k1 k2, k1 < k2 → k2 < s.m_maxAllocs + 1 - (L.length - R1.length) →
        (mergePrev s y).1.m_freeNodes k1 ≠ (mergePrev s y).1.m_freeNodes k2) ∧
      (mergePrev s y).1.m_nodes y =
        { s.m_nodes y with neighborPrev := L1p.getLastD UNUSED } ∧
      (∀ i, i ≠ y →
        ((mergePrev s y).1.m_nodes i).dataOffset = (s.m_nodes i).dataOffset ∧
        ((mergePrev s y).1.m_nodes i).dataSize = (s.m_nodes i).dataSize ∧
        ((mergePrev s y).1.m_nodes i).used = (s.m_nodes i).used ∧
        ((mergePrev s y).1.m_nodes i).neighborPrev = (s.m_nodes i).neighborPrev ∧
        ((mergePrev s y).1.m_nodes i).neighborNext = (s.m_nodes i).neighborNext) ∧
      BinsWF (mergePrev s y).1 B1 ∧
      (∀ b, b < NUM_LEAF_BINS → ∀ i, (i ∈ B1 b ↔ i ∈ B b ∧ i ∉ R1)) := by
  have hmaxU : s.m_maxAllocs < U32 := by
    have h := hI.maxLt
    simp only [U32] at h ⊢
    omega
  have hszlt := hI.sizeLt
  have hyL : y ∈ L := by
    rw [hLdec]
    exact List.mem_append_right _ (List.mem_cons_self _ _)
  have hlen1 : 1 ≤ L.length := by
    rw [hLdec]
    simp only [List.length_append, List.length_cons]
    omega
  have hlenle : L.length ≤ s.m_maxAllocs + 1 := hI.stack.count
  have hoffeq : s.m_freeOffset = sub32 s.m_maxAllocs L.length := hI.stack.off
  have hnd := hI.chain.nodup
  rw [hLdec] at hnd
  have hlinks := hI.chain.links
  rw [hLdec, chainSeg_append, chainSeg_cons] at hlinks
  obtain ⟨hlinkL1, hpy, hny, hlinkL2⟩ := hlinks
  simp only [List.headD_cons] at hlinkL1
  have hspans := hI.chain.spans
  rw [hLdec, spansFrom_append] at hspans
  obtain ⟨hspL1, hoffy, hspL2⟩ := hspans
  rcases List.eq_nil_or_concat L1 with h1nil | ⟨L1', p, hcat⟩
  · -- no previous neighbor at all: `neighborPrev == UNUSED`, stage is a no-op
    subst h1nil
    have hpU : (s.m_nodes y).neighborPrev = UNUSED := by
      simpa [nbrPrev] using hpy
    have hred : mergePrev s y = (s, (s.m_nodes y).dataOffset, (s.m_nodes y).dataSize) := by
      simp only [mergePrev]
      rw [if_neg (by rw [hpU]; simp)]
    refine ⟨[], [], B, rfl, by simp, by simp, by simp, ?_, ?_, ?_, ?_, ?_, ?_, ?_,
      ?_, ?_, ?_, ?_, ?_, ?_⟩
    · rw [hred]
      simp only [sumList_nil]
      simpa only [offF, List.nil_append, sumList_nil, Nat.zero_add] using hoffy
    · rw [hred]
      simp
    · rw [hred]
    · rw [hred]
    · rw [hred]
    · rw [hred]
      simp
    · rw [hred]
      simp only [sumList_nil, List.length_nil, Nat.sub_zero]
      exact hoffeq
    · intro k hk
      rw [hred]
      simp only [List.length_nil, Nat.sub_zero] at hk
      have h := hI.stack.mem k (by omega)
      rw [hLdec] at h
      simpa using h
    · intro k1 k2 h12 hk2
      rw [hred]
      simp only [List.length_nil, Nat.sub_zero] at hk2
      exact hI.stack.dist k1 k2 h12 (by omega)
    · rw [hred]
      show s.m_nodes y = _
      rw [List.getLastD_nil, ← hpU]
    · intro i _
      rw [hred]
      exact ⟨rfl, rfl, rfl, rfl, rfl⟩
    · rw [hred]
      exact hI.bins
    · intro b hb i
      simp
  · simp only [List.concat_eq_append] at hcat
    subst hcat
    have hplast : (s.m_nodes y).neighborPrev = p := by
      have h := hpy
      simp only [nbrPrev] at h
      rw [h, getLastD_snoc]
    have hpL : p ∈ L := by
      rw [hLdec]
      exact List.mem_append_left _ (List.mem_append_right _ (List.mem_singleton.mpr rfl))
    have hpmax : p ≤ s.m_maxAllocs := hI.chain.bounded p hpL
    have hpUne : p ≠ UNUSED := by
      intro hc
      have h2 := hI.maxLt
      rw [hc] at hpmax
      simp only [UNUSED] at hpmax
      simp only [U32] at h2
      omega
    have hnd' : (p :: (L1' ++ y :: L2)).Nodup := by
      rw [List.append_assoc] at hnd
      simp only [List.singleton_append] at hnd
      exact List.nodup_middle.mp hnd
    have hpnot : p ∉ L1' ++ y :: L2 := (List.nodup_cons.mp hnd').1
    have hyp : y ≠ p := by
      intro hc
      exact hpnot (by rw [← hc]; exact List.mem_append_right _ (List.mem_cons_self _ _))
    have hsn := chainSeg_snoc.mp hlinkL1
    have hppv : (s.m_nodes p).neighborPrev = L1'.getLastD UNUSED := hsn.2.1
    have hspL1' := hspL1
    rw [spansFrom_append] at hspL1'
    obtain ⟨hspL1p, hoffp, _⟩ := hspL1'
    by_cases hpfree : (s.m_nodes p).used = false
    · -- the previous neighbor is free: it is absorbed
      have hpB : p ∈ B (uintToSmallFloatRoundDown ((s.m_nodes p).dataSize)) :=
        hI.freeInBin p hpL hpfree
      have hpsz32 : (s.m_nodes p).dataSize < U32 := by
        have h1 : szF s p ≤ sumList (szF s) L := le_sumList_of_mem hpL
        rw [hI.chain.total] at h1
        simp only [szF] at h1
        omega
      have hbp256 : uintToSmallFloatRoundDown ((s.m_nodes p).dataSize) < NUM_LEAF_BINS := by
        have h := roundDown_le_239 hpsz32
        simp only [NUM_LEAF_BINS]
        omega
      have hElem : ∀ b, b < NUM_LEAF_BINS → ∀ i ∈ B b, i ≠ UNUSED := by
        intro b hb i hi hc
        have h1 := hI.chain.bounded i (hI.binsSub b hb i hi)
        have h2 := hI.maxLt
        rw [hc] at h1
        simp only [UNUSED] at h1
        simp only [U32] at h2
        omega
      obtain ⟨P, Qp, hdecp⟩ := List.append_of_mem hpB
      have hrm := removeNodeFromBin_spec hI.bins hbp256 hdecp hElem
      obtain ⟨rm1, rm2, rm3, rm4, rm5, rm6, rm7, rm8, rm9, rm10⟩ := hrm
      set sAv := removeNodeFromBin s p with hsAv
      clear_value sAv
      have hyB : y ∉ B (uintToSmallFloatRoundDown ((s.m_nodes p).dataSize)) := by
        intro hc
        have h2 := (hI.bins.memCls _ hbp256 y hc).2
        rw [hyused] at h2
        simp at h2
      have hyA : sAv.m_nodes y = s.m_nodes y := rm8 y hyB
      have hpA : sAv.m_nodes p = s.m_nodes p := rm7
      have hred : mergePrev s y =
          ({ sAv with m_nodes := upd sAv.m_nodes y
                                   ({ sAv.m_nodes y with
                                      neighborPrev := (sAv.m_nodes p).neighborPrev }) },
            (s.m_nodes p).dataOffset,
            add32 ((s.m_nodes y).dataSize) ((s.m_nodes p).dataSize)) := by
        simp only [mergePrev]
        rw [hplast, if_pos ⟨hpUne, hpfree⟩, hsAv]
      have hfin_nodes : (mergePrev s y).1.m_nodes = upd sAv.m_nodes y
          ({ sAv.m_nodes y with neighborPrev := (sAv.m_nodes p).neighborPrev }) := by
        rw [hred]
      have hfin_fn : (mergePrev s y).1.m_freeNodes = sAv.m_freeNodes := by rw [hred]
      have hfin_fo : (mergePrev s y).1.m_freeOffset = sAv.m_freeOffset := by rw [hred]
      have hfin_fs : (mergePrev s y).1.m_freeStorage = sAv.m_freeStorage := by rw [hred]
      have hfin_sz1 : (mergePrev s y).1.m_size = sAv.m_size := by rw [hred]
      have hfin_ma : (mergePrev s y).1.m_maxAllocs = sAv.m_maxAllocs := by rw [hred]
      have hfin_hn : (mergePrev s y).1.hasNodes = sAv.hasNodes := by rw [hred]
      have hfin_bi : (mergePrev s y).1.m_binIndices = sAv.m_binIndices := by rw [hred]
      have hfin_ub : (mergePrev s y).1.m_usedBins = sAv.m_usedBins := by rw [hred]
      have hfin_ut : (mergePrev s y).1.m_usedBinsTop = sAv.m_usedBinsTop := by rw [hred]
      have hfin_off : (mergePrev s y).2.1 = (s.m_nodes p).dataOffset := by rw [hred]
      have hfin_ssz : (mergePrev s y).2.2 =
          add32 ((s.m_nodes y).dataSize) ((s.m_nodes p).dataSize) := by rw [hred]
      have hsum2 : (s.m_nodes y).dataSize + (s.m_nodes p).dataSize ≤ s.m_size := by
        have h := pair_le_sumList (f := szF s) hI.chain.nodup hyL hpL hyp
        rw [hI.chain.total] at h
        simp only [szF] at h
        omega
      have hfree_p_le : (s.m_nodes p).dataSize ≤ s.m_freeStorage := by
        rw [hI.storage]
        have hmem : p ∈ L.filter (fun i => (s.m_nodes i).used = false) := by
          rw [List.mem_filter]
          exact ⟨hpL, by simp [hpfree]⟩
        have h := le_sumList_of_mem (f := szF s) hmem
        simpa only [szF] using h
      have hfsle : s.m_freeStorage ≤ s.m_size := by
        rw [hI.storage, ← hI.chain.total]
        exact sumList_filter_le
      have hslot : add32 s.m_freeOffset 1 = s.m_maxAllocs + 1 - L.length := by
        rw [hoffeq]
        exact slot_top_eq hlen1 hlenle hI.maxLt
      have hbnd := hI.bins.nodup _ hbp256
      rw [hdecp] at hbnd
      have hpPQ : p ∉ P ++ Qp := (List.nodup_cons.mp (List.nodup_middle.mp hbnd)).1
      refine ⟨L1', [p], upd B (uintToSmallFloatRoundDown ((s.m_nodes p).dataSize)) (P ++ Qp),
        rfl, by simp, ?_, ?_, ?_, ?_, ?_, ?_, ?_, ?_, ?_, ?_, ?_, ?_, ?_, ?_, ?_⟩
      · intro r hr
        simp only [List.mem_singleton] at hr
        subst hr
        exact hpfree
      · -- the node before the absorbed one is used (maximal coalescing)
        intro hne
        have hco := hI.chain.coalesced
        rw [hLdec] at hco
        have hpre : List.Chain' (fun a b => usedF s a = true ∨ usedF s b = true)
            (L1' ++ [p]) := (List.chain'_append.mp hco).1
        have hlast := chain'_snoc_rel L1' p UNUSED hpre hne
        rcases hlast with hc | hc
        · simpa only [usedF] using hc
        · simp only [usedF] at hc
          rw [hpfree] at hc
          simp at hc
      · rw [hfin_off]
        simpa only [offF, Nat.zero_add] using hoffp
      · rw [hfin_ssz, add32_eq (by omega)]
        simp [sumList_cons, sumList_nil, szF]
      · rw [hfin_sz1, rm1]
      · rw [hfin_ma, rm2]
      · rw [hfin_hn, rm3]
      · rw [hfin_fs, rm6, sub32_eq hfree_p_le (by omega)]
        simp only [sumList_cons, sumList_nil, szF, Nat.add_zero]
      · rw [hfin_fo, rm4, hoffeq, add32_sub32_one hlen1 hlenle hmaxU]
        simp only [List.length_singleton]
      · intro k hk
        simp only [List.length_singleton] at hk
        rw [hfin_fn, rm5]
        by_cases hks : k = add32 s.m_freeOffset 1
        · rw [hks, upd_same]
          exact ⟨hpmax, hpnot⟩
        · rw [upd_ne hks]
          have hkslot : k ≠ s.m_maxAllocs + 1 - L.length := by
            rw [← hslot]
            exact hks
          have hklt : k < s.m_maxAllocs + 1 - L.length := by omega
          have hmem := hI.stack.mem k hklt
          refine ⟨hmem.1, fun hc => hmem.2 ?_⟩
          rw [hLdec]
          rcases List.mem_append.mp hc with h1 | h2
          · exact List.mem_append_left _ (List.mem_append_left _ h1)
          · exact List.mem_append_right _ h2
      · intro k1 k2 h12 hk2
        simp only [List.length_singleton] at hk2
        rw [hfin_fn, rm5]
        by_cases hk2s : k2 = add32 s.m_freeOffset 1
        · rw [hk2s, upd_same]
          have hk2v : k2 = s.m_maxAllocs + 1 - L.length := by
            rw [← hslot]
            exact hk2s
          have hk1s : k1 ≠ add32 s.m_freeOffset 1 := by
            rw [hslot]
            omega
          rw [upd_ne hk1s]
          have hk1lt : k1 < s.m_maxAllocs + 1 - L.length := by omega
          have hmem := hI.stack.mem k1 hk1lt
          intro hc
          exact hmem.2 (by rw [hc]; exact hpL)
        · have hk2v : k2 ≠ s.m_maxAllocs + 1 - L.length := by
            rw [← hslot]
            exact hk2s
          have hk2lt : k2 < s.m_maxAllocs + 1 - L.length := by omega
          have hk1s : k1 ≠ add32 s.m_freeOffset 1 := by
            rw [hslot]
            omega
          rw [upd_ne hk2s, upd_ne hk1s]
          exact hI.stack.dist k1 k2 h12 hk2lt
      · rw [hfin_nodes, upd_same, hyA, hpA, hppv]
      · intro i hiy
        rw [hfin_nodes, upd_ne hiy]
        exact rm9 i
      · refine BinsWF_congr hfin_bi hfin_ub hfin_ut ?_ rm10
        intro i
        rw [hfin_nodes]
        by_cases hiy : i = y
        · subst hiy
          rw [upd_same]
          exact ⟨rfl, rfl, rfl, rfl⟩
        · rw [upd_ne hiy]
          exact ⟨rfl, rfl, rfl, rfl⟩
      · intro b hb i
        by_cases hbbp : b = uintToSmallFloatRoundDown ((s.m_nodes p).dataSize)
        · subst hbbp
          rw [upd_same]
          constructor
          · intro hi
            refine ⟨?_, ?_⟩
            · rw [hdecp]
              rcases List.mem_append.mp hi with h1 | h2
              · exact List.mem_append_left _ h1
              · exact List.mem_append_right _ (List.mem_cons_of_mem _ h2)
            · simp only [List.mem_singleton]
              intro hip
              subst hip
              exact hpPQ hi
          · rintro ⟨hi, hip⟩
            simp only [List.mem_singleton] at hip
            rw [hdecp] at hi
            rcases List.mem_append.mp hi with h1 | h2
            · exact List.mem_append_left _ h1
            · rcases List.mem_cons.mp h2 with h3 | h4
              · exact absurd h3 hip
              · exact List.mem_append_right _ h4
        · rw [upd_ne hbbp]
          constructor
          · intro hi
            refine ⟨hi, ?_⟩
            simp only [List.mem_singleton]
            intro hip
            subst hip
            exact hbbp ((hI.bins.memCls b hb i hi).1).symm
          · rintro ⟨hi, _⟩
            exact hi
    · -- the previous neighbor exists but is used: stage is a no-op
      have hpused : (s.m_nodes p).used = true := by
        simp only [Bool.not_eq_false] at hpfree
        exact hpfree
      have hred : mergePrev s y = (s, (s.m_nodes y).dataOffset, (s.m_nodes y).dataSize) := by
        simp only [mergePrev]
        rw [hplast, if_neg (by simp [hpused])]
      refine ⟨L1' ++ [p], [], B, (List.append_nil _).symm, by simp, by simp, ?_, ?_, ?_,
        ?_, ?_, ?_, ?_, ?_, ?_, ?_, ?_, ?_, ?_, ?_⟩
      · intro _
        rw [getLastD_snoc]
        exact hpused
      · rw [hred]
        show (s.m_nodes y).dataOffset = _
        simpa only [offF, Nat.zero_add] using hoffy
      · rw [hred]
        simp
      · rw [hred]
      · rw [hred]
      · rw [hred]
      · rw [hred]
        simp
      · rw [hred]
        simp only [sumList_nil, List.length_nil, Nat.sub_zero]
        exact hoffeq
      · intro k hk
        rw [hred]
        simp only [List.length_nil, Nat.sub_zero] at hk
        have h := hI.stack.mem k (by omega)
        rw [hLdec] at h
        exact h
      · intro k1 k2 h12 hk2
        rw [hred]
        simp only [List.length_nil, Nat.sub_zero] at hk2
        exact hI.stack.dist k1 k2 h12 (by omega)
      · rw [hred]
        show s.m_nodes y = _
        rw [getLastD_snoc, ← hplast]
      · intro i _
        rw [hred]
        exact ⟨rfl, rfl, rfl, rfl, rfl⟩
      · rw [hred]
        exact hI.bins
      · intro b hb i
        simp

theorem sumList_subset_le {f : Nat → Nat} {l1 l2 : List Nat} (hnd : l1.Nodup)
    (hsub : ∀ i ∈ l1, i ∈ l2) : sumList f l1 ≤ sumList f l2 := by
  obtain ⟨l3, hp, hs⟩ := List.subperm_of_subset hnd hsub
  have h1 : sumList f l3 = sumList f l1 := by
    simp only [sumList]
    exact (hp.map f).sum_eq
  rw [← h1]
  exact sumList_sublist_le hs

set_option maxHeartbeats 1000000 in
/-- Stage two of `free` applied to the output of stage one: if the next
    spatial neighbor of `y` is free, it is removed from its bin and absorbed.
    All hypotheses are stated on the original state `s` together with the
    stage-one conclusions; `R2` is the absorbed prefix (length 0 or 1) of
    `L2`. -/
theorem mergeNext_spec {s s1 : AllocState} {L : List Nat} {B B1 : Nat → List Nat}
    (hI : InvW s L B) {y : Nat} {L1p R1 L2 : List Nat} {size1 : Nat}
    (hLdec : L = (L1p ++ R1) ++ y :: L2)
    (hyused : (s.m_nodes y).used = true)
    (hsize1 : size1 = (s.m_nodes y).dataSize + sumList (szF s) R1)
    (h1y : s1.m_nodes y = { s.m_nodes y with neighborPrev := L1p.getLastD UNUSED })
    (h1F : ∀ i, i ≠ y →
      (s1.m_nodes i).dataOffset = (s.m_nodes i).dataOffset ∧
      (s1.m_nodes i).dataSize = (s.m_nodes i).dataSize ∧
      (s1.m_nodes i).used = (s.m_nodes i).used ∧
      (s1.m_nodes i).neighborPrev = (s.m_nodes i).neighborPrev ∧
      (s1.m_nodes i).neighborNext = (s.m_nodes i).neighborNext)
    (h1B : BinsWF s1 B1)
    (h1mem : ∀ b, b < NUM_LEAF_BINS → ∀ i, (i ∈ B1 b ↔ i ∈ B b ∧ i ∉ R1))
    (h1sz : s1.m_size = s.m_size) (h1ma : s1.m_maxAllocs = s.m_maxAllocs)
    (h1hn : s1.hasNodes = s.hasNodes)
    (h1fs : s1.m_freeStorage = s.m_freeStorage - sumList (szF s) R1)
    (h1fo : s1.m_freeOffset = sub32 s.m_maxAllocs (L.length - R1.length))
    (h1mm : ∀ k, k < s.m_maxAllocs + 1 - (L.length - R1.length) →
      s1.m_freeNodes k ≤ s.m_maxAllocs ∧ s1.m_freeNodes k ∉ L1p ++ y :: L2)
    (h1dd : ∀ k1 k2, k1 < k2 → k2 < s.m_maxAllocs + 1 - (L.length - R1.length) →
      s1.m_freeNodes k1 ≠ s1.m_freeNodes k2)
    (hR1free : ∀ r ∈ R1, (s.m_nodes r).used = false) :
    ∃ L2p R2 B2,
      L2 = R2 ++ L2p ∧ R2.length ≤ 1 ∧
      (∀ r ∈ R2, (s.m_nodes r).used = false) ∧
      (L2p ≠ [] → (s.m_nodes (L2p.headD UNUSED)).used = true) ∧
      (mergeNext s1 y size1).2 =
        (s.m_nodes y).dataSize + sumList (szF s) R1 + sumList (szF s) R2 ∧
      (mergeNext s1 y size1).1.m_size = s.m_size ∧
      (mergeNext s1 y size1).1.m_maxAllocs = s.m_maxAllocs ∧
      (mergeNext s1 y size1).1.hasNodes = s.hasNodes ∧
      (mergeNext s1 y size1).1.m_freeStorage =
        s.m_freeStorage - sumList (szF s) R1 - sumList (szF s) R2 ∧
      (mergeNext s1 y size1).1.m_freeOffset =
        sub32 s.m_maxAllocs (L.length - R1.length - R2.length) ∧
      (∀ k, k < s.m_maxAllocs + 1 - (L.length - R1.length - R2.length) →
        (mergeNext s1 y size1).1.m_freeNodes k ≤ s.m_maxAllocs ∧
        (mergeNext s1 y size1).1.m_freeNodes k ∉ L1p ++ y :: L2p) ∧
      (∀ k1 k2, k1 < k2 → k2 < s.m_maxAllocs + 1 - (L.length - R1.length - R2.length) →
        (mergeNext s1 y size1).1.m_freeNodes k1 ≠ (mergeNext s1 y size1).1.m_freeNodes k2) ∧
      (mergeNext s1 y size1).1.m_nodes y =
        { s.m_nodes y with neighborPrev := L1p.getLastD UNUSED,
                           neighborNext := L2p.headD UNUSED } ∧
      (∀ i, i ≠ y →
        ((mergeNext s1 y size1).1.m_nodes i).dataOffset = (s.m_nodes i).dataOffset ∧
        ((mergeNext s1 y size1).1.m_nodes i).dataSize = (s.m_nodes i).dataSize ∧
        ((mergeNext s1 y size1).1.m_nodes i).used = (s.m_nodes i).used ∧
        ((mergeNext s1 y size1).1.m_nodes i).neighborPrev = (s.m_nodes i).neighborPrev ∧
        ((mergeNext s1 y size1).1.m_nodes i).neighborNext = (s.m_nodes i).neighborNext) ∧
      BinsWF (mergeNext s1 y size1).1 B2 ∧
      (∀ b, b < NUM_LEAF_BINS → ∀ i, (i ∈ B2 b ↔ i ∈ B b ∧ i ∉ R1 ∧ i ∉ R2)) := by
  have hmaxU : s.m_maxAllocs < U32 := by
    have h := hI.maxLt
    simp only [U32] at h ⊢
    omega
  have hszlt := hI.sizeLt
  have hstor := hI.storage
  have hfsle : s.m_freeStorage ≤ s.m_size := by
    rw [hI.storage, ← hI.chain.total]
    exact sumList_filter_le
  have hnd := hI.chain.nodup
  rw [hLdec] at hnd
  have hlinks := hI.chain.links
  rw [hLdec, chainSeg_append, chainSeg_cons] at hlinks
  obtain ⟨hlinkL1, hpy, hny, hlinkL2⟩ := hlinks
  have hyn1 : (s1.m_nodes y).neighborNext = L2.headD UNUSED := by
    rw [h1y]
    exact hny
  have h1yused : (s1.m_nodes y).used = true := by
    rw [h1y]
    exact hyused
  have hcount := hI.stack.count
  rw [hLdec] at hcount
  simp only [List.length_append, List.length_cons] at hcount
  have hlenL : L.length = L1p.length + R1.length + (1 + L2.length) := by
    rw [hLdec]
    simp only [List.length_append, List.length_cons]
    omega
  cases L2 with
  | nil =>
    have hynU : (s1.m_nodes y).neighborNext = UNUSED := by simpa using hyn1
    have hred : mergeNext s1 y size1 = (s1, size1) := by
      simp only [mergeNext]
      rw [if_neg (by rw [hynU]; simp)]
    have hynUs : (s.m_nodes y).neighborNext = UNUSED := by
      simpa [nbrPrev] using hny
    refine ⟨[], [], B1, rfl, by simp, by simp, by simp, ?_, ?_, ?_, ?_, ?_, ?_, ?_, ?_,
      ?_, ?_, ?_, ?_⟩
    · rw [hred]
      simp only [sumList_nil, Nat.add_zero]
      exact hsize1
    · rw [hred]
      exact h1sz
    · rw [hred]
      exact h1ma
    · rw [hred]
      exact h1hn
    · rw [hred]
      simp only [sumList_nil, Nat.sub_zero]
      exact h1fs
    · rw [hred]
      simp only [List.length_nil, Nat.sub_zero]
      exact h1fo
    · intro k hk
      rw [hred]
      simp only [List.length_nil, Nat.sub_zero] at hk
      exact h1mm k hk
    · intro k1 k2 h12 hk2
      rw [hred]
      simp only [List.length_nil, Nat.sub_zero] at hk2
      exact h1dd k1 k2 h12 hk2
    · rw [hred]
      show s1.m_nodes y = _
      rw [h1y]
      simp [hynUs]
    · intro i hiy
      rw [hred]
      exact h1F i hiy
    · rw [hred]
      exact h1B
    · intro b hb i
      rw [h1mem b hb i]
      simp
  | cons n0 L2t =>
    have hn0 : (s1.m_nodes y).neighborNext = n0 := by simpa using hyn1
    have hn0s : (s.m_nodes y).neighborNext = n0 := by
      have h := hny
      simp only [nbrPrev, List.headD_cons] at h
      exact h
    have hn0L : n0 ∈ L := by
      rw [hLdec]
      exact List.mem_append_right _ (List.mem_cons_of_mem _ (List.mem_cons_self _ _))
    have hn0max : n0 ≤ s.m_maxAllocs := hI.chain.bounded n0 hn0L
    have hn0Une : n0 ≠ UNUSED := by
      intro hc
      have h2 := hI.maxLt
      rw [hc] at hn0max
      simp only [UNUSED] at hn0max
      simp only [U32] at h2
      omega
    have hndR : (y :: n0 :: L2t).Nodup := (List.nodup_append.mp hnd).2.1
    have hdisj := (List.nodup_append.mp hnd).2.2
    have hyn0mem : y ∉ n0 :: L2t := (List.nodup_cons.mp hndR).1
    have hn0y : n0 ≠ y := by
      intro hc
      exact hyn0mem (by rw [← hc]; exact List.mem_cons_self _ _)
    have hn0L2t : n0 ∉ L2t := (List.nodup_cons.mp (List.nodup_cons.mp hndR).2).1
    have hn0R1 : n0 ∉ R1 := by
      intro hc
      exact hdisj (List.mem_append_right _ hc)
        (List.mem_cons_of_mem _ (List.mem_cons_self _ _))
    have hn0L1p : n0 ∉ L1p := by
      intro hc
      exact hdisj (List.mem_append_left _ hc)
        (List.mem_cons_of_mem _ (List.mem_cons_self _ _))
    rw [chainSeg_cons] at hlinkL2
    obtain ⟨hprevn0, hnextn0, hlinkL2t⟩ := hlinkL2
    have htotd := hI.chain.total
    rw [hLdec, sumList_append, sumList_append, sumList_cons, sumList_cons] at htotd
    have ey : szF s y = (s.m_nodes y).dataSize := rfl
    have en0 : szF s n0 = (s.m_nodes n0).dataSize := rfl
    rw [ey, en0] at htotd
    by_cases hn0free : (s.m_nodes n0).used = false
    · -- the next neighbor is free: it is absorbed
      have hused1 : (s1.m_nodes n0).used = false := by
        rw [(h1F n0 hn0y).2.2.1]
        exact hn0free
      have hn0sz1 : (s1.m_nodes n0).dataSize = (s.m_nodes n0).dataSize := (h1F n0 hn0y).2.1
      have hn0Bs : n0 ∈ B (uintToSmallFloatRoundDown ((s.m_nodes n0).dataSize)) :=
        hI.freeInBin n0 hn0L hn0free
      have hn0sz32 : (s.m_nodes n0).dataSize < U32 := by omega
      have hcls256 : uintToSmallFloatRoundDown ((s.m_nodes n0).dataSize) < NUM_LEAF_BINS := by
        have h := roundDown_le_239 hn0sz32
        simp only [NUM_LEAF_BINS]
        omega
      have hn0B1 : n0 ∈ B1 (uintToSmallFloatRoundDown ((s.m_nodes n0).dataSize)) :=
        (h1mem _ hcls256 n0).mpr ⟨hn0Bs, hn0R1⟩
      have hElem1 : ∀ b, b < NUM_LEAF_BINS → ∀ i ∈ B1 b, i ≠ UNUSED := by
        intro b hb i hi hc
        have hiB := ((h1mem b hb i).mp hi).1
        have h1 := hI.chain.bounded i (hI.binsSub b hb i hiB)
        have h2 := hI.maxLt
        rw [hc] at h1
        simp only [UNUSED] at h1
        simp only [U32] at h2
        omega
      obtain ⟨P, Qn, hdecn⟩ := List.append_of_mem hn0B1
      have hrm := removeNodeFromBin_spec h1B hcls256 hdecn hElem1
      obtain ⟨rn1, rn2, rn3, rn4, rn5, rn6, rn7, rn8, rn9, rn10⟩ := hrm
      set sAv := removeNodeFromBin s1 n0 with hsAv
      clear_value sAv
      have hyB1 : y ∉ B1 (uintToSmallFloatRoundDown ((s.m_nodes n0).dataSize)) := by
        intro hc
        have h2 := (h1B.memCls _ hcls256 y hc).2
        rw [h1yused] at h2
        simp at h2
      have hyA : sAv.m_nodes y = s1.m_nodes y := rn8 y hyB1
      have hn0A : sAv.m_nodes n0 = s1.m_nodes n0 := rn7
      have hred : mergeNext s1 y size1 =
          ({ sAv with m_nodes := upd sAv.m_nodes y
                                   ({ sAv.m_nodes y with
                                      neighborNext := (sAv.m_nodes n0).neighborNext }) },
            add32 size1 ((s1.m_nodes n0).dataSize)) := by
        simp only [mergeNext]
        rw [hn0, if_pos ⟨hn0Une, hused1⟩, hsAv]
      have hfin_nodes : (mergeNext s1 y size1).1.m_nodes = upd sAv.m_nodes y
          ({ sAv.m_nodes y with neighborNext := (sAv.m_nodes n0).neighborNext }) := by
        rw [hred]
      have hfin_fn : (mergeNext s1 y size1).1.m_freeNodes = sAv.m_freeNodes := by rw [hred]
      have hfin_fo : (mergeNext s1 y size1).1.m_freeOffset = sAv.m_freeOffset := by rw [hred]
      have hfin_fs : (mergeNext s1 y size1).1.m_freeStorage = sAv.m_freeStorage := by rw [hred]
      have hfin_sz1 : (mergeNext s1 y size1).1.m_size = sAv.m_size := by rw [hred]
      have hfin_ma : (mergeNext s1 y size1).1.m_maxAllocs = sAv.m_maxAllocs := by rw [hred]
      have hfin_hn : (mergeNext s1 y size1).1.hasNodes = sAv.hasNodes := by rw [hred]
      have hfin_bi : (mergeNext s1 y size1).1.m_binIndices = sAv.m_binIndices := by rw [hred]
      have hfin_ub : (mergeNext s1 y size1).1.m_usedBins = sAv.m_usedBins := by rw [hred]
      have hfin_ut : (mergeNext s1 y size1).1.m_usedBinsTop = sAv.m_usedBinsTop := by rw [hred]
      have hfin_ssz : (mergeNext s1 y size1).2 = add32 size1 ((s1.m_nodes n0).dataSize) := by
        rw [hred]
      have hnbrn : (sAv.m_nodes n0).neighborNext = L2t.headD UNUSED := by
        rw [hn0A, (h1F n0 hn0y).2.2.2.2]
        exact hnextn0
      have hfreeb : sumList (szF s) R1 + (s.m_nodes n0).dataSize ≤ s.m_freeStorage := by
        have hndR1 : R1.Nodup :=
          (List.nodup_append.mp (List.nodup_append.mp hnd).1).2.1
        have hndc : (n0 :: R1).Nodup := List.nodup_cons.mpr ⟨hn0R1, hndR1⟩
        have hsub : ∀ i ∈ n0 :: R1, i ∈ L.filter (fun j => (s.m_nodes j).used = false) := by
          intro i hi
          rw [List.mem_filter]
          rcases List.mem_cons.mp hi with h1 | h2
          · subst h1
            exact ⟨hn0L, by simp [hn0free]⟩
          · refine ⟨?_, by simp [hR1free i h2]⟩
            rw [hLdec]
            exact List.mem_append_left _ (List.mem_append_right _ h2)
        have h := sumList_subset_le (f := szF s) hndc hsub
        rw [sumList_cons, en0, ← hI.storage] at h
        omega
      have h1fslt : s1.m_freeStorage < U32 := by
        rw [h1fs]
        omega
      have hszle : (s1.m_nodes n0).dataSize ≤ s1.m_freeStorage := by
        rw [h1fs, hn0sz1]
        omega
      have hlsub1 : 1 ≤ L.length - R1.length := by omega
      have hlsub2 : L.length - R1.length ≤ s.m_maxAllocs + 1 := by omega
      have hslot : add32 s1.m_freeOffset 1 = s.m_maxAllocs + 1 - (L.length - R1.length) := by
        rw [h1fo]
        exact slot_top_eq hlsub1 hlsub2 hI.maxLt
      have hbnd1 := h1B.nodup _ hcls256
      rw [hdecn] at hbnd1
      have hnPQ : n0 ∉ P ++ Qn := (List.nodup_cons.mp (List.nodup_middle.mp hbnd1)).1
      refine ⟨L2t, [n0], upd B1 (uintToSmallFloatRoundDown ((s.m_nodes n0).dataSize)) (P ++ Qn),
        rfl, by simp, ?_, ?_, ?_, ?_, ?_, ?_, ?_, ?_, ?_, ?_, ?_, ?_, ?_, ?_⟩
      · intro r hr
        simp only [List.mem_singleton] at hr
        subst hr
        exact hn0free
      · -- the node after the absorbed one is used (maximal coalescing)
        intro hne
        obtain ⟨m, L2t', hm⟩ := List.exists_cons_of_ne_nil hne
        subst hm
        have hco := hI.chain.coalesced
        rw [hLdec] at hco
        have h2 := (List.chain'_append.mp hco).2.1
        have h3 := (List.chain'_cons.mp (List.chain'_cons.mp h2).2).1
        rcases h3 with hc | hc
        · simp only [usedF] at hc
          rw [hn0free] at hc
          simp at hc
        · simp only [usedF] at hc
          simpa using hc
      · rw [hfin_ssz, hn0sz1, hsize1, add32_eq (by omega)]
        simp [szF]
      · rw [hfin_sz1, rn1, h1sz]
      · rw [hfin_ma, rn2, h1ma]
      · rw [hfin_hn, rn3, h1hn]
      · rw [hfin_fs, rn6, sub32_eq hszle h1fslt, hn0sz1, h1fs]
        simp only [sumList_cons, sumList_nil, szF, Nat.add_zero]
      · rw [hfin_fo, rn4, hslot]
        simp only [List.length_singleton]
        rw [sub32_eq (by omega) hmaxU]
        omega
      · intro k hk
        simp only [List.length_singleton] at hk
        rw [hfin_fn, rn5]
        by_cases hks : k = add32 s1.m_freeOffset 1
        · rw [hks, upd_same]
          refine ⟨hn0max, ?_⟩
          intro hc
          rcases List.mem_append.mp hc with h1 | h2
          · exact hn0L1p h1
          · rcases List.mem_cons.mp h2 with h3 | h4
            · exact hn0y h3
            · exact hn0L2t h4
        · rw [upd_ne hks]
          have hkslot : k ≠ s.m_maxAllocs + 1 - (L.length - R1.length) := by
            rw [← hslot]
            exact hks
          have hklt : k < s.m_maxAllocs + 1 - (L.length - R1.length) := by omega
          have hmem := h1mm k hklt
          refine ⟨hmem.1, fun hc => hmem.2 ?_⟩
          rcases List.mem_append.mp hc with h1 | h2
          · exact List.mem_append_left _ h1
          · rcases List.mem_cons.mp h2 with h3 | h4
            · exact List.mem_append_right _ (h3 ▸ List.mem_cons_self _ _)
            · exact List.mem_append_right _ (List.mem_cons_of_mem _ (List.mem_cons_of_mem _ h4))
      · intro k1 k2 h12 hk2
        simp only [List.length_singleton] at hk2
        rw [hfin_fn, rn5]
        by_cases hk2s : k2 = add32 s1.m_freeOffset 1
        · rw [hk2s, upd_same]
          have hk2v : k2 = s.m_maxAllocs + 1 - (L.length - R1.length) := by
            rw [← hslot]
            exact hk2s
          have hk1s : k1 ≠ add32 s1.m_freeOffset 1 := by
            rw [hslot]
            omega
          rw [upd_ne hk1s]
          have hk1lt : k1 < s.m_maxAllocs + 1 - (L.length - R1.length) := by omega
          have hmem := h1mm k1 hk1lt
          intro hc
          refine hmem.2 ?_
          rw [hc]
          exact List.mem_append_right _ (List.mem_cons_of_mem _ (List.mem_cons_self _ _))
        · have hk2v : k2 ≠ s.m_maxAllocs + 1 - (L.length - R1.length) := by
            rw [← hslot]
            exact hk2s
          have hk2lt : k2 < s.m_maxAllocs + 1 - (L.length - R1.length) := by omega
          have hk1s : k1 ≠ add32 s1.m_freeOffset 1 := by
            rw [hslot]
            omega
          rw [upd_ne hk2s, upd_ne hk1s]
          exact h1dd k1 k2 h12 hk2lt
      · rw [hfin_nodes, upd_same, hyA, h1y, hnbrn]
      · intro i hiy
        have ha := rn9 i
        have hb := h1F i hiy
        rw [hfin_nodes, upd_ne hiy]
        exact ⟨ha.1.trans hb.1, ha.2.1.trans hb.2.1, ha.2.2.1.trans hb.2.2.1,
          ha.2.2.2.1.trans hb.2.2.2.1, ha.2.2.2.2.trans hb.2.2.2.2⟩
      · refine BinsWF_congr hfin_bi hfin_ub hfin_ut ?_ rn10
        intro i
        rw [hfin_nodes]
        by_cases hiy : i = y
        · subst hiy
          rw [upd_same]
          exact ⟨rfl, rfl, rfl, rfl⟩
        · rw [upd_ne hiy]
          exact ⟨rfl, rfl, rfl, rfl⟩
      · intro b hb i
        by_cases hbbn : b = uintToSmallFloatRoundDown ((s.m_nodes n0).dataSize)
        · subst hbbn
          rw [upd_same]
          constructor
          · intro hi
            have hiB1 : i ∈ B1 (uintToSmallFloatRoundDown ((s.m_nodes n0).dataSize)) := by
              rw [hdecn]
              rcases List.mem_append.mp hi with h1 | h2
              · exact List.mem_append_left _ h1
              · exact List.mem_append_right _ (List.mem_cons_of_mem _ h2)
            have hmemB := (h1mem _ hb i).mp hiB1
            refine ⟨hmemB.1, hmemB.2, ?_⟩
            simp only [List.mem_singleton]
            intro hin
            subst hin
            exact hnPQ hi
          · rintro ⟨hiB, hiR1, hin0⟩
            simp only [List.mem_singleton] at hin0
            have hiB1 := (h1mem _ hb i).mpr ⟨hiB, hiR1⟩
            rw [hdecn] at hiB1
            rcases List.mem_append.mp hiB1 with h1 | h2
            · exact List.mem_append_left _ h1
            · rcases List.mem_cons.mp h2 with h3 | h4
              · exact absurd h3 hin0
              · exact List.mem_append_right _ h4
        · rw [upd_ne hbbn]
          constructor
          · intro hi
            have hmemB := (h1mem b hb i).mp hi
            refine ⟨hmemB.1, hmemB.2, ?_⟩
            simp only [List.mem_singleton]
            intro hin
            have hcls := (h1B.memCls b hb i hi).1
            rw [hin, hn0sz1] at hcls
            exact hbbn hcls.symm
          · rintro ⟨hiB, hiR1, _⟩
            exact (h1mem b hb i).mpr ⟨hiB, hiR1⟩
    · -- the next neighbor exists but is used: stage is a no-op
      have hn0used : (s.m_nodes n0).used = true := by
        simp only [Bool.not_eq_false] at hn0free
        exact hn0free
      have hused1 : (s1.m_nodes n0).used = true := by
        rw [(h1F n0 hn0y).2.2.1]
        exact hn0used
      have hred : mergeNext s1 y size1 = (s1, size1) := by
        simp only [mergeNext]
        rw [hn0, if_neg (by simp [hused1])]
      refine ⟨n0 :: L2t, [], B1, rfl, by simp, by simp, ?_, ?_, ?_, ?_, ?_, ?_, ?_, ?_,
        ?_, ?_, ?_, ?_, ?_⟩
      · intro _
        simp only [List.headD_cons]
        exact hn0used
      · rw [hred]
        simp only [sumList_nil, Nat.add_zero]
        exact hsize1
      · rw [hred]
        exact h1sz
      · rw [hred]
        exact h1ma
      · rw [hred]
        exact h1hn
      · rw [hred]
        simp only [sumList_nil, Nat.sub_zero]
        exact h1fs
      · rw [hred]
        simp only [List.length_nil, Nat.sub_zero]
        exact h1fo
      · intro k hk
        rw [hred]
        simp only [List.length_nil, Nat.sub_zero] at hk
        exact h1mm k hk
      · intro k1 k2 h12 hk2
        rw [hred]
        simp only [List.length_nil, Nat.sub_zero] at hk2
        exact h1dd k1 k2 h12 hk2
      · rw [hred]
        show s1.m_nodes y = _
        rw [h1y]
        simp only [List.headD_cons]
        simp [hn0s]
      · intro i hiy
        rw [hred]
        exact h1F i hiy
      · rw [hred]
        exact h1B
      · intro b hb i
        rw [h1mem b hb i]
        simp

theorem mem_getLastD : ∀ (l : List Nat) (d : Nat), l ≠ [] → l.getLastD d ∈ l := by
  intro l
  induction l with
  | nil => intro d h; exact absurd rfl h
  | cons a t ih =>
    intro d _
    rw [List.getLastD_cons]
    cases t with
    | nil => simp
    | cons b t' => exact List.mem_cons_of_mem _ (ih a (by intro hc; cases hc))

theorem mem_headD {l : List Nat} {d : Nat} (h : l ≠ []) : l.headD d ∈ l := by
  cases l with
  | nil => exact absurd rfl h
  | cons a t => simp

theorem getLastD_of_mem_getLast? {l : List Nat} {x d : Nat} (h : x ∈ l.getLast?) :
    l ≠ [] ∧ x = l.getLastD d := by
  cases l with
  | nil => simp at h
  | cons a t =>
    refine ⟨(by intro hc; cases hc), ?_⟩
    rw [List.getLastD_eq_getLast?]
    rw [Option.mem_def] at h
    rw [h]
    rfl

theorem headD_of_mem_head? {l : List Nat} {x d : Nat} (h : x ∈ l.head?) :
    l ≠ [] ∧ x = l.headD d := by
  cases l with
  | nil => simp at h
  | cons a t =>
    simp only [List.head?_cons, Option.mem_def, Option.some.injEq] at h
    exact ⟨(by intro hc; cases hc), (by rw [← h]; rfl)⟩

theorem chain'_glue {R : Nat → Nat → Prop} {l1 l2 : List Nat} {a d : Nat}
    (h1 : List.Chain' R l1) (h2 : List.Chain' R l2)
    (hj1 : l1 ≠ [] → R (l1.getLastD d) a) (hj2 : l2 ≠ [] → R a (l2.headD d)) :
    List.Chain' R (l1 ++ a :: l2) := by
  rw [List.chain'_append]
  refine ⟨h1, ?_, ?_⟩
  · rw [List.chain'_cons']
    refine ⟨?_, h2⟩
    intro z hz
    obtain ⟨hne, hzeq⟩ := headD_of_mem_head? (d := d) hz
    rw [hzeq]
    exact hj2 hne
  · intro x hx z hz
    simp only [List.head?_cons, Option.mem_def, Option.some.injEq] at hz
    obtain ⟨hne, hxeq⟩ := getLastD_of_mem_getLast? (d := d) hx
    rw [hxeq, ← hz]
    exact hj1 hne

theorem sum_filter_split {f : Nat → Nat} {p : Nat → Bool} :
    ∀ {l : List Nat},
      sumList f (l.filter p) + sumList f (l.filter (fun i => !(p i))) = sumList f l := by
  intro l
  induction l with
  | nil => rfl
  | cons a t ih =>
    cases hpa : p a
    · have h1 : List.filter p (a :: t) = List.filter p t := by
        simp [List.filter_cons, hpa]
      have h2 : List.filter (fun i => !p i) (a :: t) = a :: List.filter (fun i => !p i) t := by
        simp [List.filter_cons, hpa]
      rw [h1, h2, sumList_cons, sumList_cons]
      omega
    · have h1 : List.filter p (a :: t) = a :: List.filter p t := by
        simp [List.filter_cons, hpa]
      have h2 : List.filter (fun i => !p i) (a :: t) = List.filter (fun i => !p i) t := by
        simp [List.filter_cons, hpa]
      rw [h1, h2, sumList_cons, sumList_cons]
      omega

set_option maxHeartbeats 1600000 in
/-- Reassembly of the allocator invariant after `free`: given the field-level
    description of the final state `w` (combined node `y` re-inserted, spatial
    neighbors re-linked) the invariant holds for the shortened live chain
    `L1p ++ y :: L2p`. -/
theorem free_assemble {s w : AllocState} {L L1p R1 R2 L2p : List Nat}
    {B B3 : Nat → List Nat} {y size2 offset1 : Nat}
    (hI : InvW s L B)
    (hLdec : L = (L1p ++ R1) ++ y :: (R2 ++ L2p))
    (hyused : (s.m_nodes y).used = true)
    (hR1f : ∀ r ∈ R1, (s.m_nodes r).used = false)
    (hR2f : ∀ r ∈ R2, (s.m_nodes r).used = false)
    (hL1pu : L1p ≠ [] → (s.m_nodes (L1p.getLastD UNUSED)).used = true)
    (hL2pu : L2p ≠ [] → (s.m_nodes (L2p.headD UNUSED)).used = true)
    (hsz2 : size2 = (s.m_nodes y).dataSize + sumList (szF s) R1 + sumList (szF s) R2)
    (hoff1 : offset1 = sumList (szF s) L1p)
    (hwyo : (w.m_nodes y).dataOffset = offset1)
    (hwys : (w.m_nodes y).dataSize = size2)
    (hwyu : (w.m_nodes y).used = false)
    (hwyp : (w.m_nodes y).neighborPrev = L1p.getLastD UNUSED)
    (hwyn : (w.m_nodes y).neighborNext = L2p.headD UNUSED)
    (hoffsz : ∀ i, i ≠ y → (w.m_nodes i).dataOffset = (s.m_nodes i).dataOffset ∧
      (w.m_nodes i).dataSize = (s.m_nodes i).dataSize ∧
      (w.m_nodes i).used = (s.m_nodes i).used)
    (hprv : ∀ i, i ≠ y → (L2p = [] ∨ i ≠ L2p.headD UNUSED) →
      (w.m_nodes i).neighborPrev = (s.m_nodes i).neighborPrev)
    (hnxt : ∀ i, i ≠ y → (L1p = [] ∨ i ≠ L1p.getLastD UNUSED) →
      (w.m_nodes i).neighborNext = (s.m_nodes i).neighborNext)
    (hwNNp : L2p ≠ [] → (w.m_nodes (L2p.headD UNUSED)).neighborPrev = y)
    (hwNPn : L1p ≠ [] → (w.m_nodes (L1p.getLastD UNUSED)).neighborNext = y)
    (hwB : BinsWF w B3)
    (hB3mem : ∀ b, b < NUM_LEAF_BINS → ∀ i,
      (i ∈ B3 b ↔ (i ∈ B b ∧ i ∉ R1 ∧ i ∉ R2) ∨
        (b = uintToSmallFloatRoundDown size2 ∧ i = y)))
    (hwsz : w.m_size = s.m_size) (hwma : w.m_maxAllocs = s.m_maxAllocs)
    (hwhn : w.hasNodes = s.hasNodes)
    (hwfs : w.m_freeStorage = s.m_freeStorage + (s.m_nodes y).dataSize)
    (hwfo : w.m_freeOffset = sub32 s.m_maxAllocs (L1p.length + 1 + L2p.length))
    (hwmm : ∀ k, k < s.m_maxAllocs + 1 - (L1p.length + 1 + L2p.length) →
      w.m_freeNodes k ≤ s.m_maxAllocs ∧ w.m_freeNodes k ∉ L1p ++ y :: L2p)
    (hwdd : ∀ k1 k2, k1 < k2 → k2 < s.m_maxAllocs + 1 - (L1p.length + 1 + L2p.length) →
      w.m_freeNodes k1 ≠ w.m_freeNodes k2) :
    InvW w (L1p ++ y :: L2p) B3 := by
  have hszlt := hI.sizeLt
  -- decompose the chain facts of `s`
  have hnd := hI.chain.nodup
  rw [hLdec] at hnd
  have hnd1 : (L1p ++ R1).Nodup := (List.nodup_append.mp hnd).1
  have hndy : (y :: (R2 ++ L2p)).Nodup := (List.nodup_append.mp hnd).2.1
  have hdisj : (L1p ++ R1).Disjoint (y :: (R2 ++ L2p)) := (List.nodup_append.mp hnd).2.2
  have hndL1p : L1p.Nodup := (List.nodup_append.mp hnd1).1
  have hyR2L2p : y ∉ R2 ++ L2p := (List.nodup_cons.mp hndy).1
  have hnd2 : (R2 ++ L2p).Nodup := (List.nodup_cons.mp hndy).2
  have hndL2p : L2p.Nodup := (List.nodup_append.mp hnd2).2.1
  have hdisj2 : R2.Disjoint L2p := (List.nodup_append.mp hnd2).2.2
  have hyL1p : y ∉ L1p := by
    intro hc
    exact hdisj (List.mem_append_left _ hc) (List.mem_cons_self _ _)
  have hyL2p : y ∉ L2p := fun hc => hyR2L2p (List.mem_append_right _ hc)
  have hL1pL2p : ∀ i ∈ L1p, i ∉ L2p := by
    intro i hi hc
    exact hdisj (List.mem_append_left _ hi)
      (List.mem_cons_of_mem _ (List.mem_append_right _ hc))
  have hL1pR1 : ∀ i ∈ L1p, i ∉ R1 := by
    intro i hi hc
    have := List.nodup_append.mp hnd1
    exact this.2.2 hi hc
  have hL1pR2 : ∀ i ∈ L1p, i ∉ R2 := by
    intro i hi hc
    exact hdisj (List.mem_append_left _ hi)
      (List.mem_cons_of_mem _ (List.mem_append_left _ hc))
  have hL2pR1 : ∀ i ∈ L2p, i ∉ R1 := by
    intro i hi hc
    exact hdisj (List.mem_append_right _ hc)
      (List.mem_cons_of_mem _ (List.mem_append_right _ hi))
  have hL2pR2 : ∀ i ∈ L2p, i ∉ R2 := fun i hi hc => hdisj2 hc hi
  have hyR1 : y ∉ R1 := by
    intro hc
    exact hdisj (List.mem_append_right _ hc) (List.mem_cons_self _ _)
  have hyR2 : y ∉ R2 := fun hc => hyR2L2p (List.mem_append_left _ hc)
  have hLpsub : ∀ i, i ∈ L1p ++ y :: L2p → i ∈ L := by
    intro i hi
    rw [hLdec]
    rcases List.mem_append.mp hi with h1 | h2
    · exact List.mem_append_left _ (List.mem_append_left _ h1)
    · rcases List.mem_cons.mp h2 with h3 | h4
      · exact List.mem_append_right _ (h3 ▸ List.mem_cons_self _ _)
      · exact List.mem_append_right _
          (List.mem_cons_of_mem _ (List.mem_append_right _ h4))
  have hL1pne_y : ∀ i ∈ L1p, i ≠ y := fun i hi hc => hyL1p (hc ▸ hi)
  have hL2pne_y : ∀ i ∈ L2p, i ≠ y := fun i hi hc => hyL2p (hc ▸ hi)
  -- links of `s`
  have hlinks := hI.chain.links
  rw [hLdec, chainSeg_append, chainSeg_cons] at hlinks
  obtain ⟨hlinkL1, hpy, hny, hlinkL2⟩ := hlinks
  simp only [List.headD_cons] at hlinkL1
  -- spans of `s`
  have hspans := hI.chain.spans
  rw [hLdec, spansFrom_append] at hspans
  obtain ⟨hspL1, hoffy, hspL2⟩ := hspans
  rw [spansFrom_append] at hspL1
  obtain ⟨hspL1p, hspR1⟩ := hspL1
  rw [spansFrom_append] at hspL2
  obtain ⟨hspR2, hspL2p⟩ := hspL2
  -- total of `s`
  have htot := hI.chain.total
  rw [hLdec, sumList_append, sumList_append, sumList_cons, sumList_append] at htot
  have ey : szF s y = (s.m_nodes y).dataSize := rfl
  rw [ey] at htot
  -- coalesced of `s`
  have hco := hI.chain.coalesced
  rw [hLdec] at hco
  -- sums over parts at `w` equal those at `s`
  have hsumL1p : sumList (szF w) L1p = sumList (szF s) L1p := by
    refine sumList_congr ?_
    intro i hi
    simp only [szF]
    exact (hoffsz i (hL1pne_y i hi)).2.1
  have hsumL2p : sumList (szF w) L2p = sumList (szF s) L2p := by
    refine sumList_congr ?_
    intro i hi
    simp only [szF]
    exact (hoffsz i (hL2pne_y i hi)).2.1
  have hlenct := hI.stack.count
  rw [hLdec] at hlenct
  simp only [List.length_append, List.length_cons] at hlenct
  refine ⟨?_, ?_, ?_, ?_, hwB, ?_, ?_, ?_, ?_, ?_⟩
  · -- hasNodes
    rw [hwhn]
    exact hI.hasN
  · -- m_size < U32
    rw [hwsz]
    exact hszlt
  · -- m_maxAllocs bound
    rw [hwma]
    exact hI.maxLt
  · -- ChainWF
    refine ⟨?_, ?_, ?_, ?_, ?_, ?_⟩
    · -- links
      rw [chainSeg_append, chainSeg_cons]
      refine ⟨?_, ?_, ?_, ?_⟩
      · -- the left part L1p
        simp only [List.headD_cons]
        rcases List.eq_nil_or_concat L1p with hnil | ⟨init, q, hq⟩
        · rw [hnil]
          exact chainSeg_nil
        · simp only [List.concat_eq_append] at hq
          rw [hq]
          rw [hq, List.append_assoc, List.singleton_append] at hlinkL1
          rw [chainSeg_append, List.headD_cons, chainSeg_cons] at hlinkL1
          obtain ⟨hinit, hqprev, hqnext, _⟩ := hlinkL1
          have hndq : q ∉ init := by
            have h := hndL1p
            rw [hq] at h
            have h2 := List.nodup_middle.mp (by simpa using h)
            have h3 := (List.nodup_cons.mp h2).1
            simpa using h3
          have hqL1p : q ∈ L1p := by
            rw [hq]
            exact List.mem_append_right _ (List.mem_singleton.mpr rfl)
          rw [chainSeg_snoc]
          have horyq : L2p = [] ∨ q ≠ L2p.headD UNUSED := by
            cases L2p with
            | nil => exact Or.inl rfl
            | cons h2 t2 =>
              refine Or.inr ?_
              simp only [List.headD_cons]
              intro hc
              exact hL1pL2p q hqL1p (by rw [hc]; exact List.mem_cons_self _ _)
          refine ⟨?_, ?_, ?_⟩
          · refine chainSeg_congr init UNUSED q ?_ hinit
            intro i hi
            have hiL1p : i ∈ L1p := by
              rw [hq]
              exact List.mem_append_left _ hi
            have hiny : i ≠ y := hL1pne_y i hiL1p
            have hor1 : L1p = [] ∨ i ≠ L1p.getLastD UNUSED := by
              refine Or.inr ?_
              rw [hq, getLastD_snoc]
              intro hc
              exact hndq (hc ▸ hi)
            have hor2 : L2p = [] ∨ i ≠ L2p.headD UNUSED := by
              cases L2p with
              | nil => exact Or.inl rfl
              | cons h2 t2 =>
                refine Or.inr ?_
                simp only [List.headD_cons]
                intro hc
                exact hL1pL2p i hiL1p (by rw [hc]; exact List.mem_cons_self _ _)
            exact ⟨(hnxt i hiny hor1).symm, (hprv i hiny hor2).symm⟩
          · show (w.m_nodes q).neighborPrev = _
            rw [hprv q (hL1pne_y q hqL1p) horyq]
            exact hqprev
          · have h := hwNPn (by rw [hq]; simp)
            rw [hq, getLastD_snoc] at h
            exact h
      · -- neighborPrev of y
        exact hwyp
      · -- neighborNext of y
        simp only [nbrNext]
        exact hwyn
      · -- the right part L2p
        rw [chainSeg_append] at hlinkL2
        obtain ⟨hlinkR2, hlinkL2p⟩ := hlinkL2
        cases hL2 : L2p with
        | nil => exact chainSeg_nil
        | cons h2 t2 =>
          rw [hL2] at hlinkL2p
          rw [chainSeg_cons] at hlinkL2p
          obtain ⟨_, hh2next, hlinkt2⟩ := hlinkL2p
          have hh2L2p : h2 ∈ L2p := by rw [hL2]; exact List.mem_cons_self _ _
          have hndh2 : h2 ∉ t2 := by
            have h := hndL2p
            rw [hL2] at h
            exact (List.nodup_cons.mp h).1
          have hor1 : ∀ i ∈ L2p, L1p = [] ∨ i ≠ L1p.getLastD UNUSED := by
            intro i hiL2p
            rcases List.eq_nil_or_concat L1p with hnil | ⟨init, q, hq⟩
            · exact Or.inl hnil
            · refine Or.inr ?_
              intro hc
              have hmem : L1p.getLastD UNUSED ∈ L1p := mem_getLastD _ _ (by rw [hq]; simp)
              exact hL1pL2p _ (hc ▸ hmem) hiL2p
          rw [chainSeg_cons]
          refine ⟨?_, ?_, ?_⟩
          · have h := hwNNp (by rw [hL2]; simp)
            rw [hL2] at h
            simp only [List.headD_cons] at h
            exact h
          · show (w.m_nodes h2).neighborNext = _
            rw [hnxt h2 (hL2pne_y h2 hh2L2p) (hor1 h2 hh2L2p)]
            exact hh2next
          · refine chainSeg_congr t2 h2 UNUSED ?_ hlinkt2
            intro i hi
            have hiL2p : i ∈ L2p := by rw [hL2]; exact List.mem_cons_of_mem _ hi
            have hiny : i ≠ y := hL2pne_y i hiL2p
            have hor2 : L2p = [] ∨ i ≠ L2p.headD UNUSED := by
              rw [hL2]
              refine Or.inr ?_
              simp only [List.headD_cons]
              intro hc
              exact hndh2 (hc ▸ hi)
            exact ⟨(hnxt i hiny (hor1 i hiL2p)).symm, (hprv i hiny hor2).symm⟩
    · -- spans
      rw [spansFrom_append]
      refine ⟨?_, ?_⟩
      · refine spansFrom_congr L1p 0 ?_ hspL1p
        intro i hi
        have hiny : i ≠ y := hL1pne_y i hi
        exact ⟨((hoffsz i hiny).1).symm, ((hoffsz i hiny).2.1).symm⟩
      · refine ⟨?_, ?_⟩
        · show offF w y = _
          simp only [offF]
          rw [hwyo, hoff1, hsumL1p]
          omega
        · have heq : 0 + sumList (szF w) L1p + szF w y =
              0 + (sumList (szF s) L1p + sumList (szF s) R1) + szF s y +
                sumList (szF s) R2 := by
            have : szF w y = size2 := hwys
            rw [hsumL1p, this, hsz2, ey]
            omega
          rw [heq]
          have hsps : spansFrom (offF s) (szF s)
              (0 + (sumList (szF s) L1p + sumList (szF s) R1) + szF s y +
                sumList (szF s) R2) L2p := by
            have h := hspL2p
            rw [sumList_append] at h
            exact h
          refine spansFrom_congr L2p _ ?_ hsps
          intro i hi
          have hiny : i ≠ y := hL2pne_y i hi
          exact ⟨((hoffsz i hiny).1).symm, ((hoffsz i hiny).2.1).symm⟩
    · -- total
      rw [sumList_append, sumList_cons, hsumL1p, hsumL2p, hwsz]
      have : szF w y = size2 := hwys
      rw [this, hsz2]
      omega
    · -- nodup
      rw [List.nodup_append]
      refine ⟨hndL1p, List.nodup_cons.mpr ⟨hyL2p, hndL2p⟩, ?_⟩
      intro i hi hc
      rcases List.mem_cons.mp hc with h1 | h2
      · exact hyL1p (h1 ▸ hi)
      · exact hL1pL2p i hi h2
    · -- bounded
      intro i hi
      rw [hwma]
      exact hI.chain.bounded i (hLpsub i hi)
    · -- coalesced
      refine chain'_glue (d := UNUSED) ?_ ?_ ?_ ?_
      · have h1 : List.Chain' (fun a b => usedF s a = true ∨ usedF s b = true) L1p :=
          (List.chain'_append.mp (List.chain'_append.mp hco).1).1
        refine noAdjFree_congr ?_ h1
        intro i hi
        simp only [usedF]
        exact ((hoffsz i (hL1pne_y i hi)).2.2).symm
      · have h1 : List.Chain' (fun a b => usedF s a = true ∨ usedF s b = true) L2p := by
          have h2 := (List.chain'_append.mp hco).2.1
          have h3 := List.Chain'.tail h2
          exact (List.chain'_append.mp h3).2.1
        refine noAdjFree_congr ?_ h1
        intro i hi
        simp only [usedF]
        exact ((hoffsz i (hL2pne_y i hi)).2.2).symm
      · intro hne
        left
        have hmem : L1p.getLastD UNUSED ∈ L1p := mem_getLastD _ _ hne
        simp only [usedF]
        rw [(hoffsz _ (hL1pne_y _ hmem)).2.2]
        exact hL1pu hne
      · intro hne
        right
        have hmem : L2p.headD UNUSED ∈ L2p := mem_headD hne
        simp only [usedF]
        rw [(hoffsz _ (hL2pne_y _ hmem)).2.2]
        exact hL2pu hne
  · -- StackWF
    refine ⟨?_, ?_, ?_, ?_⟩
    · simp only [List.length_append, List.length_cons]
      rw [hwma]
      omega
    · rw [hwma, hwfo]
      simp only [List.length_append, List.length_cons]
      rw [show L1p.length + (L2p.length + 1) = L1p.length + 1 + L2p.length from by omega]
    · intro k hk
      rw [hwma]
      refine hwmm k ?_
      simp only [List.length_append, List.length_cons] at hk
      rw [hwma] at hk
      omega
    · intro k1 k2 h12 hk2
      refine hwdd k1 k2 h12 ?_
      simp only [List.length_append, List.length_cons] at hk2
      rw [hwma] at hk2
      omega
  · -- binsSub
    intro b hb i hi
    rcases (hB3mem b hb i).mp hi with ⟨hiB, hiR1, hiR2⟩ | ⟨_, hiy⟩
    · have hiL := hI.binsSub b hb i hiB
      rw [hLdec] at hiL
      rcases List.mem_append.mp hiL with h1 | h2
      · rcases List.mem_append.mp h1 with h3 | h4
        · exact List.mem_append_left _ h3
        · exact absurd h4 hiR1
      · rcases List.mem_cons.mp h2 with h3 | h4
        · exact List.mem_append_right _ (h3 ▸ List.mem_cons_self _ _)
        · rcases List.mem_append.mp h4 with h5 | h6
          · exact absurd h5 hiR2
          · exact List.mem_append_right _ (List.mem_cons_of_mem _ h6)
    · rw [hiy]
      exact List.mem_append_right _ (List.mem_cons_self _ _)
  · -- freeInBin
    intro i hi hfree
    by_cases hiy : i = y
    · subst hiy
      rw [hwys]
      have hs2lt : size2 < U32 := by
        rw [hsz2]
        omega
      have hcls : uintToSmallFloatRoundDown size2 < NUM_LEAF_BINS := by
        have h := roundDown_le_239 hs2lt
        simp only [NUM_LEAF_BINS]
        omega
      exact (hB3mem _ hcls i).mpr (Or.inr ⟨rfl, rfl⟩)
    · have hiused : (s.m_nodes i).used = false := by
        rw [← (hoffsz i hiy).2.2]
        exact hfree
      have hiL : i ∈ L := hLpsub i hi
      have hiB := hI.freeInBin i hiL hiused
      have hicls : (w.m_nodes i).dataSize = (s.m_nodes i).dataSize := (hoffsz i hiy).2.1
      rw [hicls]
      have hisz32 : (s.m_nodes i).dataSize < U32 := by
        have h1 : szF s i ≤ sumList (szF s) L := le_sumList_of_mem hiL
        rw [hI.chain.total] at h1
        simp only [szF] at h1
        omega
      have hcls256 : uintToSmallFloatRoundDown ((s.m_nodes i).dataSize) < NUM_LEAF_BINS := by
        have h := roundDown_le_239 hisz32
        simp only [NUM_LEAF_BINS]
        omega
      refine (hB3mem _ hcls256 i).mpr (Or.inl ⟨hiB, ?_, ?_⟩)
      · intro hc
        rcases List.mem_append.mp hi with h1 | h2
        · exact hL1pR1 i h1 hc
        · rcases List.mem_cons.mp h2 with h3 | h4
          · exact hyR1 (h3 ▸ hc)
          · exact hL2pR1 i h4 hc
      · intro hc
        rcases List.mem_append.mp hi with h1 | h2
        · exact hL1pR2 i h1 hc
        · rcases List.mem_cons.mp h2 with h3 | h4
          · exact hyR2 (h3 ▸ hc)
          · exact hL2pR2 i h4 hc
  · -- unusedOut
    intro i hmax hnotin
    have hiy : i ≠ y := by
      intro hc
      exact hnotin (hc ▸ List.mem_append_right _ (List.mem_cons_self _ _))
    rw [(hoffsz i hiy).2.2]
    by_cases hiL : i ∈ L
    · rw [hLdec] at hiL
      rcases List.mem_append.mp hiL with h1 | h2
      · rcases List.mem_append.mp h1 with h3 | h4
        · exact absurd (List.mem_append_left _ h3) hnotin
        · exact hR1f i h4
      · rcases List.mem_cons.mp h2 with h3 | h4
        · exact absurd h3 hiy
        · rcases List.mem_append.mp h4 with h5 | h6
          · exact hR2f i h5
          · exact absurd (List.mem_append_right _ (List.mem_cons_of_mem _ h6)) hnotin
    · refine hI.unusedOut i ?_ hiL
      rw [← hwma]
      exact hmax
  · -- storage
    have hfil : (L1p ++ y :: L2p).filter (fun i => (w.m_nodes i).used = false) =
        L1p.filter (fun i => (w.m_nodes i).used = false) ++
          y :: L2p.filter (fun i => (w.m_nodes i).used = false) := by
      rw [List.filter_append, List.filter_cons]
      simp [hwyu]
    rw [hfil, sumList_append, sumList_cons]
    have hfL1p : L1p.filter (fun i => (w.m_nodes i).used = false) =
        L1p.filter (fun i => (s.m_nodes i).used = false) := by
      refine List.filter_congr ?_
      intro i hi
      simp only [decide_eq_decide]
      rw [(hoffsz i (hL1pne_y i hi)).2.2]
    have hfL2p : L2p.filter (fun i => (w.m_nodes i).used = false) =
        L2p.filter (fun i => (s.m_nodes i).used = false) := by
      refine List.filter_congr ?_
      intro i hi
      simp only [decide_eq_decide]
      rw [(hoffsz i (hL2pne_y i hi)).2.2]
    have hsf1 : sumList (szF w) (L1p.filter (fun i => (w.m_nodes i).used = false)) =
        sumList (szF s) (L1p.filter (fun i => (s.m_nodes i).used = false)) := by
      rw [hfL1p]
      refine sumList_congr ?_
      intro i hi
      have hi2 := List.mem_of_mem_filter hi
      simp only [szF]
      exact (hoffsz i (hL1pne_y i hi2)).2.1
    have hsf2 : sumList (szF w) (L2p.filter (fun i => (w.m_nodes i).used = false)) =
        sumList (szF s) (L2p.filter (fun i => (s.m_nodes i).used = false)) := by
      rw [hfL2p]
      refine sumList_congr ?_
      intro i hi
      have hi2 := List.mem_of_mem_filter hi
      simp only [szF]
      exact (hoffsz i (hL2pne_y i hi2)).2.1
    rw [hsf1, hsf2]
    have hszw : szF w y = size2 := hwys
    rw [hszw]
    -- decompose the storage equation of `s`
    have hstor := hI.storage
    rw [hLdec] at hstor
    rw [List.filter_append, List.filter_append, List.filter_cons] at hstor
    have hyfalse : (decide ((s.m_nodes y).used = false)) = false := by
      simp [hyused]
    rw [hyfalse] at hstor
    simp only [if_false, Bool.false_eq_true] at hstor
    rw [List.filter_append] at hstor
    have hfR1 : R1.filter (fun i => (s.m_nodes i).used = false) = R1 := by
      rw [List.filter_eq_self]
      intro a ha
      simp [hR1f a ha]
    have hfR2 : R2.filter (fun i => (s.m_nodes i).used = false) = R2 := by
      rw [List.filter_eq_self]
      intro a ha
      simp [hR2f a ha]
    rw [hfR1, hfR2, sumList_append, sumList_append, sumList_append] at hstor
    rw [hwfs, hstor, hsz2]
    omega

theorem finishFree_eq (s2 : AllocState) (nodeIndex offset1 size2 : Nat) :
    finishFree s2 nodeIndex offset1 size2 =
      linkFF (insertNodeIntoBin (pushFF s2 nodeIndex) size2 offset1).1
        (insertNodeIntoBin (pushFF s2 nodeIndex) size2 offset1).2
        ((s2.m_nodes nodeIndex).neighborNext)
        ((s2.m_nodes nodeIndex).neighborPrev) := rfl

theorem sub32_lt (a b : Nat) : sub32 a b < U32 := by
  simp only [sub32, U32]
  omega

theorem linkFF_frame (s5 : AllocState) (c nn np : Nat) :
    (linkFF s5 c nn np).m_size = s5.m_size ∧
    (linkFF s5 c nn np).m_maxAllocs = s5.m_maxAllocs ∧
    (linkFF s5 c nn np).hasNodes = s5.hasNodes ∧
    (linkFF s5 c nn np).m_freeStorage = s5.m_freeStorage ∧
    (linkFF s5 c nn np).m_freeOffset = s5.m_freeOffset ∧
    (linkFF s5 c nn np).m_freeNodes = s5.m_freeNodes ∧
    (linkFF s5 c nn np).m_binIndices = s5.m_binIndices ∧
    (linkFF s5 c nn np).m_usedBins = s5.m_usedBins ∧
    (linkFF s5 c nn np).m_usedBinsTop = s5.m_usedBinsTop := by
  simp only [linkFF]
  split <;> split <;> exact ⟨rfl, rfl, rfl, rfl, rfl, rfl, rfl, rfl, rfl⟩

theorem patch5 {f : Nat → Node} {j : Nat} {v : Node}
    (h1 : v.dataOffset = (f j).dataOffset) (h2 : v.dataSize = (f j).dataSize)
    (h3 : v.used = (f j).used) (h4 : v.binListNext = (f j).binListNext)
    (h5 : v.binListPrev = (f j).binListPrev) (i : Nat) :
    ((upd f j v) i).dataOffset = (f i).dataOffset ∧
    ((upd f j v) i).dataSize = (f i).dataSize ∧
    ((upd f j v) i).used = (f i).used ∧
    ((upd f j v) i).binListNext = (f i).binListNext ∧
    ((upd f j v) i).binListPrev = (f i).binListPrev := by
  by_cases h : i = j
  · subst h
    rw [upd_same]
    exact ⟨h1, h2, h3, h4, h5⟩
  · rw [upd_ne h]
    exact ⟨rfl, rfl, rfl, rfl, rfl⟩

set_option maxHeartbeats 800000 in
/-- The relinking step changes only `neighborPrev`/`neighborNext` fields. -/
theorem linkFF_nodes5 (s5 : AllocState) (c nn np i : Nat) :
    ((linkFF s5 c nn np).m_nodes i).dataOffset = (s5.m_nodes i).dataOffset ∧
    ((linkFF s5 c nn np).m_nodes i).dataSize = (s5.m_nodes i).dataSize ∧
    ((linkFF s5 c nn np).m_nodes i).used = (s5.m_nodes i).used ∧
    ((linkFF s5 c nn np).m_nodes i).binListNext = (s5.m_nodes i).binListNext ∧
    ((linkFF s5 c nn np).m_nodes i).binListPrev = (s5.m_nodes i).binListPrev := by
  simp only [linkFF]
  split
  · split
    · have q1 := patch5 (f := s5.m_nodes) (j := c)
        (v := { s5.m_nodes c with neighborNext := nn }) rfl rfl rfl rfl rfl i
      have q2 := patch5 (f := upd s5.m_nodes c
          ({ s5.m_nodes c with neighborNext := nn })) (j := nn)
        (v := { (upd s5.m_nodes c ({ s5.m_nodes c with neighborNext := nn })) nn with
                neighborPrev := c }) rfl rfl rfl rfl rfl i
      set g2 := upd (upd s5.m_nodes c ({ s5.m_nodes c with neighborNext := nn })) nn
        ({ (upd s5.m_nodes c ({ s5.m_nodes c with neighborNext := nn })) nn with
           neighborPrev := c }) with hg2
      have q3 := patch5 (f := g2) (j := c)
        (v := { g2 c with neighborPrev := np }) rfl rfl rfl rfl rfl i
      have q4 := patch5 (f := upd g2 c ({ g2 c with neighborPrev := np })) (j := np)
        (v := { (upd g2 c ({ g2 c with neighborPrev := np })) np with neighborNext := c })
        rfl rfl rfl rfl rfl i
      refine ⟨?_, ?_, ?_, ?_, ?_⟩
      · exact (q4.1.trans q3.1).trans (q2.1.trans q1.1)
      · exact (q4.2.1.trans q3.2.1).trans (q2.2.1.trans q1.2.1)
      · exact (q4.2.2.1.trans q3.2.2.1).trans (q2.2.2.1.trans q1.2.2.1)
      · exact (q4.2.2.2.1.trans q3.2.2.2.1).trans (q2.2.2.2.1.trans q1.2.2.2.1)
      · exact (q4.2.2.2.2.trans q3.2.2.2.2).trans (q2.2.2.2.2.trans q1.2.2.2.2)
    · have q3 := patch5 (f := s5.m_nodes) (j := c)
        (v := { s5.m_nodes c with neighborPrev := np }) rfl rfl rfl rfl rfl i
      have q4 := patch5 (f := upd s5.m_nodes c
          ({ s5.m_nodes c with neighborPrev := np })) (j := np)
        (v := { (upd s5.m_nodes c ({ s5.m_nodes c with neighborPrev := np })) np with
                neighborNext := c }) rfl rfl rfl rfl rfl i
      exact ⟨q4.1.trans q3.1, q4.2.1.trans q3.2.1, q4.2.2.1.trans q3.2.2.1,
        q4.2.2.2.1.trans q3.2.2.2.1, q4.2.2.2.2.trans q3.2.2.2.2⟩
  · split
    · have q1 := patch5 (f := s5.m_nodes) (j := c)
        (v := { s5.m_nodes c with neighborNext := nn }) rfl rfl rfl rfl rfl i
      have q2 := patch5 (f := upd s5.m_nodes c
          ({ s5.m_nodes c with neighborNext := nn })) (j := nn)
        (v := { (upd s5.m_nodes c ({ s5.m_nodes c with neighborNext := nn })) nn with
                neighborPrev := c }) rfl rfl rfl rfl rfl i
      exact ⟨q2.1.trans q1.1, q2.2.1.trans q1.2.1, q2.2.2.1.trans q1.2.2.1,
        q2.2.2.2.1.trans q1.2.2.2.1, q2.2.2.2.2.trans q1.2.2.2.2⟩
    · exact ⟨rfl, rfl, rfl, rfl, rfl⟩

theorem linkFF_prv (s5 : AllocState) (c nn np i : Nat) (hic : i ≠ c)
    (hinn : nn ≠ UNUSED → i ≠ nn) :
    ((linkFF s5 c nn np).m_nodes i).neighborPrev = (s5.m_nodes i).neighborPrev := by
  simp only [linkFF]
  split
  · rename_i hnp
    split
    · rename_i hnn
      by_cases hnpi : i = np
      · subst hnpi
        simp only [upd_same, upd_ne hic, upd_ne (hinn hnn)]
      · simp only [upd_ne hnpi, upd_ne hic, upd_ne (hinn hnn)]
    · by_cases hnpi : i = np
      · subst hnpi
        simp only [upd_same, upd_ne hic]
      · simp only [upd_ne hnpi, upd_ne hic]
  · split
    · rename_i hnn
      simp only [upd_ne hic, upd_ne (hinn hnn)]
    · rfl

theorem linkFF_nxt (s5 : AllocState) (c nn np i : Nat) (hic : i ≠ c)
    (hinp : np ≠ UNUSED → i ≠ np) :
    ((linkFF s5 c nn np).m_nodes i).neighborNext = (s5.m_nodes i).neighborNext := by
  simp only [linkFF]
  split
  · rename_i hnp
    split
    · rename_i hnn
      by_cases hnni : i = nn
      · subst hnni
        simp only [upd_same, upd_ne hic, upd_ne (hinp hnp)]
      · simp only [upd_ne hnni, upd_ne hic, upd_ne (hinp hnp)]
    · simp only [upd_ne hic, upd_ne (hinp hnp)]
  · split
    · rename_i hnn
      by_cases hnni : i = nn
      · subst hnni
        simp only [upd_same, upd_ne hic]
      · simp only [upd_ne hnni, upd_ne hic]
    · rfl

theorem linkFF_c_prv (s5 : AllocState) (c nn np : Nat)
    (hcnp : np ≠ UNUSED → c ≠ np) (hcnn : nn ≠ UNUSED → c ≠ nn) :
    ((linkFF s5 c nn np).m_nodes c).neighborPrev =
      (if np ≠ UNUSED then np else (s5.m_nodes c).neighborPrev) := by
  simp only [linkFF]
  split
  · rename_i hnp
    split
    · rename_i hnn
      simp only [upd_ne (hcnp hnp), upd_same, upd_ne (hcnn hnn)]
    · simp only [upd_ne (hcnp hnp), upd_same]
  · split
    · rename_i hnn
      simp only [upd_ne (hcnn hnn), upd_same]
    · rfl

theorem linkFF_c_nxt (s5 : AllocState) (c nn np : Nat)
    (hcnp : np ≠ UNUSED → c ≠ np) (hcnn : nn ≠ UNUSED → c ≠ nn) :
    ((linkFF s5 c nn np).m_nodes c).neighborNext =
      (if nn ≠ UNUSED then nn else (s5.m_nodes c).neighborNext) := by
  simp only [linkFF]
  split
  · rename_i hnp
    split
    · rename_i hnn
      simp only [upd_ne (hcnp hnp), upd_same, upd_ne (hcnn hnn)]
    · simp only [upd_ne (hcnp hnp), upd_same]
  · split
    · rename_i hnn
      simp only [upd_ne (hcnn hnn), upd_same]
    · rfl

theorem linkFF_nn_prv (s5 : AllocState) (c nn np : Nat)
    (hnnU : nn ≠ UNUSED) (hnnc : nn ≠ c) (hnnnp : np ≠ UNUSED → nn ≠ np) :
    ((linkFF s5 c nn np).m_nodes nn).neighborPrev = c := by
  simp only [linkFF]
  by_cases hnp : np ≠ UNUSED
  · rw [if_pos hnp, if_pos hnnU]
    simp only [upd_ne (hnnnp hnp), upd_ne hnnc, upd_same]
  · rw [if_neg hnp, if_pos hnnU]
    simp only [upd_same]

theorem linkFF_np_nxt (s5 : AllocState) (c nn np : Nat)
    (hnpU : np ≠ UNUSED) :
    ((linkFF s5 c nn np).m_nodes np).neighborNext = c := by
  simp only [linkFF]
  rw [if_pos hnpU]
  by_cases hnn : nn ≠ UNUSED
  · rw [if_pos hnn]
    simp only [upd_same]
  · rw [if_neg hnn]
    simp only [upd_same]

set_option maxHeartbeats 1600000 in
/-- The last stage of `free`: push the handle, insert the combined node into
    its bin, reconnect the spatial neighbors; the invariant is restored. -/
theorem finishFree_spec {s s2 : AllocState} {L L1p R1 R2 L2p : List Nat}
    {B B2 : Nat → List Nat} {y offset1 size2 : Nat}
    (hI : InvW s L B)
    (hLdec : L = (L1p ++ R1) ++ y :: (R2 ++ L2p))
    (hyused : (s.m_nodes y).used = true)
    (hR1f : ∀ r ∈ R1, (s.m_nodes r).used = false)
    (hR2f : ∀ r ∈ R2, (s.m_nodes r).used = false)
    (hL1pu : L1p ≠ [] → (s.m_nodes (L1p.getLastD UNUSED)).used = true)
    (hL2pu : L2p ≠ [] → (s.m_nodes (L2p.headD UNUSED)).used = true)
    (hoff1 : offset1 = sumList (szF s) L1p)
    (hsz2 : size2 = (s.m_nodes y).dataSize + sumList (szF s) R1 + sumList (szF s) R2)
    (h2y : s2.m_nodes y =
      { s.m_nodes y with neighborPrev := L1p.getLastD UNUSED,
                         neighborNext := L2p.headD UNUSED })
    (h2F : ∀ i, i ≠ y →
      (s2.m_nodes i).dataOffset = (s.m_nodes i).dataOffset ∧
      (s2.m_nodes i).dataSize = (s.m_nodes i).dataSize ∧
      (s2.m_nodes i).used = (s.m_nodes i).used ∧
      (s2.m_nodes i).neighborPrev = (s.m_nodes i).neighborPrev ∧
      (s2.m_nodes i).neighborNext = (s.m_nodes i).neighborNext)
    (h2B : BinsWF s2 B2)
    (h2mem : ∀ b, b < NUM_LEAF_BINS → ∀ i, (i ∈ B2 b ↔ i ∈ B b ∧ i ∉ R1 ∧ i ∉ R2))
    (h2sz : s2.m_size = s.m_size) (h2ma : s2.m_maxAllocs = s.m_maxAllocs)
    (h2hn : s2.hasNodes = s.hasNodes)
    (h2fs : s2.m_freeStorage = s.m_freeStorage - sumList (szF s) R1 - sumList (szF s) R2)
    (h2fo : s2.m_freeOffset = sub32 s.m_maxAllocs (L.length - R1.length - R2.length))
    (h2mm : ∀ k, k < s.m_maxAllocs + 1 - (L.length - R1.length - R2.length) →
      s2.m_freeNodes k ≤ s.m_maxAllocs ∧ s2.m_freeNodes k ∉ L1p ++ y :: L2p)
    (h2dd : ∀ k1 k2, k1 < k2 → k2 < s.m_maxAllocs + 1 - (L.length - R1.length - R2.length) →
      s2.m_freeNodes k1 ≠ s2.m_freeNodes k2) :
    ∃ B3, InvW (finishFree s2 y offset1 size2) (L1p ++ y :: L2p) B3 ∧
      ((finishFree s2 y offset1 size2).m_nodes y).used = false ∧
      (∀ i, i ≠ y →
        ((finishFree s2 y offset1 size2).m_nodes i).used = (s.m_nodes i).used) ∧
      (finishFree s2 y offset1 size2).m_size = s.m_size ∧
      (finishFree s2 y offset1 size2).m_maxAllocs = s.m_maxAllocs ∧
      (finishFree s2 y offset1 size2).hasNodes = s.hasNodes := by
  have hmaxU : s.m_maxAllocs < U32 := by
    have h := hI.maxLt
    simp only [U32] at h ⊢
    omega
  have hszlt := hI.sizeLt
  -- nodup-derived membership facts
  have hnd := hI.chain.nodup
  rw [hLdec] at hnd
  have hnd1 : (L1p ++ R1).Nodup := (List.nodup_append.mp hnd).1
  have hndy : (y :: (R2 ++ L2p)).Nodup := (List.nodup_append.mp hnd).2.1
  have hdisj : (L1p ++ R1).Disjoint (y :: (R2 ++ L2p)) := (List.nodup_append.mp hnd).2.2
  have hndR1 : R1.Nodup := (List.nodup_append.mp hnd1).2.1
  have hyR2L2p : y ∉ R2 ++ L2p := (List.nodup_cons.mp hndy).1
  have hnd2 : (R2 ++ L2p).Nodup := (List.nodup_cons.mp hndy).2
  have hndR2 : R2.Nodup := (List.nodup_append.mp hnd2).1
  have hyL1p : y ∉ L1p := by
    intro hc
    exact hdisj (List.mem_append_left _ hc) (List.mem_cons_self _ _)
  have hyL2p : y ∉ L2p := fun hc => hyR2L2p (List.mem_append_right _ hc)
  have hL1pL2p : ∀ i ∈ L1p, i ∉ L2p := by
    intro i hi hc
    exact hdisj (List.mem_append_left _ hi)
      (List.mem_cons_of_mem _ (List.mem_append_right _ hc))
  have hR1R2 : R1.Disjoint R2 := by
    intro a ha hc
    exact hdisj (List.mem_append_right _ ha)
      (List.mem_cons_of_mem _ (List.mem_append_left _ hc))
  have hmemL : ∀ i, i ∈ L1p ++ y :: L2p → i ∈ L := by
    intro i hi
    rw [hLdec]
    rcases List.mem_append.mp hi with h1 | h2
    · exact List.mem_append_left _ (List.mem_append_left _ h1)
    · rcases List.mem_cons.mp h2 with h3 | h4
      · exact List.mem_append_right _ (h3 ▸ List.mem_cons_self _ _)
      · exact List.mem_append_right _
          (List.mem_cons_of_mem _ (List.mem_append_right _ h4))
  have hR1L : ∀ i ∈ R1, i ∈ L := by
    intro i hi
    rw [hLdec]
    exact List.mem_append_left _ (List.mem_append_right _ hi)
  have hR2L : ∀ i ∈ R2, i ∈ L := by
    intro i hi
    rw [hLdec]
    exact List.mem_append_right _ (List.mem_cons_of_mem _ (List.mem_append_left _ hi))
  -- totals and bounds
  have htotd := hI.chain.total
  rw [hLdec, sumList_append, sumList_append, sumList_cons, sumList_append] at htotd
  have ey : szF s y = (s.m_nodes y).dataSize := rfl
  rw [ey] at htotd
  have hcnt := hI.stack.count
  have hlen : L.length = L1p.length + R1.length + (1 + (R2.length + L2p.length)) := by
    rw [hLdec]
    simp only [List.length_append, List.length_cons]
    omega
  have hfsle : s.m_freeStorage ≤ s.m_size := by
    rw [hI.storage, ← hI.chain.total]
    exact sumList_filter_le
  have hRle : sumList (szF s) R1 + sumList (szF s) R2 ≤ s.m_freeStorage := by
    have hndc : (R1 ++ R2).Nodup := by
      rw [List.nodup_append]
      exact ⟨hndR1, hndR2, hR1R2⟩
    have hsub : ∀ i ∈ R1 ++ R2, i ∈ L.filter (fun j => (s.m_nodes j).used = false) := by
      intro i hi
      rw [List.mem_filter]
      rcases List.mem_append.mp hi with h1 | h2
      · exact ⟨hR1L i h1, by simp [hR1f i h1]⟩
      · exact ⟨hR2L i h2, by simp [hR2f i h2]⟩
    have h := sumList_subset_le (f := szF s) hndc hsub
    rw [sumList_append, ← hI.storage] at h
    exact h
  have hfsy : s.m_freeStorage + (s.m_nodes y).dataSize ≤ s.m_size := by
    have hyL : y ∈ L := hmemL y (List.mem_append_right _ (List.mem_cons_self _ _))
    have hynf : y ∉ L.filter (fun j => (s.m_nodes j).used = false) := by
      intro hc
      have := List.mem_filter.mp hc
      rw [hyused] at this
      simp at this
    have hndc : (y :: L.filter (fun j => (s.m_nodes j).used = false)).Nodup :=
      List.nodup_cons.mpr ⟨hynf, hI.chain.nodup.filter _⟩
    have hsub : ∀ i ∈ y :: L.filter (fun j => (s.m_nodes j).used = false), i ∈ L := by
      intro i hi
      rcases List.mem_cons.mp hi with h1 | h2
      · exact h1 ▸ hyL
      · exact List.mem_of_mem_filter h2
    have h := sumList_subset_le (f := szF s) hndc hsub
    rw [sumList_cons, ← hI.storage, hI.chain.total, ey] at h
    omega
  have hsize2lt : size2 < U32 := by
    rw [hsz2]
    omega
  have hbinlt : uintToSmallFloatRoundDown size2 < NUM_LEAF_BINS := by
    have h := roundDown_le_239 hsize2lt
    simp only [NUM_LEAF_BINS]
    omega
  -- neighbor-index facts
  have hNNmem : L2p.headD UNUSED ≠ UNUSED → L2p.headD UNUSED ∈ L2p := by
    intro h
    cases L2p with
    | nil => simp at h
    | cons a t => simp
  have hNPmem : L1p.getLastD UNUSED ≠ UNUSED → L1p.getLastD UNUSED ∈ L1p := by
    intro h
    cases L1p with
    | nil => simp at h
    | cons a t => exact mem_getLastD _ _ (by intro hcc; cases hcc)
  have hYNN : L2p.headD UNUSED ≠ UNUSED → y ≠ L2p.headD UNUSED := by
    intro h hc
    exact hyL2p (hc ▸ hNNmem h)
  have hYNP : L1p.getLastD UNUSED ≠ UNUSED → y ≠ L1p.getLastD UNUSED := by
    intro h hc
    exact hyL1p (hc ▸ hNPmem h)
  have hNNNP : L1p.getLastD UNUSED ≠ UNUSED →
      L2p.headD UNUSED ≠ L1p.getLastD UNUSED := by
    intro h hc
    by_cases h2 : L2p.headD UNUSED ≠ UNUSED
    · exact hL1pL2p _ (hNPmem h) (hc ▸ hNNmem h2)
    · rw [not_not] at h2
      rw [h2] at hc
      exact h (hc.symm)
  have hboundNN : L2p ≠ [] → L2p.headD UNUSED ≠ UNUSED := by
    intro hne hc
    have hmem : L2p.headD UNUSED ∈ L2p := mem_headD hne
    have h1 := hI.chain.bounded _ (hmemL _
      (List.mem_append_right _ (List.mem_cons_of_mem _ hmem)))
    have h2 := hI.maxLt
    rw [hc] at h1
    simp only [UNUSED] at h1
    simp only [U32] at h2
    omega
  have hboundNP : L1p ≠ [] → L1p.getLastD UNUSED ≠ UNUSED := by
    intro hne hc
    have hmem : L1p.getLastD UNUSED ∈ L1p := mem_getLastD _ _ hne
    have h1 := hI.chain.bounded _ (hmemL _ (List.mem_append_left _ hmem))
    have h2 := hI.maxLt
    rw [hc] at h1
    simp only [UNUSED] at h1
    simp only [U32] at h2
    omega
  -- the push stage
  have e4fo : (pushFF s2 y).m_freeOffset = add32 s2.m_freeOffset 1 := rfl
  have e4fn : (pushFF s2 y).m_freeNodes =
      upd s2.m_freeNodes (add32 s2.m_freeOffset 1) y := rfl
  have hB4 : BinsWF (pushFF s2 y) B2 :=
    BinsWF_congr (s := s2) rfl rfl rfl (fun _ => ⟨rfl, rfl, rfl, rfl⟩) h2B
  have hjval : (pushFF s2 y).m_freeNodes ((pushFF s2 y).m_freeOffset) = y := upd_same
  have hElem4 : ∀ b, b < NUM_LEAF_BINS → ∀ i ∈ B2 b, i ≠ UNUSED := by
    intro b hb i hi hc
    have hiB := ((h2mem b hb i).mp hi).1
    have h1 := hI.chain.bounded i (hI.binsSub b hb i hiB)
    have h2 := hI.maxLt
    rw [hc] at h1
    simp only [UNUSED] at h1
    simp only [U32] at h2
    omega
  have hjB4 : ∀ b, b < NUM_LEAF_BINS →
      (pushFF s2 y).m_freeNodes ((pushFF s2 y).m_freeOffset) ∉ B2 b := by
    intro b hb hc
    rw [hjval] at hc
    have hyB := ((h2mem b hb y).mp hc).1
    have h2 := (hI.bins.memCls b hb y hyB).2
    rw [hyused] at h2
    simp at h2
  have hins := insertNodeIntoBin_spec (o := offset1) hB4 hbinlt hjB4 hElem4
  rw [hjval] at hins
  obtain ⟨i1, i2, i3, i4, i5, i6, i7, i8, i9, i10, i11, i12⟩ := hins
  set sI := (insertNodeIntoBin (pushFF s2 y) size2 offset1).1 with hs5
  clear_value sI
  have hfo2lt : s2.m_freeOffset < U32 := by
    rw [h2fo]
    exact sub32_lt _ _
  have i6' : sI.m_freeOffset = s2.m_freeOffset := by
    rw [i6, e4fo, sub32_add32_one hfo2lt]
  have i7' : sI.m_freeStorage = add32 s2.m_freeStorage size2 := i7
  have i5' : sI.m_freeNodes = upd s2.m_freeNodes (add32 s2.m_freeOffset 1) y := by
    rw [i5, e4fn]
  have hI5F : ∀ i, i ≠ y →
      (sI.m_nodes i).dataOffset = (s.m_nodes i).dataOffset ∧
      (sI.m_nodes i).dataSize = (s.m_nodes i).dataSize ∧
      (sI.m_nodes i).used = (s.m_nodes i).used ∧
      (sI.m_nodes i).neighborPrev = (s.m_nodes i).neighborPrev ∧
      (sI.m_nodes i).neighborNext = (s.m_nodes i).neighborNext := by
    intro i hiy
    have ha := i11 i hiy
    have hb := h2F i hiy
    exact ⟨ha.1.trans hb.1, ha.2.1.trans hb.2.1, ha.2.2.1.trans hb.2.2.1,
      ha.2.2.2.1.trans hb.2.2.2.1, ha.2.2.2.2.trans hb.2.2.2.2⟩
  -- the final state
  have hw : finishFree s2 y offset1 size2 =
      linkFF sI y (L2p.headD UNUSED) (L1p.getLastD UNUSED) := by
    have hNNv : (s2.m_nodes y).neighborNext = L2p.headD UNUSED := by rw [h2y]
    have hNPv : (s2.m_nodes y).neighborPrev = L1p.getLastD UNUSED := by rw [h2y]
    rw [finishFree_eq, i1, hNNv, hNPv, ← hs5]
  have hfr := linkFF_frame sI y (L2p.headD UNUSED) (L1p.getLastD UNUSED)
  have hn5 := fun i => linkFF_nodes5 sI y (L2p.headD UNUSED) (L1p.getLastD UNUSED) i
  have hwsz : (finishFree s2 y offset1 size2).m_size = s.m_size := by
    rw [hw]
    exact hfr.1.trans (i2.trans h2sz)
  have hwma : (finishFree s2 y offset1 size2).m_maxAllocs = s.m_maxAllocs := by
    rw [hw]
    exact hfr.2.1.trans (i3.trans h2ma)
  have hwhn : (finishFree s2 y offset1 size2).hasNodes = s.hasNodes := by
    rw [hw]
    exact hfr.2.2.1.trans (i4.trans h2hn)
  have hwfs : (finishFree s2 y offset1 size2).m_freeStorage =
      s.m_freeStorage + (s.m_nodes y).dataSize := by
    rw [hw, hfr.2.2.2.1, i7', h2fs, hsz2, add32_eq (by omega)]
    omega
  have hcnteq : L.length - R1.length - R2.length = L1p.length + 1 + L2p.length := by
    omega
  have hwfo : (finishFree s2 y offset1 size2).m_freeOffset =
      sub32 s.m_maxAllocs (L1p.length + 1 + L2p.length) := by
    rw [hw, hfr.2.2.2.2.1, i6', h2fo, hcnteq]
  have hslot : add32 s2.m_freeOffset 1 =
      s.m_maxAllocs + 1 - (L1p.length + 1 + L2p.length) := by
    rw [h2fo, hcnteq]
    refine slot_top_eq (by omega) (by omega) hI.maxLt
  have hwfn : (finishFree s2 y offset1 size2).m_freeNodes =
      upd s2.m_freeNodes (add32 s2.m_freeOffset 1) y := by
    rw [hw, hfr.2.2.2.2.2.1, i5']
  have hwmm : ∀ k, k < s.m_maxAllocs + 1 - (L1p.length + 1 + L2p.length) →
      (finishFree s2 y offset1 size2).m_freeNodes k ≤ s.m_maxAllocs ∧
      (finishFree s2 y offset1 size2).m_freeNodes k ∉ L1p ++ y :: L2p := by
    intro k hk
    rw [hwfn]
    have hkne : k ≠ add32 s2.m_freeOffset 1 := by
      rw [hslot]
      omega
    rw [upd_ne hkne]
    exact h2mm k (by omega)
  have hwdd : ∀ k1 k2, k1 < k2 →
      k2 < s.m_maxAllocs + 1 - (L1p.length + 1 + L2p.length) →
      (finishFree s2 y offset1 size2).m_freeNodes k1 ≠
        (finishFree s2 y offset1 size2).m_freeNodes k2 := by
    intro k1 k2 h12 hk2
    rw [hwfn]
    have hk2ne : k2 ≠ add32 s2.m_freeOffset 1 := by
      rw [hslot]
      omega
    have hk1ne : k1 ≠ add32 s2.m_freeOffset 1 := by
      rw [hslot]
      omega
    rw [upd_ne hk1ne, upd_ne hk2ne]
    exact h2dd k1 k2 h12 (by omega)
  -- node-level facts of the final state
  have hwyo : ((finishFree s2 y offset1 size2).m_nodes y).dataOffset = offset1 := by
    rw [hw]
    refine ((hn5 y).1).trans ?_
    rw [i9]
  have hwys : ((finishFree s2 y offset1 size2).m_nodes y).dataSize = size2 := by
    rw [hw]
    refine ((hn5 y).2.1).trans ?_
    rw [i9]
  have hwyu : ((finishFree s2 y offset1 size2).m_nodes y).used = false := by
    rw [hw]
    refine ((hn5 y).2.2.1).trans ?_
    rw [i9]
  have hwyp : ((finishFree s2 y offset1 size2).m_nodes y).neighborPrev =
      L1p.getLastD UNUSED := by
    rw [hw, linkFF_c_prv sI y _ _ hYNP hYNN]
    by_cases hNPU : L1p.getLastD UNUSED ≠ UNUSED
    · rw [if_pos hNPU]
    · rw [if_neg hNPU, i9]
      rw [not_not] at hNPU
      rw [hNPU]
  have hwyn : ((finishFree s2 y offset1 size2).m_nodes y).neighborNext =
      L2p.headD UNUSED := by
    rw [hw, linkFF_c_nxt sI y _ _ hYNP hYNN]
    by_cases hNNU : L2p.headD UNUSED ≠ UNUSED
    · rw [if_pos hNNU]
    · rw [if_neg hNNU, i9]
      rw [not_not] at hNNU
      rw [hNNU]
  have hoffsz : ∀ i, i ≠ y →
      ((finishFree s2 y offset1 size2).m_nodes i).dataOffset = (s.m_nodes i).dataOffset ∧
      ((finishFree s2 y offset1 size2).m_nodes i).dataSize = (s.m_nodes i).dataSize ∧
      ((finishFree s2 y offset1 size2).m_nodes i).used = (s.m_nodes i).used := by
    intro i hiy
    rw [hw]
    exact ⟨(hn5 i).1.trans (hI5F i hiy).1, (hn5 i).2.1.trans (hI5F i hiy).2.1,
      (hn5 i).2.2.1.trans (hI5F i hiy).2.2.1⟩
  have hprv : ∀ i, i ≠ y → (L2p = [] ∨ i ≠ L2p.headD UNUSED) →
      ((finishFree s2 y offset1 size2).m_nodes i).neighborPrev =
        (s.m_nodes i).neighborPrev := by
    intro i hiy hor
    rw [hw]
    have h1 : L2p.headD UNUSED ≠ UNUSED → i ≠ L2p.headD UNUSED := by
      intro hne
      rcases hor with h2 | h2
      · rw [h2] at hne
        simp at hne
      · exact h2
    exact (linkFF_prv sI y _ _ i hiy h1).trans (hI5F i hiy).2.2.2.1
  have hnxt : ∀ i, i ≠ y → (L1p = [] ∨ i ≠ L1p.getLastD UNUSED) →
      ((finishFree s2 y offset1 size2).m_nodes i).neighborNext =
        (s.m_nodes i).neighborNext := by
    intro i hiy hor
    rw [hw]
    have h1 : L1p.getLastD UNUSED ≠ UNUSED → i ≠ L1p.getLastD UNUSED := by
      intro hne
      rcases hor with h2 | h2
      · rw [h2] at hne
        simp at hne
      · exact h2
    exact (linkFF_nxt sI y _ _ i hiy h1).trans (hI5F i hiy).2.2.2.2
  have hwNNp : L2p ≠ [] →
      ((finishFree s2 y offset1 size2).m_nodes (L2p.headD UNUSED)).neighborPrev = y := by
    intro hne
    rw [hw]
    exact linkFF_nn_prv sI y _ _ (hboundNN hne)
      (fun hc => hYNN (hboundNN hne) hc.symm) hNNNP
  have hwNPn : L1p ≠ [] →
      ((finishFree s2 y offset1 size2).m_nodes (L1p.getLastD UNUSED)).neighborNext
        = y := by
    intro hne
    rw [hw]
    exact linkFF_np_nxt sI y _ _ (hboundNP hne)
  have hwB : BinsWF (finishFree s2 y offset1 size2)
      (upd B2 (uintToSmallFloatRoundDown size2)
        (y :: B2 (uintToSmallFloatRoundDown size2))) := by
    refine BinsWF_congr ?_ ?_ ?_ ?_ i12
    · rw [hw]
      exact hfr.2.2.2.2.2.2.1
    · rw [hw]
      exact hfr.2.2.2.2.2.2.2.1
    · rw [hw]
      exact hfr.2.2.2.2.2.2.2.2
    · intro i
      rw [hw]
      exact ⟨(hn5 i).2.2.2.1, (hn5 i).2.2.2.2, (hn5 i).2.1, (hn5 i).2.2.1⟩
  have hB3mem : ∀ b, b < NUM_LEAF_BINS → ∀ i,
      (i ∈ upd B2 (uintToSmallFloatRoundDown size2)
          (y :: B2 (uintToSmallFloatRoundDown size2)) b ↔
        (i ∈ B b ∧ i ∉ R1 ∧ i ∉ R2) ∨
          (b = uintToSmallFloatRoundDown size2 ∧ i = y)) := by
    intro b hb i
    by_cases hbf : b = uintToSmallFloatRoundDown size2
    · subst hbf
      rw [upd_same]
      constructor
      · intro hi
        rcases List.mem_cons.mp hi with h1 | h2
        · exact Or.inr ⟨rfl, h1⟩
        · exact Or.inl ((h2mem _ hb i).mp h2)
      · intro hor
        rcases hor with h1 | h2
        · exact List.mem_cons_of_mem _ ((h2mem _ hb i).mpr h1)
        · rw [h2.2]
          exact List.mem_cons_self _ _
    · rw [upd_ne hbf]
      constructor
      · intro hi
        exact Or.inl ((h2mem b hb i).mp hi)
      · intro hor
        rcases hor with h1 | h2
        · exact (h2mem b hb i).mpr h1
        · exact absurd h2.1 hbf
  refine ⟨upd B2 (uintToSmallFloatRoundDown size2)
    (y :: B2 (uintToSmallFloatRoundDown size2)), ?_, hwyu, ?_, hwsz, hwma, hwhn⟩
  · exact free_assemble hI hLdec hyused hR1f hR2f hL1pu hL2pu hsz2 hoff1
      hwyo hwys hwyu hwyp hwyn hoffsz hprv hnxt hwNNp hwNPn hwB hB3mem
      hwsz hwma hwhn hwfs hwfo hwmm hwdd
  · intro i hiy
    exact (hoffsz i hiy).2.2

/-- `free` on a live, used node restores the allocator invariant: the freed
    node is merged with any free spatial neighbors, re-inserted as a free
    node, and no other node's `used` flag changes. -/
theorem free_spec {s : AllocState} {L : List Nat} {B : Nat → List Nat}
    (hI : InvW s L B) {y : Nat} (hyL : y ∈ L)
    (hyused : (s.m_nodes y).used = true) :
    ∃ L2 B2, InvW (free s y) L2 B2 ∧ y ∈ L2 ∧
      ((free s y).m_nodes y).used = false ∧
      (∀ i, i ≠ y → ((free s y).m_nodes i).used = (s.m_nodes i).used) ∧
      (free s y).m_size = s.m_size ∧
      (free s y).m_maxAllocs = s.m_maxAllocs ∧
      (free s y).hasNodes = s.hasNodes := by
  have hyNO : y ≠ NO_SPACE := by
    intro hc
    have h1 := hI.chain.bounded y hyL
    have h2 := hI.maxLt
    rw [hc] at h1
    simp only [NO_SPACE] at h1
    simp only [U32] at h2
    omega
  have hfe := free_eq_stages s y
  rw [if_neg (by
    intro hc
    rcases hc with h1 | h2
    · exact hyNO h1
    · rw [hI.hasN] at h2
      cases h2)] at hfe
  obtain ⟨L1, L2, hLdec⟩ := List.append_of_mem hyL
  obtain ⟨L1p, R1, B1, m1, m2, m3, m4, m5, m6, m7, m8, m9, m10, m11, m12, m13,
    m14, m15, m16, m17⟩ := mergePrev_spec hI hLdec hyused
  rw [m1] at hLdec
  obtain ⟨L2p, R2, B2', n1, n2, n3, n4, n5, n6, n7, n8, n9, n10, n11, n12, n13,
    n14, n15, n16⟩ := mergeNext_spec hI hLdec hyused m6 m14 m15 m16 m17 m7 m8 m9
      m10 m11 m12 m13 m3
  rw [n1] at hLdec
  obtain ⟨B3, hInv, hufalse, hframe, hsz, hma, hhn⟩ :=
    finishFree_spec hI hLdec hyused m3 n3 m4 n4 m5 n5 n13 n14 n15 n16 n6 n7 n8
      n9 n10 n11 n12
  rw [hfe]
  exact ⟨L1p ++ y :: L2p, B3, hInv,
    List.mem_append_right _ (List.mem_cons_self _ _),
    hufalse, hframe, hsz, hma, hhn⟩


/-- On a pre-`reset` state, `allocate` returns the sentinel and does not touch
    the state: the bitmaps are all zero, so both searches fail. -/
theorem allocate_preInit {s : AllocState} (h : PreInit s) (n : Nat) :
    allocate s n = (s, ({} : Alloc)) := by
  obtain ⟨hhn, hub, hfo, hsz, hma⟩ := h
  simp [allocate, findLowestSetBitAfter, hfo, hub, NO_SPACE]

/-- The `free` guard: sentinel handle or missing node array means no-op. -/
theorem free_noop {s : AllocState} {i : Nat}
    (h : i = NO_SPACE ∨ s.hasNodes = false) : free s i = s := by
  simp only [free]
  rw [if_pos h]

theorem reset_size {s : AllocState} {n : Nat} : (reset s n).m_size = n := by
  by_cases h : s.m_size = n
  · rw [reset_noop h]; exact h
  · rw [reset_ne h]

theorem reset_maxA {s : AllocState} {n : Nat} :
    (reset s n).m_maxAllocs = s.m_maxAllocs := by
  by_cases h : s.m_size = n
  · rw [reset_noop h]
  · rw [reset_ne h]

theorem reset_node0_unused {s : AllocState} {n : Nat} (hne : s.m_size ≠ n) :
    ((reset s n).m_nodes 0).used = false := by
  rw [reset_ne hne]
  rfl

theorem reset_freeOffset {s : AllocState} {n : Nat} (hne : s.m_size ≠ n) :
    (reset s n).m_freeOffset = sub32 s.m_maxAllocs 1 := by
  rw [reset_ne hne]

theorem good_maxlt {s : AllocState} (h : GoodState s) :
    s.m_maxAllocs ≤ U32 - 2 := by
  rcases h with hP | ⟨L, B, hI⟩
  · exact hP.2.2.2.2
  · exact hI.maxLt

theorem initState_preInit (m : Nat) (hm : m ≤ U32 - 2) : PreInit (initState m) :=
  ⟨rfl, rfl, rfl, rfl, hm⟩

theorem good_reset {s : AllocState} (h : GoodState s) {n : Nat} (hn : n < U32) :
    GoodState (reset s n) := by
  by_cases he : s.m_size = n
  · rw [reset_noop he]
    exact h
  · exact Or.inr ⟨[0], _, reset_invW he hn (good_maxlt h)⟩

theorem good_alloc {s : AllocState} (h : GoodState s) {n : Nat} (hn : n < U32) :
    GoodState (allocate s n).1 ∧ (allocate s n).1.m_size = s.m_size := by
  rcases h with hP | ⟨L, B, hI⟩
  · rw [allocate_preInit hP]
    exact ⟨Or.inl hP, rfl⟩
  · rcases allocate_spec hI hn with heq |
      ⟨L1, B1, x, hI1, _, _, _, _, _, _, _, hsz1, _, _, _, _⟩
    · rw [heq]
      exact ⟨Or.inr ⟨L, B, hI⟩, rfl⟩
    · exact ⟨Or.inr ⟨L1, B1, hI1⟩, hsz1⟩

theorem good_free {s : AllocState} (h : GoodState s) {m : Nat}
    (hv : m = NO_SPACE ∨ ((s.m_nodes m).used = true ∧ m ≤ s.m_maxAllocs)) :
    GoodState (free s m) ∧ (free s m).m_size = s.m_size := by
  rcases h with hP | ⟨L, B, hI⟩
  · rw [free_noop (Or.inr hP.1)]
    exact ⟨Or.inl hP, rfl⟩
  · rcases hv with hm | ⟨hu, hb⟩
    · rw [free_noop (Or.inl hm)]
      exact ⟨Or.inr ⟨L, B, hI⟩, rfl⟩
    · have hmL : m ∈ L := by
        by_contra hc
        have h2 := hI.unusedOut m hb hc
        rw [hu] at h2
        cases h2
      obtain ⟨L2, B2, hI2, _, _, _, hsz, _, _⟩ := free_spec hI hmL hu
      exact ⟨Or.inr ⟨L2, B2, hI2⟩, hsz⟩

theorem reachable_good {s : AllocState} (h : Reachable s) : GoodState s := by
  induction h with
  | init m hm => exact Or.inl (initState_preInit m hm)
  | reset s n hn hs ih => exact good_reset ih hn
  | alloc s n hn hs ih => exact (good_alloc ih hn).1
  | dealloc s m hs hv ih => exact (good_free ih hv).1

theorem af_good {u t : AllocState} (h : AFReach u t) (hg : GoodState u) :
    GoodState t ∧ t.m_size = u.m_size := by
  induction h with
  | refl => exact ⟨hg, rfl⟩
  | alloc t n hn h ih =>
    obtain ⟨hG, hsz⟩ := ih
    have h2 := good_alloc hG hn
    exact ⟨h2.1, h2.2.trans hsz⟩
  | dealloc t m hr hv ih =>
    obtain ⟨hG, hsz⟩ := ih
    have h2 := good_free hG hv
    exact ⟨h2.1, h2.2.trans hsz⟩

theorem good_tiles {t : AllocState} {S : Nat} (hG : GoodState t)
    (hsz : t.m_size = S) : TilesAndLinked t S := by
  rcases hG with hP | ⟨L, B, hI⟩
  · have h0 := hP.2.2.2.1
    refine ⟨[], trivial, ?_, trivial, ?_⟩
    · simp only [sumList_nil]
      omega
    · simp only [List.filter_nil, sumList_nil]
      omega
  · refine ⟨L, hI.chain.spans, ?_, hI.chain.links, ?_⟩
    · rw [hI.chain.total, hsz]
    · have h := sum_filter_split (f := szF t)
        (p := fun i => decide ((t.m_nodes i).used = false)) (l := L)
      have hco : L.filter (fun i => !(decide ((t.m_nodes i).used = false))) =
          L.filter (fun i => decide ((t.m_nodes i).used = true)) := by
        refine List.filter_congr ?_
        intro a _
        cases hu : (t.m_nodes a).used <;> simp [hu]
      rw [hco] at h
      rw [h, hI.chain.total, hsz]

/-- If filtering does not shrink a list, the predicate holds everywhere. -/
theorem filter_len_all {p : Nat → Bool} :
    ∀ {l : List Nat}, (l.filter p).length = l.length → ∀ a ∈ l, p a = true := by
  intro l
  induction l with
  | nil => intro _ a ha; cases ha
  | cons b t ih =>
    intro hlen a ha
    rw [List.filter_cons] at hlen
    by_cases hb : p b = true
    · rw [if_pos hb] at hlen
      simp only [List.length_cons] at hlen
      rcases List.mem_cons.mp ha with h | h
      · rw [h]; exact hb
      · exact ih (by omega) a h
    · rw [if_neg hb] at hlen
      have := List.length_filter_le p t
      simp only [List.length_cons] at hlen
      omega

/-- When the number of used live nodes has reached `m_maxAllocs`, `allocate`
    fails: either the handle stack is exhausted, or every live node is used. -/
theorem allocate_at_cap {s : AllocState} {L : List Nat} {B : Nat → List Nat}
    (hI : InvW s L B) {n : Nat} (hn : n < U32)
    (hcap : s.m_maxAllocs ≤ (L.filter (fun i => (s.m_nodes i).used)).length) :
    allocate s n = (s, ({} : Alloc)) := by
  by_cases hoff : s.m_freeOffset = NO_SPACE
  · exact allocate_noSpace hoff
  · have hlenle := hI.stack.count
    have hne1 : L.length ≤ s.m_maxAllocs := by
      by_contra hc
      apply hoff
      rw [hI.stack.off, show L.length = s.m_maxAllocs + 1 from by omega]
      rw [sub32_eq_NO_SPACE_iff (by omega) hI.maxLt]
    have hfle : (L.filter (fun i => (s.m_nodes i).used)).length ≤ L.length :=
      List.length_filter_le _ _
    have hall : ∀ i ∈ L, (s.m_nodes i).used = true :=
      filter_len_all (by omega)
    exact allocate_fail_all_used hI hn hall

/-- Running a list of `allocate` calls that all succeed increases the used
    live-node count by the number of calls, and preserves the invariant. -/
theorem allocateSeq_count :
    ∀ (ns : List Nat) {s : AllocState} {L : List Nat} {B : Nat → List Nat},
    InvW s L B → (∀ n ∈ ns, n < U32) →
    (∀ a ∈ (allocateSeq s ns).2, a.metadata ≠ NO_SPACE) →
    ∃ L2 B2, InvW (allocateSeq s ns).1 L2 B2 ∧
      (allocateSeq s ns).1.m_maxAllocs = s.m_maxAllocs ∧
      (L2.filter (fun i => ((allocateSeq s ns).1.m_nodes i).used)).length =
        (L.filter (fun i => (s.m_nodes i).used)).length + ns.length := by
  intro ns
  induction ns with
  | nil =>
    intro s L B hI _ _
    exact ⟨L, B, hI, rfl, rfl⟩
  | cons n t ih =>
    intro s L B hI hns hsucc
    have hn : n < U32 := hns n (List.mem_cons_self _ _)
    have e2 : (allocateSeq s (n :: t)).2 =
        (allocate s n).2 :: (allocateSeq (allocate s n).1 t).2 := rfl
    have hsucc_head : (allocate s n).2.metadata ≠ NO_SPACE := by
      refine hsucc _ ?_
      rw [e2]
      exact List.mem_cons_self _ _
    rcases allocate_spec hI hn with heq |
      ⟨L1, B1, x, hI1, halloc, hxL, hxle, hxfree, hdsz, hxused, hhn1, hsz1,
        hma1, hframe1, hlen1, hcnt1⟩
    · exfalso
      apply hsucc_head
      rw [heq]
    · have e1 : (allocateSeq s (n :: t)).1 = (allocateSeq (allocate s n).1 t).1 := rfl
      have hsucc2 : ∀ a ∈ (allocateSeq (allocate s n).1 t).2,
          a.metadata ≠ NO_SPACE := by
        intro a ha
        refine hsucc a ?_
        rw [e2]
        exact List.mem_cons_of_mem _ ha
      obtain ⟨L2, B2, hI2, hma2, hcnt2⟩ :=
        ih hI1 (fun m hm => hns m (List.mem_cons_of_mem _ hm)) hsucc2
      refine ⟨L2, B2, ?_, ?_, ?_⟩
      · rw [e1]; exact hI2
      · rw [e1, hma2, hma1]
      · rw [e1, hcnt2, hcnt1]
        simp only [List.length_cons]
        omega

/-- If every live node of an invariant state is free and the managed size is
    positive, there is exactly one live node and it spans the whole region. -/
theorem all_free_single {s : AllocState} {L : List Nat} {B : Nat → List Nat}
    (hI : InvW s L B) (hall : ∀ i ∈ L, (s.m_nodes i).used = false)
    (hpos : 0 < s.m_size) :
    ∃ z, L = [z] ∧ (s.m_nodes z).dataOffset = 0 ∧
      (s.m_nodes z).dataSize = s.m_size ∧ s.m_freeStorage = s.m_size := by
  cases L with
  | nil =>
    exfalso
    have := hI.chain.total
    simp only [sumList_nil] at this
    omega
  | cons z tl =>
    cases tl with
    | nil =>
      refine ⟨z, rfl, ?_, ?_, ?_⟩
      · exact hI.chain.spans.1
      · have := hI.chain.total
        simp only [sumList_cons, sumList_nil] at this
        have e : szF s z = (s.m_nodes z).dataSize := rfl
        omega
      · rw [hI.storage]
        have hz : (s.m_nodes z).used = false := hall z (List.mem_cons_self _ _)
        have hf : ([z].filter (fun i => decide ((s.m_nodes i).used = false))) = [z] := by
          simp [List.filter_cons, hz]
        rw [hf]
        have := hI.chain.total
        simp only [sumList_cons, sumList_nil] at this ⊢
        have e : szF s z = (s.m_nodes z).dataSize := rfl
        omega
    | cons w tl2 =>
      exfalso
      have hadj := (List.chain'_cons.mp hI.chain.coalesced).1
      have hz : usedF s z = false := hall z (List.mem_cons_self _ _)
      have hw : usedF s w = false :=
        hall w (List.mem_cons_of_mem _ (List.mem_cons_self _ _))
      rcases hadj with h | h
      · rw [hz] at h; cases h
      · rw [hw] at h; cases h

/-- When the handle stack is not in its `m_freeOffset = 0` corner state, the
    reported total free space is the `m_freeStorage` counter. -/
theorem storageReport_total {s : AllocState} (hfo : s.m_freeOffset ≠ 0) :
    (storageReport s).totalFreeSpace = s.m_freeStorage := by
  simp only [storageReport]
  rw [if_neg hfo]
  split <;> rfl

theorem storageReport_largest_zero {s : AllocState} (hfo : s.m_freeOffset ≠ 0)
    (hub : s.m_usedBinsTop = 0) :
    (storageReport s).largestFreeRegion = 0 := by
  simp only [storageReport]
  rw [if_neg hfo, if_neg (by simp [hub])]

theorem storageReport_largest_ne {s : AllocState} (hfo : s.m_freeOffset ≠ 0)
    (hub : s.m_usedBinsTop ≠ 0) :
    (storageReport s).largestFreeRegion =
      smallFloatToUint (((31 - lzcnt_nonzero s.m_usedBinsTop) <<<
          TOP_BINS_INDEX_SHIFT) |||
        (31 - lzcnt_nonzero (s.m_usedBins (31 - lzcnt_nonzero s.m_usedBinsTop)))) := by
  simp only [storageReport]
  rw [if_neg hfo, if_pos hub]

/-- An all-zero top bitmap means every bin is empty. -/
theorem bins_empty_of_top_zero {s : AllocState} {B : Nat → List Nat}
    (hB : BinsWF s B) (h0 : s.m_usedBinsTop = 0) :
    ∀ b, b < NUM_LEAF_BINS → B b = [] := by
  obtain ⟨h1, h2, h3, h4⟩ := hB.bitmap
  intro b hb
  by_contra hne
  have hbit := (h1 b hb).mpr hne
  have hub : s.m_usedBins (b / 8) ≠ 0 := by
    intro hz
    rw [hz] at hbit
    simp [Nat.zero_and] at hbit
  have hb8 : b / 8 < NUM_TOP_BINS := by
    simp only [NUM_LEAF_BINS] at hb
    simp only [NUM_TOP_BINS]
    omega
  have := (h2 (b / 8) hb8).mpr hub
  rw [h0] at this
  simp [Nat.zero_and] at this

/-- If every bin is empty, there is no free node, so `m_freeStorage = 0`. -/
theorem fs_zero_of_bins_empty {s : AllocState} {L : List Nat}
    {B : Nat → List Nat} (hI : InvW s L B)
    (hbe : ∀ b, b < NUM_LEAF_BINS → B b = []) :
    s.m_freeStorage = 0 := by
  rw [hI.storage]
  have hnil : L.filter (fun i => decide ((s.m_nodes i).used = false)) = [] := by
    rw [List.filter_eq_nil_iff]
    intro a ha hpa
    have hf : (s.m_nodes a).used = false := by simpa using hpa
    have hbin := hI.freeInBin a ha hf
    have hszU : (s.m_nodes a).dataSize < U32 := by
      have h1 : szF s a ≤ sumList (szF s) L := le_sumList_of_mem ha
      have h2 := hI.chain.total
      have h3 := hI.sizeLt
      have e : szF s a = (s.m_nodes a).dataSize := rfl
      omega
    have hb256 : uintToSmallFloatRoundDown ((s.m_nodes a).dataSize) <
        NUM_LEAF_BINS := by
      have := roundDown_le_239 hszU
      simp only [NUM_LEAF_BINS]
      omega
    rw [hbe _ hb256] at hbin
    cases hbin
  rw [hnil]
  rfl

/-- Every node of bin `b` has size at least the decoded bin size, and the
    decoded bin size of a non-empty bin is at most the free storage. -/
theorem bin_size_bounds {s : AllocState} {L : List Nat} {B : Nat → List Nat}
    (hI : InvW s L B) {b : Nat} (hb : b < NUM_LEAF_BINS) {i : Nat}
    (hi : i ∈ B b) :
    smallFloatToUint b ≤ (s.m_nodes i).dataSize ∧
      (s.m_nodes i).dataSize ≤ s.m_freeStorage := by
  have hiL := hI.binsSub b hb i hi
  obtain ⟨hcls, hfree⟩ := hI.bins.memCls b hb i hi
  have hszU : (s.m_nodes i).dataSize < U32 := by
    have h1 : szF s i ≤ sumList (szF s) L := le_sumList_of_mem hiL
    have h2 := hI.chain.total
    have h3 := hI.sizeLt
    have e : szF s i = (s.m_nodes i).dataSize := rfl
    omega
  constructor
  · rw [← hcls]
    exact decode_roundDown_le hszU
  · rw [hI.storage]
    have hmem : i ∈ L.filter (fun j => decide ((s.m_nodes j).used = false)) :=
      List.mem_filter.mpr ⟨hiL, by simp [hfree]⟩
    have h4 : szF s i ≤
        sumList (szF s) (L.filter (fun j => decide ((s.m_nodes j).used = false))) :=
      le_sumList_of_mem hmem
    exact h4

/-- After an effective `reset`, every node record (live or not) is unused. -/
theorem reset_all_unused {s : AllocState} {n : Nat} (hne : s.m_size ≠ n) :
    ∀ i, ((reset s n).m_nodes i).used = false := by
  intro i
  rw [reset_ne hne]
  simp only [upd]
  split <;> rfl

/-- Amended C6: away from the `m_freeOffset = 0` corner state, the report's
    total is the free-storage counter (= the sum of free node sizes), and the
    reported largest region is the decoded size of the highest non-empty bin,
    a lower bound for the size of each node of that bin and at most the
    total. -/
theorem c6_characterization {s : AllocState} {L : List Nat}
    {B : Nat → List Nat} (hI : InvW s L B) (hfo : s.m_freeOffset ≠ 0) :
    (storageReport s).totalFreeSpace = s.m_freeStorage ∧
    s.m_freeStorage =
      sumList (szF s) (L.filter (fun i => (s.m_nodes i).used = false)) ∧
    (storageReport s).largestFreeRegion ≤ (storageReport s).totalFreeSpace ∧
    ((∀ b, b < NUM_LEAF_BINS → B b = []) ∧
        (storageReport s).largestFreeRegion = 0 ∨
      ∃ bmax, bmax < NUM_LEAF_BINS ∧ B bmax ≠ [] ∧
        (∀ b, b < NUM_LEAF_BINS → B b ≠ [] → b ≤ bmax) ∧
        (storageReport s).largestFreeRegion = smallFloatToUint bmax ∧
        ∀ i ∈ B bmax, smallFloatToUint bmax ≤ (s.m_nodes i).dataSize) := by
  have ht := storageReport_total hfo
  by_cases hub : s.m_usedBinsTop = 0
  · have hbe := bins_empty_of_top_zero hI.bins hub
    have hfs0 := fs_zero_of_bins_empty hI hbe
    have hl0 := storageReport_largest_zero hfo hub
    refine ⟨ht, hI.storage, ?_, Or.inl ⟨hbe, hl0⟩⟩
    rw [hl0]
    omega
  · rcases highestBin_max hI.bins.bitmap hub with ⟨hb1, hb2, hb3⟩
    have hlr := storageReport_largest_ne hfo hub
    refine ⟨ht, hI.storage, ?_,
      Or.inr ⟨_, hb1, hb2, hb3, hlr, fun i hi => (bin_size_bounds hI hb1 hi).1⟩⟩
    obtain ⟨i0, hi0⟩ := List.exists_mem_of_ne_nil _ hb2
    have hbd := bin_size_bounds hI hb1 hi0
    rw [ht, hlr]
    omega

/-- Coalescing round trip on an all-free invariant state: two successful
    allocations followed by freeing both (in either order) leave a single
    free node spanning the whole region. -/
theorem coalesce_general {s0 : AllocState} {L0 : List Nat} {B0 : Nat → List Nat}
    (hI0 : InvW s0 L0 B0) (hall0 : ∀ i, (s0.m_nodes i).used = false)
    {a b : Nat} (ha : a < U32) (hb : b < U32)
    (h1 : (allocate s0 a).2.metadata ≠ NO_SPACE)
    (h2 : (allocate (allocate s0 a).1 b).2.metadata ≠ NO_SPACE)
    (y1 y2 : Nat)
    (horder :
      y1 = (allocate s0 a).2.metadata ∧
        y2 = (allocate (allocate s0 a).1 b).2.metadata ∨
      y1 = (allocate (allocate s0 a).1 b).2.metadata ∧
        y2 = (allocate s0 a).2.metadata)
    (hpos : 0 < s0.m_size) :
    ∃ L4 B4 z,
      InvW (free (free (allocate (allocate s0 a).1 b).1 y1) y2) L4 B4 ∧
      L4 = [z] ∧
      ((free (free (allocate (allocate s0 a).1 b).1 y1) y2).m_nodes z).dataOffset
        = 0 ∧
      ((free (free (allocate (allocate s0 a).1 b).1 y1) y2).m_nodes z).dataSize
        = s0.m_size ∧
      ((free (free (allocate (allocate s0 a).1 b).1 y1) y2).m_nodes z).used
        = false ∧
      (free (free (allocate (allocate s0 a).1 b).1 y1) y2).m_freeStorage
        = s0.m_size ∧
      (free (free (allocate (allocate s0 a).1 b).1 y1) y2).m_freeOffset
        = sub32 s0.m_maxAllocs 1 ∧
      2 ≤ s0.m_maxAllocs := by
  rcases allocate_spec hI0 ha with heq |
    ⟨L1, B1, x1, hI1, halloc1, hx1L, hx1le, hx1free, hdsz1, hx1used, hhn1,
      hsz1, hma1, hframe1, hlen1, hcnt1⟩
  · exfalso
    apply h1
    rw [heq]
  have hx1 : (allocate s0 a).2.metadata = x1 := by rw [halloc1]
  rcases allocate_spec hI1 hb with heq |
    ⟨L2, B2, x2, hI2, halloc2, hx2L, hx2le, hx2free, hdsz2, hx2used, hhn2,
      hsz2, hma2, hframe2, hlen2, hcnt2⟩
  · exfalso
    apply h2
    rw [heq]
  have hx2 : (allocate (allocate s0 a).1 b).2.metadata = x2 := by rw [halloc2]
  have hx12 : x1 ≠ x2 := by
    intro hc
    rw [← hc] at hx2free
    rw [hx1used] at hx2free
    cases hx2free
  -- used flags in the doubly allocated state
  have husedx1s2 :
      (((allocate (allocate s0 a).1 b).1).m_nodes x1).used = true := by
    rw [hframe2 x1 hx12]
    exact hx1used
  have hother : ∀ i, i ≠ x1 → i ≠ x2 →
      (((allocate (allocate s0 a).1 b).1).m_nodes i).used = false := by
    intro i hi1 hi2
    rw [hframe2 i hi2, hframe1 i hi1]
    exact hall0 i
  -- translate the order disjunction to x1/x2
  have hyy : (y1 = x1 ∧ y2 = x2) ∨ (y1 = x2 ∧ y2 = x1) := by
    rcases horder with ⟨p, q⟩ | ⟨p, q⟩
    · exact Or.inl ⟨p.trans hx1, q.trans hx2⟩
    · exact Or.inr ⟨p.trans hx2, q.trans hx1⟩
  have hy1used : (((allocate (allocate s0 a).1 b).1).m_nodes y1).used = true := by
    rcases hyy with ⟨p, _⟩ | ⟨p, _⟩
    · rw [p]; exact husedx1s2
    · rw [p]; exact hx2used
  have hy2used : (((allocate (allocate s0 a).1 b).1).m_nodes y2).used = true := by
    rcases hyy with ⟨_, q⟩ | ⟨_, q⟩
    · rw [q]; exact hx2used
    · rw [q]; exact husedx1s2
  have hy21 : y2 ≠ y1 := by
    rcases hyy with ⟨p, q⟩ | ⟨p, q⟩
    · rw [p, q]; exact fun hc => hx12 hc.symm
    · rw [p, q]; exact hx12
  have hy1le : y1 ≤ ((allocate (allocate s0 a).1 b).1).m_maxAllocs := by
    rw [hma2]
    rcases hyy with ⟨p, _⟩ | ⟨p, _⟩
    · rw [p, hma1]; exact hx1le
    · rw [p]; exact hx2le
  have hy2le : y2 ≤ ((allocate (allocate s0 a).1 b).1).m_maxAllocs := by
    rw [hma2]
    rcases hyy with ⟨_, q⟩ | ⟨_, q⟩
    · rw [q]; exact hx2le
    · rw [q, hma1]; exact hx1le
  -- first free
  have hy1L2 : y1 ∈ L2 := by
    by_contra hc
    have h3 := hI2.unusedOut y1 hy1le hc
    rw [hy1used] at h3
    cases h3
  obtain ⟨L3, B3, hI3, hy1L3, hy1f3, hfr3, hsz3, hma3, hhn3⟩ :=
    free_spec hI2 hy1L2 hy1used
  -- second free
  have hy2used3 :
      ((free ((allocate (allocate s0 a).1 b).1) y1).m_nodes y2).used = true := by
    rw [hfr3 y2 hy21]
    exact hy2used
  have hy2le3 : y2 ≤ (free ((allocate (allocate s0 a).1 b).1) y1).m_maxAllocs := by
    rw [hma3]
    exact hy2le
  have hy2L3 : y2 ∈ L3 := by
    by_contra hc
    have h3 := hI3.unusedOut y2 hy2le3 hc
    rw [hy2used3] at h3
    cases h3
  obtain ⟨L4, B4, hI4, hy2L4, hy2f4, hfr4, hsz4, hma4, hhn4⟩ :=
    free_spec hI3 hy2L3 hy2used3
  -- every live node of the final state is free
  have hallfree : ∀ i ∈ L4,
      ((free (free ((allocate (allocate s0 a).1 b).1) y1) y2).m_nodes i).used
        = false := by
    intro i hiL
    by_cases hiy2 : i = y2
    · rw [hiy2]; exact hy2f4
    · rw [hfr4 i hiy2]
      by_cases hiy1 : i = y1
      · rw [hiy1]; exact hy1f3
      · rw [hfr3 i hiy1]
        refine hother i ?_ ?_
        · rcases hyy with ⟨p, q⟩ | ⟨p, q⟩
          · rw [← p]; exact hiy1
          · rw [← q]; exact hiy2
        · rcases hyy with ⟨p, q⟩ | ⟨p, q⟩
          · rw [← q]; exact hiy2
          · rw [← p]; exact hiy1
  have hpos4 :
      0 < (free (free ((allocate (allocate s0 a).1 b).1) y1) y2).m_size := by
    rw [hsz4, hsz3, hsz2, hsz1]
    exact hpos
  obtain ⟨z, hL4, hoffz, hszz, hfs⟩ := all_free_single hI4 hallfree hpos4
  -- the second allocation passed the stack guard
  have hoffs1 : ((allocate s0 a).1).m_freeOffset ≠ NO_SPACE := by
    intro hc
    apply h2
    rw [allocate_noSpace hc]
  have hmU : s0.m_maxAllocs < U32 := by
    have := hI0.maxLt
    simp only [U32] at *
    omega
  have hL1len : L1.length ≤ s0.m_maxAllocs := by
    have hoff1 := hI1.stack.off
    have hcnt := hI1.stack.count
    rw [hma1] at hoff1 hcnt
    by_contra hc
    apply hoffs1
    rw [hoff1, show L1.length = s0.m_maxAllocs + 1 from by omega]
    rw [sub32_eq_NO_SPACE_iff (by omega) hI0.maxLt]
  have hm2 : 2 ≤ s0.m_maxAllocs := by
    by_contra hc
    push_neg at hc
    have hx1L1 : x1 ∈ L1 := by
      by_contra hcc
      have h3 := hI1.unusedOut x1 (by rw [hma1]; exact hx1le) hcc
      rw [hx1used] at h3
      cases h3
    rcases L1 with _ | ⟨w, _ | ⟨w2, tl⟩⟩
    · cases hx1L1
    · have e1 : x1 = w := List.mem_singleton.mp hx1L1
      have e2 : x2 = w := List.mem_singleton.mp hx2L
      exact hx12 (e1.trans e2.symm)
    · simp only [List.length_cons] at hL1len
      omega
  -- final stack offset
  have hlen4 : L4.length = 1 := by rw [hL4]; rfl
  have hofft :
      (free (free ((allocate (allocate s0 a).1 b).1) y1) y2).m_freeOffset
        = sub32 s0.m_maxAllocs 1 := by
    have hoff4 := hI4.stack.off
    rw [hlen4, hma4, hma3, hma2, hma1] at hoff4
    exact hoff4
  have huz :
      ((free (free ((allocate (allocate s0 a).1 b).1) y1) y2).m_nodes z).used
        = false := by
    refine hallfree z ?_
    rw [hL4]
    exact List.mem_singleton_self _
  refine ⟨L4, B4, z, hI4, hL4, hoffz, ?_, huz, ?_, hofft, hm2⟩
  · rw [hszz, hsz4, hsz3, hsz2, hsz1]
  · rw [hfs, hsz4, hsz3, hsz2, hsz1]

/-- C1: after `reset(S)` on a reachable allocator, every sequence of
    `allocate`/contract-respecting `free` calls leaves a state whose live
    nodes tile `[0, S)` with correct neighbor links, and whose free sizes
    plus used sizes sum to `S`. -/
theorem c1_tiling_invariant {s0 t : AllocState} {S : Nat} (h0 : Reachable s0)
    (hS : S < U32) (hAF : AFReach (reset s0 S) t) : TilesAndLinked t S := by
  have hg1 : GoodState (reset s0 S) := good_reset (reachable_good h0) hS
  obtain ⟨hgt, hsz⟩ := af_good hAF hg1
  exact good_tiles hgt (hsz.trans reset_size)

theorem c1_tiling_invariant_witness : TilesAndLinked (reset (initState 4) 16) 16 :=
  c1_tiling_invariant (Reachable.init 4 (by decide)) (by decide)
    (AFReach.refl _)

/-- C2: whenever `allocate` succeeds on a reachable state, `allocationSize`
    of the returned allocation is exactly the requested size. -/
theorem c2_allocation_size_exact {s : AllocState} (hs : Reachable s) {n : Nat}
    (hn : n < U32) (hsucc : (allocate s n).2.metadata ≠ NO_SPACE) :
    allocationSize (allocate s n).1 (allocate s n).2 = n := by
  rcases reachable_good hs with hP | ⟨L, B, hI⟩
  · exfalso
    apply hsucc
    rw [allocate_preInit hP]
  · rcases allocate_spec hI hn with heq |
      ⟨L1, B1, x, hI1, halloc, hxL, hxle, hxfree, hdsz, hxused, hhn1, hsz1,
        hma1, hframe1, hlen1, hcnt1⟩
    · exfalso
      apply hsucc
      rw [heq]
    · rw [halloc]
      simp only [allocationSize]
      have hxNO : x ≠ NO_SPACE := by
        have h3 := hI.maxLt
        simp only [NO_SPACE, U32] at *
        omega
      rw [if_neg hxNO, if_neg (by rw [hhn1]; simp)]
      exact hdsz

theorem c2_allocation_size_exact_witness :
    allocationSize (allocate (reset (initState 3) 16) 5).1
      (allocate (reset (initState 3) 16) 5).2 = 5 :=
  c2_allocation_size_exact
    (Reachable.reset _ 16 (by decide) (Reachable.init 3 (by decide)))
    (by decide) (by decide)

/-- C3: on a freshly reset allocator, two successful allocations followed by
    freeing both (in either order) leave exactly one free node spanning
    `[0, S)`, and the reported total free space is `S`. -/
theorem c3_coalescing {m S a b : Nat} (y1 y2 : Nat) (hm : m ≤ U32 - 2)
    (hS : 0 < S) (hSU : S < U32) (hab : a + b ≤ S) (ha : a < U32)
    (hb : b < U32)
    (h1 : (allocate (reset (initState m) S) a).2.metadata ≠ NO_SPACE)
    (h2 : (allocate (allocate (reset (initState m) S) a).1 b).2.metadata
      ≠ NO_SPACE)
    (horder :
      y1 = (allocate (reset (initState m) S) a).2.metadata ∧
        y2 = (allocate (allocate (reset (initState m) S) a).1 b).2.metadata ∨
      y1 = (allocate (allocate (reset (initState m) S) a).1 b).2.metadata ∧
        y2 = (allocate (reset (initState m) S) a).2.metadata) :
    ∃ L4 B4 z,
      InvW (free (free (allocate (allocate (reset (initState m) S) a).1 b).1
          y1) y2) L4 B4 ∧
      L4 = [z] ∧
      ((free (free (allocate (allocate (reset (initState m) S) a).1 b).1
          y1) y2).m_nodes z).dataOffset = 0 ∧
      ((free (free (allocate (allocate (reset (initState m) S) a).1 b).1
          y1) y2).m_nodes z).dataSize = S ∧
      ((free (free (allocate (allocate (reset (initState m) S) a).1 b).1
          y1) y2).m_nodes z).used = false ∧
      (free (free (allocate (allocate (reset (initState m) S) a).1 b).1
          y1) y2).m_freeStorage = S ∧
      (storageReport (free (free (allocate (allocate (reset (initState m) S)
          a).1 b).1 y1) y2)).totalFreeSpace = S := by
  have hne0 : (initState m).m_size ≠ S := by
    show (0 : Nat) ≠ S
    omega
  have hI0 := reset_invW hne0 hSU hm
  have hall0 := reset_all_unused hne0
  have hpos : 0 < (reset (initState m) S).m_size := by
    rw [reset_size]
    exact hS
  obtain ⟨L4, B4, z, hI4, hL4, hoffz, hszz, huz, hfs, hfo, hm2⟩ :=
    coalesce_general hI0 hall0 ha hb h1 h2 y1 y2 horder hpos
  rw [reset_maxA] at hfo hm2
  have hm2' : 2 ≤ m := hm2
  have hfone :
      (free (free (allocate (allocate (reset (initState m) S) a).1 b).1
        y1) y2).m_freeOffset ≠ 0 := by
    rw [hfo]
    have hmU : m < U32 := by
      simp only [U32] at *
      omega
    have he : sub32 (initState m).m_maxAllocs 1 = m - 1 :=
      sub32_eq (by show 1 ≤ m; omega) (by show m < U32; exact hmU)
    rw [he]
    omega
  refine ⟨L4, B4, z, hI4, hL4, hoffz, ?_, huz, ?_, ?_⟩
  · rw [hszz, reset_size]
  · rw [hfs, reset_size]
  · rw [storageReport_total hfone, hfs, reset_size]

theorem c3_coalescing_witness :
    ∃ L4 B4 z,
      InvW (free (free (allocate (allocate (reset (initState 4) 8) 3).1 3).1
          0) 1) L4 B4 ∧
      L4 = [z] ∧
      ((free (free (allocate (allocate (reset (initState 4) 8) 3).1 3).1
          0) 1).m_nodes z).dataOffset = 0 ∧
      ((free (free (allocate (allocate (reset (initState 4) 8) 3).1 3).1
          0) 1).m_nodes z).dataSize = 8 ∧
      ((free (free (allocate (allocate (reset (initState 4) 8) 3).1 3).1
          0) 1).m_nodes z).used = false ∧
      (free (free (allocate (allocate (reset (initState 4) 8) 3).1 3).1
          0) 1).m_freeStorage = 8 ∧
      (storageReport (free (free (allocate (allocate (reset (initState 4) 8)
          3).1 3).1 0) 1)).totalFreeSpace = 8 :=
  c3_coalescing 0 1 (by decide) (by decide) (by decide) (by decide)
    (by decide) (by decide) (by decide) (by decide)
    (Or.inl ⟨by decide, by decide⟩)

/-- C4 (amended): the decoded round-up class is an upper bound only below
    `classIndexToSize(240) = 2^32` (the round trip overflows above
    4026531840), the decoded round-down class is a lower bound for all
    `uint32` inputs, and both codecs are monotone. -/
theorem c4_quantization_bounds (n : Nat) :
    (n ≤ 4026531840 → n ≤ smallFloatToUint (uintToSmallFloatRoundUp n)) ∧
    (n < U32 → smallFloatToUint (uintToSmallFloatRoundDown n) ≤ n) ∧
    (∀ a, a ≤ n → n < U32 →
      uintToSmallFloatRoundUp a ≤ uintToSmallFloatRoundUp n ∧
      uintToSmallFloatRoundDown a ≤ uintToSmallFloatRoundDown n) :=
  ⟨fun h => decode_roundUp_ge h, fun h => decode_roundDown_le h,
    fun a ha hn => ⟨roundUp_mono ha hn, roundDown_mono ha hn⟩⟩

theorem c4_quantization_counterexample :
    4026531841 < U32 ∧
    ¬ (4026531841 ≤ smallFloatToUint (uintToSmallFloatRoundUp 4026531841)) := by
  constructor
  · decide
  · decide

theorem c4_quantization_bounds_witness :
    100 ≤ smallFloatToUint (uintToSmallFloatRoundUp 100) ∧
    smallFloatToUint (uintToSmallFloatRoundDown 100) ≤ 100 ∧
    uintToSmallFloatRoundUp 64 ≤ uintToSmallFloatRoundUp 100 ∧
    uintToSmallFloatRoundDown 64 ≤ uintToSmallFloatRoundDown 100 :=
  ⟨(c4_quantization_bounds 100).1 (by decide),
    (c4_quantization_bounds 100).2.1 (by decide),
    ((c4_quantization_bounds 100).2.2 64 (by decide) (by decide)).1,
    ((c4_quantization_bounds 100).2.2 64 (by decide) (by decide)).2⟩

/-- C5: with `maxAllocs = k`, after `k` successful outstanding allocations
    the next `allocate` returns the sentinel allocation (handle
    exhaustion). -/
theorem c5_handle_exhaustion {k S : Nat} (hk : k ≤ U32 - 2) (hS : 0 < S)
    (hSU : S < U32) {ns : List Nat} (hlen : ns.length = k)
    (hns : ∀ n ∈ ns, n < U32) {nl : Nat} (hnl : nl < U32)
    (hsucc : ∀ a ∈ (allocateSeq (reset (initState k) S) ns).2,
      a.metadata ≠ NO_SPACE) :
    (allocate (allocateSeq (reset (initState k) S) ns).1 nl).2
      = ({} : Alloc) := by
  have hne : (initState k).m_size ≠ S := by
    show (0 : Nat) ≠ S
    omega
  have hI0 := reset_invW hne hSU hk
  have hcnt0 : (([0] : List Nat).filter
      (fun i => ((reset (initState k) S).m_nodes i).used)).length = 0 := by
    have hu := reset_node0_unused hne
    simp [List.filter_cons, hu]
  obtain ⟨L2, B2, hI2, hma2, hcnt2⟩ := allocateSeq_count ns hI0 hns hsucc
  rw [hcnt0] at hcnt2
  have hfail := allocate_at_cap hI2 hnl (by
    rw [hcnt2, hma2, reset_maxA]
    show k ≤ 0 + ns.length
    omega)
  rw [hfail]

theorem c5_handle_exhaustion_witness :
    (allocate (allocateSeq (reset (initState 2) 8) [1, 1]).1 1).2
      = ({} : Alloc) :=
  c5_handle_exhaustion (by decide) (by decide) (by decide) (by decide)
    (by decide) (by decide) (by decide)

theorem c6_storage_report_counterexample :
    Reachable (reset (initState 1) 5) ∧
    (reset (initState 1) 5).m_freeStorage = 5 ∧
    (storageReport (reset (initState 1) 5)).totalFreeSpace = 0 :=
  ⟨Reachable.reset _ 5 (by decide) (Reachable.init 1 (by decide)),
    by decide, by decide⟩

theorem c6_storage_report_witness :
    (storageReport (reset (initState 2) 5)).totalFreeSpace
      = (reset (initState 2) 5).m_freeStorage :=
  (c6_characterization
    (reset_invW (by decide) (by decide) (by decide)) (by decide)).1

/-- C7 (amended): the concrete scenario, with the correct outcome for the
    900-sized request: `reset(1024)` with `maxAllocs = 128`, `allocate(100)`
    at offset 0 (exact size 100), `allocate(50)` at offset 100, free the
    first; the report's total free space is 974, and both `allocate(974)`
    and `allocate(900)` fail (900 rounds up to size class 960, above the
    874-sized trailing region's round-down class 832), while `allocate(832)`
    succeeds at offset 150. -/
theorem c7_concrete_scenario :
    (allocate (reset (initState 128) 1024) 100).2
      = { offset := 0, metadata := 0 } ∧
    allocationSize (allocate (reset (initState 128) 1024) 100).1
      (allocate (reset (initState 128) 1024) 100).2 = 100 ∧
    (allocate (allocate (reset (initState 128) 1024) 100).1 50).2
      = { offset := 100, metadata := 1 } ∧
    (storageReport (free (allocate (allocate (reset (initState 128) 1024)
        100).1 50).1 0)).totalFreeSpace = 974 ∧
    (allocate (free (allocate (allocate (reset (initState 128) 1024) 100).1
        50).1 0) 974).2 = ({} : Alloc) ∧
    (allocate (free (allocate (allocate (reset (initState 128) 1024) 100).1
        50).1 0) 900).2 = ({} : Alloc) ∧
    (allocate (free (allocate (allocate (reset (initState 128) 1024) 100).1
        50).1 0) 832).2 = { offset := 150, metadata := 2 } := by
  refine ⟨?_, ?_, ?_, ?_, ?_, ?_, ?_⟩ <;> decide

theorem c7_concrete_scenario_counterexample :
    (allocate (free (allocate (allocate (reset (initState 128) 1024) 100).1
        50).1 0) 900).2 = ({} : Alloc) := by
  decide

/-- C8: `reset` is a no-op exactly when the size is unchanged; otherwise it
    rebuilds the entire state: empty bitmap and directory, full free-handle
    stack, and a single free node spanning `[0, n)`. -/
theorem c8_reset {s : AllocState} {n : Nat} (hn : n < U32)
    (hm : s.m_maxAllocs ≤ U32 - 2) :
    (s.m_size = n → reset s n = s) ∧
    (s.m_size ≠ n →
      reset s n =
        { m_size := n
          m_maxAllocs := s.m_maxAllocs
          m_freeStorage := add32 0 n
          m_usedBinsTop := 0 |||
            (1 <<< ((uintToSmallFloatRoundDown n) >>> TOP_BINS_INDEX_SHIFT))
          m_usedBins := upd (fun _ => 0)
            ((uintToSmallFloatRoundDown n) >>> TOP_BINS_INDEX_SHIFT)
            (0 ||| (1 <<< ((uintToSmallFloatRoundDown n) &&&
              LEAF_BINS_INDEX_MASK)))
          m_binIndices := upd (fun _ => UNUSED) (uintToSmallFloatRoundDown n) 0
          hasNodes := true
          m_nodes := upd (fun _ => {}) 0
            ({ dataOffset := 0, dataSize := n, binListNext := UNUSED })
          m_freeNodes := fun i =>
            if i < s.m_maxAllocs + 1 then s.m_maxAllocs - i else 0
          m_freeOffset := sub32 s.m_maxAllocs 1 } ∧
      InvW (reset s n) [0]
        (upd (fun _ => []) (uintToSmallFloatRoundDown n) [0]) ∧
      ((reset s n).m_nodes 0).dataOffset = 0 ∧
      ((reset s n).m_nodes 0).dataSize = n ∧
      ((reset s n).m_nodes 0).used = false) := by
  refine ⟨reset_noop, fun hne => ⟨reset_ne hne, reset_invW hne hn hm, ?_, ?_, ?_⟩⟩
  · rw [reset_ne hne]
    rfl
  · rw [reset_ne hne]
    rfl
  · rw [reset_ne hne]
    rfl

theorem c8_reset_witness :
    reset (initState 2) 5 ≠ initState 2 ∧
    ((reset (initState 2) 5).m_nodes 0).dataOffset = 0 ∧
    ((reset (initState 2) 5).m_nodes 0).dataSize = 5 ∧
    ((reset (initState 2) 5).m_nodes 0).used = false := by
  have h := (c8_reset (s := initState 2) (n := 5) (by decide) (by decide)).2
    (by decide)
  refine ⟨?_, h.2.2.1, h.2.2.2.1, h.2.2.2.2⟩
  intro hc
  have h5 : (reset (initState 2) 5).m_size = 5 := reset_size
  rw [hc] at h5
  cases h5

/-- C9: `free` with the sentinel handle, or on an allocator whose node arena
    was never allocated, is a no-op on the entire state. -/
theorem c9_free_guard (s : AllocState) :
    free s NO_SPACE = s ∧ (s.hasNodes = false → ∀ i, free s i = s) :=
  ⟨free_noop (Or.inl rfl), fun h i => free_noop (Or.inr h)⟩

theorem c9_free_guard_witness :
    free (initState 3) NO_SPACE = initState 3 ∧
    free (initState 3) 7 = initState 3 :=
  ⟨(c9_free_guard (initState 3)).1, (c9_free_guard (initState 3)).2 rfl 7⟩

set_option maxRecDepth 10000

/-- C10 (amended): the codec round-trips exactly on class indices below 240;
    at 240 the decoded size overflows `uint32` to 0 and the round trip
    fails. -/
theorem c10_codec_roundtrip : ∀ c, c < 240 →
    uintToSmallFloatRoundUp (smallFloatToUint c) = c ∧
    uintToSmallFloatRoundDown (smallFloatToUint c) = c := by
  decide

theorem c10_codec_counterexample :
    240 < 256 ∧ smallFloatToUint 240 = 0 ∧
    uintToSmallFloatRoundUp (smallFloatToUint 240) = 0 ∧
    uintToSmallFloatRoundDown (smallFloatToUint 240) = 0 := by
  refine ⟨?_, ?_, ?_, ?_⟩ <;> decide

theorem c10_codec_roundtrip_witness :
    uintToSmallFloatRoundUp (smallFloatToUint 100) = 100 ∧
    uintToSmallFloatRoundDown (smallFloatToUint 100) = 100 :=
  c10_codec_roundtrip 100 (by decide)

end OffsetAllocator
